import Mathlib

/-! # neuro-go: a three-layer feed-forward network trained by backpropagation

Two programs share one engine: `drawnn.go` (auto-associator over a 10×10 grid,
namespace `Drawnn`) and `shaffer.go` (XOR, namespace `Shaffer`).

Modelling choices.

* `float64` arithmetic is kept abstract: the functions are written over an
  arbitrary carrier `F` with the operations the code uses.  Statements that
  need no law of arithmetic are proved for every such carrier; statements
  that regroup sums or compare values are proved in exact arithmetic (a field
  or an ordered field, no rounding).  Where rounding decides a statement, the
  code is run on `Float64`, rationals rounded to 53 significant bits.
* `math.Pow` and `math.E` belong to Go's standard library; they are passed
  to the functions that call them as the parameters `Pow` and `E`.
* A `[]float64` is a `List F`, a `[][]float64` a `List (List F)`.  Every
  index the programs use is in range when the slices have the length
  `ARRAYSIZE` that `main` allocates; the theorems assume those sizes
  (`Net.Sized`).  Outside that assumption a read out of range yields `0` and a
  write out of range is dropped, where Go would panic.
* `*rand.Rand` is the sequence of values its `Float64` method is going to
  return, together with the number of values already drawn.
* `for i := lo; i < hi; i++ { body }` is `forRange lo hi body`.
* The loop of `main` in `shaffer.go` takes the random source and the number of
  passes as parameters (`Shaffer.main`); printing and drawing are left out.
* Of `displayNetwork`, which draws, only the grey levels are kept
  (`mapFloatToInt` and the conversions `int(x)`, `uint8(n)`), over an ordered
  field with a floor.
-/

namespace NeuroGo

/-! ## Loops -/

/-- The loop `for i := lo; i < hi; i++ { s = body i s }`. -/
def forRange {σ : Type} (lo hi : Nat) (body : Nat → σ → σ) (s : σ) : σ :=
  (List.range' lo (hi - lo)).foldl (fun acc i => body i acc) s

/-! ## The random source -/

/-- A `*rand.Rand`: the values `Float64` returns, in order, and how many of
them have been consumed. -/
structure Rand (F : Type) where
  draws : Nat → F
  pos : Nat

/-- The call `r.Float64()`: the next value and the advanced source. -/
def Rand.Float64 {F : Type} (r : Rand F) : F × Rand F :=
  (r.draws r.pos, ⟨r.draws, r.pos + 1⟩)

/-! ## Network state -/

/-- The four slices `main` allocates and hands to every function. -/
structure Net (F : Type) where
  weights : List (List F)
  values : List F
  expectedValues : List F
  thresholds : List F

namespace Net

variable {F : Type}

/-- The read `weights[x][y]`. -/
def weight [Zero F] (n : Net F) (x y : Nat) : F := (n.weights.getD x []).getD y 0

/-- The read `values[i]`. -/
def value [Zero F] (n : Net F) (i : Nat) : F := n.values.getD i 0

/-- The read `expectedValues[i]`. -/
def expected [Zero F] (n : Net F) (i : Nat) : F := n.expectedValues.getD i 0

/-- The read `thresholds[i]`. -/
def threshold [Zero F] (n : Net F) (i : Nat) : F := n.thresholds.getD i 0

/-- The assignment `weights[x][y] = v`. -/
def setWeight (n : Net F) (x y : Nat) (v : F) : Net F :=
  ⟨n.weights.set x ((n.weights.getD x []).set y v), n.values, n.expectedValues, n.thresholds⟩

/-- The assignment `weights[x] = row`. -/
def setRow (n : Net F) (x : Nat) (row : List F) : Net F :=
  ⟨n.weights.set x row, n.values, n.expectedValues, n.thresholds⟩

/-- The assignment `values[i] = v`. -/
def setValue (n : Net F) (i : Nat) (v : F) : Net F :=
  ⟨n.weights, n.values.set i v, n.expectedValues, n.thresholds⟩

/-- The assignment `expectedValues[i] = v`. -/
def setExpected (n : Net F) (i : Nat) (v : F) : Net F :=
  ⟨n.weights, n.values, n.expectedValues.set i v, n.thresholds⟩

/-- The assignment `thresholds[i] = v`. -/
def setThreshold (n : Net F) (i : Nat) (v : F) : Net F :=
  ⟨n.weights, n.values, n.expectedValues, n.thresholds.set i v⟩

/-- The slices have the sizes of `main`: `size` rows of `size` weights and
three vectors of `size` entries. -/
def Sized (n : Net F) (size : Nat) : Prop :=
  n.weights.length = size ∧ (∀ x, x < size → (n.weights.getD x []).length = size) ∧
    n.values.length = size ∧ n.expectedValues.length = size ∧ n.thresholds.length = size

/-- The four slices have `size` entries each, as `main` makes them; the rows of
the weight matrix are not constrained (they are nil until `initialize` runs). -/
def Allocated (n : Net F) (size : Nat) : Prop :=
  n.weights.length = size ∧ n.values.length = size ∧ n.expectedValues.length = size ∧
    n.thresholds.length = size

instance Sized.decidable (n : Net F) (size : Nat) : Decidable (n.Sized size) :=
  inferInstanceAs (Decidable (n.weights.length = size ∧
    (∀ x, x < size → (n.weights.getD x []).length = size) ∧
    n.values.length = size ∧ n.expectedValues.length = size ∧ n.thresholds.length = size))

instance Allocated.decidable (n : Net F) (size : Nat) : Decidable (n.Allocated size) :=
  inferInstanceAs (Decidable (n.weights.length = size ∧ n.values.length = size ∧
    n.expectedValues.length = size ∧ n.thresholds.length = size))

/-- The slices as `main` allocates them, before they are initialised: `size` nil
rows and three zeroed vectors. -/
def alloc [Zero F] (size : Nat) : Net F :=
  ⟨List.replicate size [], List.replicate size 0, List.replicate size 0, List.replicate size 0⟩

/-- A state of `size` nodes with one value per slice (test data). -/
def const (size : Nat) (w v e t : F) : Net F :=
  ⟨List.replicate size (List.replicate size w), List.replicate size v, List.replicate size e,
    List.replicate size t⟩

end Net

/-! ## `drawnn.go` -/

namespace Drawnn

variable {F : Type}

def SQUAREROOTOFNODES : Nat := 10
def NUMINPUTNODES : Nat := SQUAREROOTOFNODES * SQUAREROOTOFNODES
def NUMHIDDENNODES : Nat := 20
def NUMOUTPUTNODES : Nat := SQUAREROOTOFNODES * SQUAREROOTOFNODES
def NUMNODES : Nat := NUMINPUTNODES + NUMHIDDENNODES + NUMOUTPUTNODES
def ARRAYSIZE : Nat := NUMNODES
def LEARNINGRATE [OfScientific F] : F := 0.6

/-- The input nodes: the indices the `input` loops run over. -/
def inputNodes : Finset Nat := Finset.Ico 0 NUMINPUTNODES

/-- The hidden nodes: the indices the `hidden` loops run over. -/
def hiddenNodes : Finset Nat := Finset.Ico NUMINPUTNODES (NUMINPUTNODES + NUMHIDDENNODES)

/-- The output nodes: the indices the `output` loops run over. -/
def outputNodes : Finset Nat := Finset.Ico (NUMINPUTNODES + NUMHIDDENNODES) NUMNODES

/-- The function `initialize` of `drawnn.go`: set 0.0 values to all slice cells.
(The source's name is a reserved word here.) -/
def initializeNet [Zero F] (n : Net F) : Net F :=
  forRange 0 NUMNODES (fun x n =>
    let n := n.setValue x 0
    let n := n.setExpected x 0
    let n := n.setThreshold x 0
    let n := n.setRow x (List.replicate ARRAYSIZE 0)
    forRange 0 NUMNODES (fun y n => n.setWeight x y 0) n) n

/-- The function `connectNodes`: random weights on the connections, random
thresholds on the hidden and output nodes. -/
def connectNodes (r : Rand F) (n : Net F) : Rand F × Net F :=
  let s := forRange 0 (NUMNODES - NUMOUTPUTNODES) (fun x s =>
    forRange NUMINPUTNODES NUMNODES (fun y s =>
      ((s.1.Float64).2, s.2.setWeight x y (s.1.Float64).1)) s) (r, n)
  forRange NUMINPUTNODES NUMNODES (fun i s =>
    ((s.1.Float64).2, s.2.setThreshold i (s.1.Float64).1)) s

/-- The function `trainingExample`: random binary inputs and the equal expected
outputs. -/
def trainingExample [Zero F] [One F] [OfScientific F] [LE F] [DecidableRel (α := F) (· ≤ ·)]
    (r : Rand F) (n : Net F) : Rand F × Net F :=
  forRange 0 NUMINPUTNODES (fun i s =>
    let birand := (s.1.Float64).1
    if birand ≤ 0.5 then
      ((s.1.Float64).2,
        (s.2.setValue i 0).setExpected (i + NUMINPUTNODES + NUMHIDDENNODES) 0)
    else
      ((s.1.Float64).2,
        (s.2.setValue i 1).setExpected (i + NUMINPUTNODES + NUMHIDDENNODES) 1)) (r, n)

/-- The function `activateNetwork`: hidden layer first, then the output layer. -/
def activateNetwork [Zero F] [One F] [Add F] [Sub F] [Mul F] [Div F] [Neg F]
    (Pow : F → F → F) (E : F) (n : Net F) : Net F :=
  let n := forRange NUMINPUTNODES (NUMINPUTNODES + NUMHIDDENNODES) (fun hidden n =>
    let weightedInput := forRange 0 NUMINPUTNODES (fun input weightedInput =>
      weightedInput + n.weight input hidden * n.value input) 0
    let weightedInput := weightedInput - n.threshold hidden
    n.setValue hidden (1 / (1 + Pow E (-weightedInput)))) n
  forRange (NUMINPUTNODES + NUMHIDDENNODES) NUMNODES (fun output n =>
    let weightedInput := forRange NUMINPUTNODES (NUMINPUTNODES + NUMHIDDENNODES)
      (fun hidden weightedInput =>
        weightedInput + n.weight hidden output * n.value hidden) 0
    let weightedInput := weightedInput - n.threshold output
    n.setValue output (1 / (1 + Pow E (-weightedInput)))) n

/-- The function `updateWeights`: the returned sum of squared errors and the state
with the adjusted weights and thresholds. -/
def updateWeights [Zero F] [One F] [Add F] [Sub F] [Mul F] [Neg F] [OfScientific F]
    [OfNat F 2]
    (Pow : F → F → F) (n : Net F) : F × Net F :=
  forRange (NUMINPUTNODES + NUMHIDDENNODES) NUMNODES (fun output s =>
    let absoluteError := s.2.expected output - s.2.value output
    let sumOfSquaredErrors := s.1 + Pow absoluteError 2
    let outputErrorGradient := s.2.value output * (1 - s.2.value output) * absoluteError
    let n := forRange NUMINPUTNODES (NUMINPUTNODES + NUMHIDDENNODES) (fun hidden n =>
      let delta := LEARNINGRATE * n.value hidden * outputErrorGradient
      let n := n.setWeight hidden output (n.weight hidden output + delta)
      let hiddenErrorGradient :=
        n.value hidden * (1 - n.value hidden) * outputErrorGradient * n.weight hidden output
      let n := forRange 0 NUMINPUTNODES (fun input n =>
        let delta := LEARNINGRATE * n.value input * hiddenErrorGradient
        n.setWeight input hidden (n.weight input hidden + delta)) n
      let thresholdDelta := LEARNINGRATE * -1 * hiddenErrorGradient
      n.setThreshold hidden (n.threshold hidden + thresholdDelta)) s.2
    let delta := LEARNINGRATE * -1 * outputErrorGradient
    (sumOfSquaredErrors, n.setThreshold output (n.threshold output + delta))) (0, n)

end Drawnn

/-! ## `shaffer.go` -/

namespace Shaffer

variable {F : Type}

def NUMINPUTNODES : Nat := 2
def NUMHIDDENNODES : Nat := 2
def NUMOUTPUTNODES : Nat := 1
def NUMNODES : Nat := NUMINPUTNODES + NUMHIDDENNODES + NUMOUTPUTNODES
def ARRAYSIZE : Nat := NUMNODES + 1
def LEARNINGRATE [OfScientific F] : F := 0.2

/-- The input nodes: the indices the `input` loops run over (1 and 2). -/
def inputNodes : Finset Nat := Finset.Ico 1 (1 + NUMINPUTNODES)

/-- The hidden nodes: the indices the `hidden` loops run over (3 and 4). -/
def hiddenNodes : Finset Nat :=
  Finset.Ico (1 + NUMINPUTNODES) (1 + NUMINPUTNODES + NUMHIDDENNODES)

/-- The output nodes: the indices the `output` loops run over (5 alone). -/
def outputNodes : Finset Nat := Finset.Ico (1 + NUMINPUTNODES + NUMHIDDENNODES) (1 + NUMNODES)

/-- The function `initialize` of `shaffer.go`: set 0.0 values to all slice cells,
index 0 included.  (The source's name is a reserved word here.) -/
def initializeNet [Zero F] (n : Net F) : Net F :=
  forRange 0 (NUMNODES + 1) (fun x n =>
    let n := n.setValue x 0
    let n := n.setExpected x 0
    let n := n.setThreshold x 0
    let n := n.setRow x (List.replicate ARRAYSIZE 0)
    forRange 0 (NUMNODES + 1) (fun y n => n.setWeight x y 0) n) n

/-- The function `connectNodes`: random weights on all node-to-node connections,
random thresholds on nodes 3, 4 and 5. -/
def connectNodes [Mul F] [OfNat F 2] (r : Rand F) (n : Net F) : Rand F × Net F :=
  let s := forRange 1 (NUMNODES + 1) (fun x s =>
    forRange 1 (NUMNODES + 1) (fun y s =>
      ((s.1.Float64).2, s.2.setWeight x y ((s.1.Float64).1 * 2))) s) (r, n)
  let s := ((s.1.Float64).2, s.2.setThreshold 3 (s.1.Float64).1)
  let s := ((s.1.Float64).2, s.2.setThreshold 4 (s.1.Float64).1)
  ((s.1.Float64).2, s.2.setThreshold 5 (s.1.Float64).1)

/-- The function `trainingExample`: the XOR row selected by `iter % 4` (Go's
truncated remainder; no case matches a negative remainder). -/
def trainingExample [Zero F] [One F] (iter : Int) (n : Net F) : Net F :=
  match Int.tmod iter 4 with
  | 0 => ((n.setValue 1 1).setValue 2 1).setExpected 5 0
  | 1 => ((n.setValue 1 0).setValue 2 1).setExpected 5 1
  | 2 => ((n.setValue 1 1).setValue 2 0).setExpected 5 1
  | 3 => ((n.setValue 1 0).setValue 2 0).setExpected 5 0
  | _ => n

/-- The function `activateNetwork`: hidden layer first, then the output layer. -/
def activateNetwork [Zero F] [One F] [Add F] [Sub F] [Mul F] [Div F] [Neg F]
    (Pow : F → F → F) (E : F) (n : Net F) : Net F :=
  let n := forRange (1 + NUMINPUTNODES) (1 + NUMINPUTNODES + NUMHIDDENNODES) (fun hidden n =>
    let weightedInput := forRange 1 (1 + NUMINPUTNODES) (fun input weightedInput =>
      weightedInput + n.weight input hidden * n.value input) 0
    let weightedInput := weightedInput - n.threshold hidden
    n.setValue hidden (1 / (1 + Pow E (-weightedInput)))) n
  forRange (1 + NUMINPUTNODES + NUMHIDDENNODES) (1 + NUMNODES) (fun output n =>
    let weightedInput := forRange (1 + NUMINPUTNODES) (1 + NUMINPUTNODES + NUMHIDDENNODES)
      (fun hidden weightedInput =>
        weightedInput + n.weight hidden output * n.value hidden) 0
    let weightedInput := weightedInput - n.threshold output
    n.setValue output (1 / (1 + Pow E (-weightedInput)))) n

/-- The function `updateWeights`: the returned sum of squared errors and the state
with the adjusted weights and thresholds. -/
def updateWeights [Zero F] [One F] [Add F] [Sub F] [Mul F] [Neg F] [OfScientific F]
    [OfNat F 2]
    (Pow : F → F → F) (n : Net F) : F × Net F :=
  forRange (1 + NUMINPUTNODES + NUMHIDDENNODES) (1 + NUMNODES) (fun output s =>
    let absoluteError := s.2.expected output - s.2.value output
    let sumOfSquaredErrors := s.1 + Pow absoluteError 2
    let outputErrorGradient := s.2.value output * (1 - s.2.value output) * absoluteError
    let n := forRange (1 + NUMINPUTNODES) (1 + NUMINPUTNODES + NUMHIDDENNODES) (fun hidden n =>
      let delta := LEARNINGRATE * n.value hidden * outputErrorGradient
      let n := n.setWeight hidden output (n.weight hidden output + delta)
      let hiddenErrorGradient :=
        n.value hidden * (1 - n.value hidden) * outputErrorGradient * n.weight hidden output
      let n := forRange 1 (1 + NUMINPUTNODES) (fun input n =>
        let delta := LEARNINGRATE * n.value input * hiddenErrorGradient
        n.setWeight input hidden (n.weight input hidden + delta)) n
      let thresholdDelta := LEARNINGRATE * -1 * hiddenErrorGradient
      n.setThreshold hidden (n.threshold hidden + thresholdDelta)) s.2
    let delta := LEARNINGRATE * -1 * outputErrorGradient
    (sumOfSquaredErrors, n.setThreshold output (n.threshold output + delta))) (0, n)

end Shaffer

/-! ## The engine both programs share

`activateNetwork` and `updateWeights` are the same code in the two files up to
the layer boundaries: inputs `[a, b)`, hidden nodes `[b, c)`, outputs `[c, d)`.
The definitions below restate that code over arbitrary boundaries; the
programs' functions are instances of them (`Drawnn.drawnn_activateNetwork_eq`, …),
and the loop invariants are proved once, here. -/

namespace Layered

variable {F : Type}

/-- The accumulation `weightedInput := 0.0; for i in [lo, hi) { weightedInput += f i }`. -/
def wsum [Zero F] [Add F] (lo hi : Nat) (f : Nat → F) : F :=
  forRange lo hi (fun i acc => acc + f i) 0

/-- The expression `1.0 / (1.0 + math.Pow(math.E, -z))`. -/
def sigmoid [One F] [Add F] [Div F] [Neg F] (Pow : F → F → F) (E : F) (z : F) : F :=
  1 / (1 + Pow E (-z))

/-- One pass of an `activateNetwork` loop: node `node` is set from the layer
`[lo, hi)` below it. -/
def activateStep [Zero F] [One F] [Add F] [Sub F] [Mul F] [Div F] [Neg F]
    (Pow : F → F → F) (E : F) (lo hi : Nat) (node : Nat) (n : Net F) : Net F :=
  n.setValue node
    (sigmoid Pow E (wsum lo hi (fun i => n.weight i node * n.value i) - n.threshold node))

/-- The code of `activateNetwork` over the layers `[a, b)`, `[b, c)`, `[c, d)`. -/
def activate [Zero F] [One F] [Add F] [Sub F] [Mul F] [Div F] [Neg F]
    (a b c d : Nat) (Pow : F → F → F) (E : F) (n : Net F) : Net F :=
  forRange c d (activateStep Pow E b c) (forRange b c (activateStep Pow E a b) n)

/-- The innermost loop body of `updateWeights`. -/
def inputStep [Zero F] [Add F] [Mul F] (lr hg : F) (hidden : Nat) (input : Nat)
    (n : Net F) : Net F :=
  n.setWeight input hidden (n.weight input hidden + lr * n.value input * hg)

/-- The middle loop body of `updateWeights`. -/
def hiddenStep [Zero F] [One F] [Add F] [Sub F] [Mul F] [Neg F]
    (a b : Nat) (lr og : F) (output : Nat) (hidden : Nat) (n : Net F) : Net F :=
  let n1 := n.setWeight hidden output (n.weight hidden output + lr * n.value hidden * og)
  let hg := n1.value hidden * (1 - n1.value hidden) * og * n1.weight hidden output
  let n2 := forRange a b (inputStep lr hg hidden) n1
  n2.setThreshold hidden (n2.threshold hidden + lr * -1 * hg)

/-- The outer loop body of `updateWeights`. -/
def outputStep [Zero F] [One F] [Add F] [Sub F] [Mul F] [Neg F] [OfNat F 2]
    (a b c : Nat) (lr : F) (Pow : F → F → F) (output : Nat) (s : F × Net F) : F × Net F :=
  let absoluteError := s.2.expected output - s.2.value output
  let og := s.2.value output * (1 - s.2.value output) * absoluteError
  let n := forRange b c (hiddenStep a b lr og output) s.2
  (s.1 + Pow absoluteError 2, n.setThreshold output (n.threshold output + lr * -1 * og))

/-- The code of `updateWeights` over the layers `[a, b)`, `[b, c)`, `[c, d)`
with learning rate `lr`. -/
def update [Zero F] [One F] [Add F] [Sub F] [Mul F] [Neg F] [OfNat F 2]
    (a b c d : Nat) (lr : F) (Pow : F → F → F) (n : Net F) : F × Net F :=
  forRange c d (outputStep a b c lr Pow) (0, n)

/-- The value `hiddenErrorGradient` takes in `updateWeights` for hidden node `h`
when the current output node is `output` with gradient `og`: it is read after
`weights[h][output]` has received its delta. -/
def stepGradient [Zero F] [One F] [Add F] [Sub F] [Mul F] (lr og : F) (n : Net F)
    (h output : Nat) : F :=
  n.value h * (1 - n.value h) * og * (n.weight h output + lr * n.value h * og)

/-- The error gradient of output node `o`:
`activation(o) * (1 - activation(o)) * (expected(o) - activation(o))`. -/
def outputGradient [Zero F] [One F] [Sub F] [Mul F] (n : Net F) (o : Nat) : F :=
  n.value o * (1 - n.value o) * (n.expected o - n.value o)

/-- The hidden→output weight after the update:
`weight(h,o) + learningRate * activation(h) * outputGradient(o)`. -/
def updatedWeight [Zero F] [One F] [Add F] [Sub F] [Mul F] (lr : F) (n : Net F)
    (h o : Nat) : F :=
  n.weight h o + lr * n.value h * outputGradient n o

/-- The error gradient of hidden node `h` with respect to output node `o`:
`activation(h) * (1 - activation(h)) * outputGradient(o) * w'(h,o)`, with
`w'(h,o)` the hidden→output weight after its update. -/
def hiddenGradient [Zero F] [One F] [Add F] [Sub F] [Mul F] (lr : F) (n : Net F)
    (h o : Nat) : F :=
  n.value h * (1 - n.value h) * outputGradient n o * updatedWeight lr n h o

/-- The activation `activateNetwork` gives hidden node `h`: the sigmoid of the
weighted sum over the inputs `[a, b)` less the threshold. -/
def hiddenActivation [Zero F] [One F] [Add F] [Sub F] [Mul F] [Div F] [Neg F]
    (a b : Nat) (Pow : F → F → F) (E : F) (n : Net F) (h : Nat) : F :=
  sigmoid Pow E (wsum a b (fun i => n.weight i h * n.value i) - n.threshold h)

/-- The activation `activateNetwork` gives output node `o`: the sigmoid of the
weighted sum over the new hidden activations less the threshold. -/
def outputActivation [Zero F] [One F] [Add F] [Sub F] [Mul F] [Div F] [Neg F]
    (a b c : Nat) (Pow : F → F → F) (E : F) (n : Net F) (o : Nat) : F :=
  sigmoid Pow E
    (wsum b c (fun h => n.weight h o * hiddenActivation a b Pow E n h) - n.threshold o)

/-- The code of `initialize` for slices of `size` entries: both files clear
the indices `[0, size)` and make every row a fresh slice of `size` zeros. -/
def init [Zero F] (size : Nat) (n : Net F) : Net F :=
  forRange 0 size (fun x n =>
    forRange 0 size (fun y n => n.setWeight x y 0)
      ((((n.setValue x 0).setExpected x 0).setThreshold x 0).setRow x
        (List.replicate size 0))) n

/-- The weight loops of `connectNodes`: rows `[x0, x1)`, columns `[y0, y1)`,
each entry set to `g` of a fresh draw. -/
def connectWeights (x0 x1 y0 y1 : Nat) (g : F → F) (s : Rand F × Net F) : Rand F × Net F :=
  forRange x0 x1 (fun x s =>
    forRange y0 y1 (fun y s =>
      ((s.1.Float64).2, s.2.setWeight x y (g (s.1.Float64).1))) s) s

/-- The threshold assignments of `connectNodes`: nodes `[lo, hi)` in order, each
set to a fresh draw. -/
def connectThresholds (lo hi : Nat) (s : Rand F × Net F) : Rand F × Net F :=
  forRange lo hi (fun i s => ((s.1.Float64).2, s.2.setThreshold i (s.1.Float64).1)) s

/-- The loop body of `trainingExample` in `drawnn.go`, for input node `i` of a
network whose outputs start `offset` nodes after its inputs. -/
def exampleStep [Zero F] [One F] [OfScientific F] [LE F] [DecidableRel (α := F) (· ≤ ·)]
    (offset : Nat) (i : Nat) (s : Rand F × Net F) : Rand F × Net F :=
  if (s.1.Float64).1 ≤ 0.5 then
    ((s.1.Float64).2, (s.2.setValue i 0).setExpected (i + offset) 0)
  else
    ((s.1.Float64).2, (s.2.setValue i 1).setExpected (i + offset) 1)

end Layered

/-- A boolean as an activation: `true` is `1.0`, `false` is `0.0`. -/
def boolValue {F : Type} [Zero F] [One F] (p : Bool) : F := if p then 1 else 0

/-! ## The forward pass as the specification words it -/

namespace Reference

variable {F : Type} [Field F]

/-- The logistic sigmoid `σ(z) = 1/(1+e^(-z))`, the power `e^x` being `Pow E x`. -/
def sigmoid (Pow : F → F → F) (E : F) (z : F) : F := 1 / (1 + Pow E (-z))

/-- The activation of hidden node `h`: the sigmoid of the weighted sum over all
input nodes of `weight(i,h) * activation(i)`, less `threshold(h)`. -/
def hidden (inputs : Finset Nat) (Pow : F → F → F) (E : F) (n : Net F) (h : Nat) : F :=
  sigmoid Pow E (∑ i ∈ inputs, n.weight i h * n.value i - n.threshold h)

/-- The activation of output node `o`: the identical computation over the
hidden nodes, on the hidden activations just computed. -/
def output (inputs hiddens : Finset Nat) (Pow : F → F → F) (E : F) (n : Net F) (o : Nat) : F :=
  sigmoid Pow E (∑ h ∈ hiddens, n.weight h o * hidden inputs Pow E n h - n.threshold o)

end Reference

/-! ## float64 arithmetic with rounding

Go's `float64` operators are the IEEE 754 binary64 operations: each returns the
exact result rounded to the nearest number with a 53-bit significand, ties to the
even significand. The carrier below denotes a float64 by the rational it is
equal to and covers the normal range only (no overflow to infinity, no
subnormal numbers, no NaN); it is used where rounding decides a claim. -/

/-- The integer nearest to `m`, ties to the even one. -/
def roundHalfEven (m : ℚ) : ℤ :=
  if m - ⌊m⌋ < 1 / 2 then ⌊m⌋
  else if 1 / 2 < m - ⌊m⌋ then ⌊m⌋ + 1
  else if ⌊m⌋ % 2 = 0 then ⌊m⌋ else ⌊m⌋ + 1

/-- The rational `q` rounded to 53 significant bits, ties to even: with
`2^e ≤ |q| < 2^(e+1)` the result is the multiple of `2^(e-52)` nearest to `q`
(precision 53, exponent unbounded). -/
def roundToFloat64 (q : ℚ) : ℚ :=
  if q = 0 then 0
  else (roundHalfEven (q / 2 ^ (Int.log 2 |q| - 52)) : ℚ) * 2 ^ (Int.log 2 |q| - 52)

/-- A `float64` of the normal range, as the rational it denotes. -/
structure Float64 where
  val : ℚ

namespace Float64

instance : Zero Float64 := ⟨⟨0⟩⟩

instance : One Float64 := ⟨⟨1⟩⟩

instance : Add Float64 := ⟨fun x y => ⟨roundToFloat64 (x.val + y.val)⟩⟩

instance : Sub Float64 := ⟨fun x y => ⟨roundToFloat64 (x.val - y.val)⟩⟩

instance : Mul Float64 := ⟨fun x y => ⟨roundToFloat64 (x.val * y.val)⟩⟩

instance : Div Float64 := ⟨fun x y => ⟨roundToFloat64 (x.val / y.val)⟩⟩

instance : Neg Float64 := ⟨fun x => ⟨-x.val⟩⟩

/-- The constant `math.E`: the float64 nearest to `e`, 2.718281828459045. -/
def E : Float64 := ⟨6121026514868073 / 2 ^ 51⟩

/-- A stand-in for `math.Pow(math.E, x)` at `x = -40`. The exact `e^(-40)`, about
`4.2e-18`, lies between `2^(-58)` and `2^(-57)`; this function returns `2^(-58)`
whatever its arguments. -/
def tinyPow : Float64 → Float64 → Float64 := fun _ _ => ⟨1 / 2 ^ 58⟩

/-- A state of the XOR program with `weights[1][3] = 40`, `values[1] = 1` and
zeros elsewhere: the weighted input of hidden node 3 is 40. -/
def saturating : Net Float64 := ((Net.const 6 0 0 0 0).setWeight 1 3 ⟨40⟩).setValue 1 1

/-- A decimal literal of the source, such as `0.6`: the float64 nearest to it. -/
instance : OfScientific Float64 :=
  ⟨fun m s e => ⟨roundToFloat64 (OfScientific.ofScientific m s e)⟩⟩

/-- The literal `2`. -/
instance : OfNat Float64 2 := ⟨⟨2⟩⟩

end Float64

/-! ## The training loop of `main` in `shaffer.go` -/

/-- The output of the network for row `row` of the XOR table: `trainingExample`
sets the two inputs of that row (row 0 is `(1,1)`, row 1 `(0,1)`, row 2 `(1,0)`,
row 3 `(0,0)`), `activateNetwork` propagates them, and `values[5]` is read. -/
def Shaffer.response {F : Type} [Zero F] [One F] [Add F] [Sub F] [Mul F] [Div F] [Neg F]
    (Pow : F → F → F) (E : F) (n : Net F) (row : Int) : F :=
  (Shaffer.activateNetwork Pow E (Shaffer.trainingExample row n)).value 5

/-- The network has learned XOR within the tolerance: output below 0.2 for the
inputs `(1,1)` and `(0,0)`, above 0.8 for `(0,1)` and `(1,0)`. -/
def Shaffer.LearnedXor {F : Type} [Zero F] [One F] [Add F] [Sub F] [Mul F] [Div F] [Neg F]
    [OfScientific F] [LT F] (Pow : F → F → F) (E : F) (n : Net F) : Prop :=
  Shaffer.response Pow E n 0 < 0.2 ∧ 0.8 < Shaffer.response Pow E n 1 ∧
    0.8 < Shaffer.response Pow E n 2 ∧ Shaffer.response Pow E n 3 < 0.2

/-- The hidden nodes 3 and 4 of the XOR network are wired alike: equal weights
from each input, equal weights to the output, equal thresholds. -/
def Shaffer.TwinHidden {F : Type} [Zero F] (n : Net F) : Prop :=
  n.weight 1 3 = n.weight 1 4 ∧ n.weight 2 3 = n.weight 2 4 ∧ n.weight 3 5 = n.weight 4 5 ∧
    n.threshold 3 = n.threshold 4

instance Shaffer.LearnedXor.decidable {F : Type} [Zero F] [One F] [Add F] [Sub F] [Mul F]
    [Div F] [Neg F] [OfScientific F] [LT F] [DecidableRel (α := F) (· < ·)] (Pow : F → F → F)
    (E : F) (n : Net F) : Decidable (Shaffer.LearnedXor Pow E n) :=
  inferInstanceAs (Decidable (Shaffer.response Pow E n 0 < 0.2 ∧
    0.8 < Shaffer.response Pow E n 1 ∧ 0.8 < Shaffer.response Pow E n 2 ∧
    Shaffer.response Pow E n 3 < 0.2))

instance Shaffer.TwinHidden.decidable {F : Type} [Zero F] [DecidableEq F] (n : Net F) :
    Decidable (Shaffer.TwinHidden n) :=
  inferInstanceAs (Decidable (n.weight 1 3 = n.weight 1 4 ∧ n.weight 2 3 = n.weight 2 4 ∧
    n.weight 3 5 = n.weight 4 5 ∧ n.threshold 3 = n.threshold 4))

/-- Every entry of the activation vector lies in `[0, 1]`. -/
def Net.UnitActivations {F : Type} [Zero F] [One F] [LE F] (n : Net F) : Prop :=
  ∀ v ∈ n.values, 0 ≤ v ∧ v ≤ 1

instance Net.UnitActivations.decidable {F : Type} [Zero F] [One F] [LE F]
    [DecidableRel (α := F) (· ≤ ·)] (n : Net F) : Decidable n.UnitActivations :=
  inferInstanceAs (Decidable (∀ v ∈ n.values, 0 ≤ v ∧ v ≤ 1))

/-! ## The grey levels of `displayNetwork`

`displayNetwork` draws; what is kept of it here is the arithmetic that turns
activations into the grey levels handed to `color.Gray`. The carrier is an ordered
field with a floor function (exact arithmetic), because the conversion `int(x)`
has to be given a meaning. -/

/-- The conversion `int(x)` of a float64: the fraction is discarded (truncation
toward zero). The values met here are far inside the range of `int`. -/
def truncate {F : Type} [LinearOrderedField F] [FloorRing F] (x : F) : Int :=
  if 0 ≤ x then ⌊x⌋ else ⌈x⌉

/-- The conversion `uint8(n)` of an `int`: the low eight bits of `n`. -/
def uint8 (n : Int) : Int := n % 256

/-- The function `mapFloatToInt` of `drawnn.go`. -/
def Drawnn.mapFloatToInt {F : Type} [LinearOrderedField F] [FloorRing F]
    (value oldMin oldMax newMin newMax : F) : Int :=
  let proportion := (value - oldMin) / (oldMax - oldMin)
  let newValue := truncate (proportion * (newMax - newMin) + newMin)
  newValue

/-- The grey levels `displayNetwork` of `drawnn.go` gives the two squares of grid
cell `(x, y)`: `uint8(inputColorVal)` and `uint8(outputColorVal)`. -/
def Drawnn.displayGreys {F : Type} [LinearOrderedField F] [FloorRing F] (n : Net F)
    (x y : Nat) : Int × Int :=
  let node := x * Drawnn.SQUAREROOTOFNODES + y
  let inputColorVal := Drawnn.mapFloatToInt (n.value node) 0 1 0 255
  let outputColorVal := Drawnn.mapFloatToInt
    (n.value (node + Drawnn.NUMINPUTNODES + Drawnn.NUMHIDDENNODES)) 0 1 0 255
  (uint8 inputColorVal, uint8 outputColorVal)

/-- The function `mapFloatToInt` of `shaffer.go`. -/
def Shaffer.mapFloatToInt {F : Type} [LinearOrderedField F] [FloorRing F]
    (value oldMin oldMax newMin newMax : F) : Int :=
  let proportion := (value - oldMin) / (oldMax - oldMin)
  let newValue := truncate (proportion * (newMax - newMin) + newMin)
  newValue

/-- The grey levels `displayNetwork` of `shaffer.go` hands to `color.Gray`, in
program order: the output, the two inputs, and the text colour
`uint8(255 - outputColorVal)`. -/
def Shaffer.displayGreys {F : Type} [LinearOrderedField F] [FloorRing F] (n : Net F) :
    List Int :=
  let outputColorVal := Shaffer.mapFloatToInt (n.value 5) 0 1 0 255
  let input1ColorVal := Shaffer.mapFloatToInt (n.value 1) 0 1 0 255
  let input2ColorVal := Shaffer.mapFloatToInt (n.value 2) 0 1 0 255
  let infoColorVal := 255 - outputColorVal
  [uint8 outputColorVal, uint8 input1ColorVal, uint8 input2ColorVal, uint8 infoColorVal]

/-! ## Test data -/

namespace Sample

/-- A power function on the rationals, for running the code on test data. -/
def pow : ℚ → ℚ → ℚ := fun x y => if y = 2 then x * x else 1 / 2

/-- A state of the auto-associator: every weight 1/2, activation 1, expected
value 0, threshold 1/4. -/
def drawnn : Net ℚ := Net.const 220 (1 / 2) 1 0 (1 / 4)

/-- A state of the XOR program: every weight 1/2, activation 1, expected value 0,
threshold 1/4. -/
def shaffer : Net ℚ := Net.const 6 (1 / 2) 1 0 (1 / 4)

/-- A random source that alternates between 1/4 and 3/4. -/
def source : Rand ℚ := ⟨fun k => if k % 2 = 0 then 1 / 4 else 3 / 4, 0⟩

/-- The XOR test state with two weights outside the connected blocks changed:
`weights[5][1]` (output to input) and `weights[0][0]` (the sentinel). -/
def shafferOutside : Net ℚ := (shaffer.setWeight 5 1 7).setWeight 0 0 9

/-- The auto-associator test state with two weights outside the connected blocks
changed: `weights[150][3]` (output to input) and `weights[0][150]` (input to
output). -/
def drawnnOutside : Net ℚ := (drawnn.setWeight 150 3 7).setWeight 0 150 9

end Sample

/-! ## Loops, slices and the random source: basic facts -/

section Basics

variable {F : Type}

theorem forRange_of_le {σ : Type} (lo hi : Nat) (h : hi ≤ lo) (body : Nat → σ → σ) (s : σ) :
    forRange lo hi body s = s := by
  have h0 : hi - lo = 0 := by omega
  simp [forRange, h0]

theorem forRange_succ {σ : Type} (lo hi : Nat) (h : lo ≤ hi) (body : Nat → σ → σ) (s : σ) :
    forRange lo (hi + 1) body s = body hi (forRange lo hi body s) := by
  have h1 : hi + 1 - lo = (hi - lo) + 1 := by omega
  have h2 : lo + (hi - lo) = hi := by omega
  simp [forRange, h1, List.range'_concat, List.foldl_append, h2]

/-- Loop invariant rule: `P lo` holds on entry and every pass takes `P i` to
`P (i + 1)`; then `P hi` holds on exit. -/
theorem forRange_induction {σ : Type} (P : Nat → σ → Prop) (lo hi : Nat) (h : lo ≤ hi)
    (body : Nat → σ → σ) (s : σ) (h0 : P lo s)
    (hstep : ∀ i t, lo ≤ i → i < hi → P i t → P (i + 1) (body i t)) :
    P hi (forRange lo hi body s) := by
  induction hi with
  | zero =>
    have : lo = 0 := by omega
    subst this
    simpa [forRange] using h0
  | succ k ih =>
    by_cases hk : lo ≤ k
    · rw [forRange_succ lo k hk]
      exact hstep k _ hk (Nat.lt_succ_self k)
        (ih hk (fun i t h1 h2 hp => hstep i t h1 (Nat.lt_succ_of_lt h2) hp))
    · have : lo = k + 1 := by omega
      subst this
      rw [forRange_of_le _ _ (Nat.le_refl _)]
      exact h0

theorem getD_set_eq {α : Type} (l : List α) (i j : Nat) (v d : α) :
    (l.set i v).getD j d = if j = i ∧ i < l.length then v else l.getD j d := by
  simp only [List.getD_eq_getElem?_getD, List.getElem?_set]
  by_cases hij : i = j
  · subst hij
    by_cases hi : i < l.length
    · simp [hi]
    · simp [hi, List.getElem?_eq_none (Nat.le_of_not_lt hi)]
  · have : ¬ j = i := fun h => hij h.symm
    simp [hij, this]

theorem getD_replicate_eq {α : Type} (k i : Nat) (v d : α) :
    (List.replicate k v).getD i d = if i < k then v else d := by
  simp only [List.getD_eq_getElem?_getD, List.getElem?_replicate]
  split_ifs <;> simp

/-- Two slices of one length with the same entries are the same slice. -/
theorem list_eq_of_getD [Zero F] (l1 l2 : List F) (hlen : l1.length = l2.length)
    (h : ∀ i, i < l1.length → l1.getD i 0 = l2.getD i 0) : l1 = l2 := by
  apply List.ext_getElem hlen
  intro i h1 h2
  have := h i h1
  rwa [List.getD_eq_getElem _ _ h1, List.getD_eq_getElem _ _ h2] at this

end Basics

/-! ## Reading and writing the slices -/

namespace Net

variable {F : Type}


@[simp] theorem values_setWeight (n : Net F) (x y : Nat) (v : F) :
    (n.setWeight x y v).values = n.values := rfl
@[simp] theorem expectedValues_setWeight (n : Net F) (x y : Nat) (v : F) :
    (n.setWeight x y v).expectedValues = n.expectedValues := rfl
@[simp] theorem thresholds_setWeight (n : Net F) (x y : Nat) (v : F) :
    (n.setWeight x y v).thresholds = n.thresholds := rfl
@[simp] theorem weights_setValue (n : Net F) (i : Nat) (v : F) :
    (n.setValue i v).weights = n.weights := rfl
@[simp] theorem expectedValues_setValue (n : Net F) (i : Nat) (v : F) :
    (n.setValue i v).expectedValues = n.expectedValues := rfl
@[simp] theorem thresholds_setValue (n : Net F) (i : Nat) (v : F) :
    (n.setValue i v).thresholds = n.thresholds := rfl
@[simp] theorem weights_setExpected (n : Net F) (i : Nat) (v : F) :
    (n.setExpected i v).weights = n.weights := rfl
@[simp] theorem values_setExpected (n : Net F) (i : Nat) (v : F) :
    (n.setExpected i v).values = n.values := rfl
@[simp] theorem thresholds_setExpected (n : Net F) (i : Nat) (v : F) :
    (n.setExpected i v).thresholds = n.thresholds := rfl
@[simp] theorem weights_setThreshold (n : Net F) (i : Nat) (v : F) :
    (n.setThreshold i v).weights = n.weights := rfl
@[simp] theorem values_setThreshold (n : Net F) (i : Nat) (v : F) :
    (n.setThreshold i v).values = n.values := rfl
@[simp] theorem expectedValues_setThreshold (n : Net F) (i : Nat) (v : F) :
    (n.setThreshold i v).expectedValues = n.expectedValues := rfl

@[simp] theorem value_setWeight [Zero F] (n : Net F) (x y i : Nat) (v : F) :
    (n.setWeight x y v).value i = n.value i := rfl
@[simp] theorem threshold_setWeight [Zero F] (n : Net F) (x y i : Nat) (v : F) :
    (n.setWeight x y v).threshold i = n.threshold i := rfl
@[simp] theorem weight_setValue [Zero F] (n : Net F) (i x y : Nat) (v : F) :
    (n.setValue i v).weight x y = n.weight x y := rfl
@[simp] theorem expected_setValue [Zero F] (n : Net F) (i j : Nat) (v : F) :
    (n.setValue i v).expected j = n.expected j := rfl
@[simp] theorem threshold_setValue [Zero F] (n : Net F) (i j : Nat) (v : F) :
    (n.setValue i v).threshold j = n.threshold j := rfl
@[simp] theorem value_setExpected [Zero F] (n : Net F) (i j : Nat) (v : F) :
    (n.setExpected i v).value j = n.value j := rfl
@[simp] theorem weight_setThreshold [Zero F] (n : Net F) (i x y : Nat) (v : F) :
    (n.setThreshold i v).weight x y = n.weight x y := rfl
theorem value_setValue [Zero F] (n : Net F) (size i j : Nat) (v : F) (hn : n.Sized size)
    (hi : i < size) : (n.setValue i v).value j = if j = i then v else n.value j := by
  obtain ⟨-, -, hv, -, -⟩ := hn
  simp only [value, setValue, getD_set_eq, hv, hi, and_true]

theorem expected_setExpected [Zero F] (n : Net F) (size i j : Nat) (v : F) (hn : n.Sized size)
    (hi : i < size) : (n.setExpected i v).expected j = if j = i then v else n.expected j := by
  obtain ⟨-, -, -, he, -⟩ := hn
  simp only [expected, setExpected, getD_set_eq, he, hi, and_true]

theorem threshold_setThreshold [Zero F] (n : Net F) (size i j : Nat) (v : F) (hn : n.Sized size)
    (hi : i < size) :
    (n.setThreshold i v).threshold j = if j = i then v else n.threshold j := by
  obtain ⟨-, -, -, -, ht⟩ := hn
  simp only [threshold, setThreshold, getD_set_eq, ht, hi, and_true]

theorem weight_setWeight [Zero F] (n : Net F) (size x y x' y' : Nat) (v : F) (hn : n.Sized size)
    (hx : x < size) (hy : y < size) :
    (n.setWeight x y v).weight x' y' = if x' = x ∧ y' = y then v else n.weight x' y' := by
  obtain ⟨hw, hrow, -, -, -⟩ := hn
  simp only [weight, setWeight, getD_set_eq, hw, hx, and_true]
  by_cases h1 : x' = x
  · subst h1
    simp only [true_and, if_true, getD_set_eq, hrow x' hx, hy, and_true]
  · simp only [h1, false_and, if_false]

theorem Sized.setWeight {n : Net F} {size : Nat} (hn : n.Sized size) (x y : Nat) (v : F) :
    (n.setWeight x y v).Sized size := by
  obtain ⟨hw, hrow, hv, he, ht⟩ := hn
  refine ⟨by simp [Net.setWeight, hw], ?_, hv, he, ht⟩
  intro x' hx'
  simp only [Net.setWeight, getD_set_eq]
  split_ifs with h
  · rw [List.length_set]; exact hrow x (h.1 ▸ hx')
  · exact hrow x' hx'

theorem Sized.setValue {n : Net F} {size : Nat} (hn : n.Sized size) (i : Nat) (v : F) :
    (n.setValue i v).Sized size := by
  obtain ⟨hw, hrow, hv, he, ht⟩ := hn
  exact ⟨hw, hrow, by simp [Net.setValue, hv], he, ht⟩

theorem Sized.setExpected {n : Net F} {size : Nat} (hn : n.Sized size) (i : Nat) (v : F) :
    (n.setExpected i v).Sized size := by
  obtain ⟨hw, hrow, hv, he, ht⟩ := hn
  exact ⟨hw, hrow, hv, by simp [Net.setExpected, he], ht⟩

theorem Sized.setThreshold {n : Net F} {size : Nat} (hn : n.Sized size) (i : Nat) (v : F) :
    (n.setThreshold i v).Sized size := by
  obtain ⟨hw, hrow, hv, he, ht⟩ := hn
  exact ⟨hw, hrow, hv, he, by simp [Net.setThreshold, ht]⟩

end Net

/-! ## The forward pass -/

namespace Layered

variable {F : Type}

theorem wsum_congr [Zero F] [Add F] (lo hi : Nat) (f g : Nat → F)
    (h : ∀ i, lo ≤ i → i < hi → f i = g i) : wsum lo hi f = wsum lo hi g := by
  by_cases hle : lo ≤ hi
  · unfold wsum
    refine forRange_induction
      (fun k acc => acc = forRange lo k (fun i acc => acc + g i) 0) lo hi hle _ _ ?_ ?_
    · show (0 : F) = _
      rw [forRange_of_le _ _ (Nat.le_refl _)]
    · intro i t h1 h2 ht
      show t + f i = _
      rw [forRange_succ _ _ h1, ← ht, h i h1 h2]
  · unfold wsum
    rw [forRange_of_le _ _ (by omega), forRange_of_le _ _ (by omega)]

section Activate
variable [Zero F] [One F] [Add F] [Sub F] [Mul F] [Div F] [Neg F]

/-- One layer of `activateNetwork`: the loop over the nodes `[lo, hi)` fed by the
layer `[lo', hi')` below, `hi' ≤ lo`. -/
theorem activateLayer (Pow : F → F → F) (E : F) (size lo' hi' lo hi : Nat) (n : Net F)
    (hn : n.Sized size) (h1 : hi' ≤ lo) (h2 : lo ≤ hi) (h3 : hi ≤ size) :
    (forRange lo hi (activateStep Pow E lo' hi') n).Sized size ∧
    (forRange lo hi (activateStep Pow E lo' hi') n).weights = n.weights ∧
    (forRange lo hi (activateStep Pow E lo' hi') n).expectedValues = n.expectedValues ∧
    (forRange lo hi (activateStep Pow E lo' hi') n).thresholds = n.thresholds ∧
    ∀ j, (forRange lo hi (activateStep Pow E lo' hi') n).value j =
      if lo ≤ j ∧ j < hi then
        sigmoid Pow E (wsum lo' hi' (fun i => n.weight i j * n.value i) - n.threshold j)
      else n.value j := by
  refine forRange_induction
    (fun k m => m.Sized size ∧ m.weights = n.weights ∧ m.expectedValues = n.expectedValues ∧
      m.thresholds = n.thresholds ∧ ∀ j, m.value j =
        if lo ≤ j ∧ j < k then
          sigmoid Pow E (wsum lo' hi' (fun i => n.weight i j * n.value i) - n.threshold j)
        else n.value j) lo hi h2 _ n ?_ ?_
  · refine ⟨hn, rfl, rfl, rfl, ?_⟩
    intro j
    have : ¬ (lo ≤ j ∧ j < lo) := by omega
    simp [this]
  · rintro k m hk1 hk2 ⟨hm, hw, he, ht, hv⟩
    refine ⟨hm.setValue _ _, hw, he, ht, ?_⟩
    intro j
    unfold activateStep
    rw [Net.value_setValue m size k j _ hm (by omega)]
    have hsum : wsum lo' hi' (fun i => m.weight i k * m.value i) =
        wsum lo' hi' (fun i => n.weight i k * n.value i) := by
      apply wsum_congr
      intro i _ hi2
      have : ¬ (lo ≤ i ∧ i < k) := by omega
      rw [hv i, if_neg this]
      simp [Net.weight, hw]
    have hthr : m.threshold k = n.threshold k := by simp [Net.threshold, ht]
    by_cases hj : j = k
    · subst hj
      have : lo ≤ j ∧ j < j + 1 := by omega
      rw [if_pos rfl, if_pos this, hsum, hthr]
    · rw [if_neg hj, hv j]
      by_cases hjk : lo ≤ j ∧ j < k
      · have : lo ≤ j ∧ j < k + 1 := by omega
        rw [if_pos hjk, if_pos this]
      · have : ¬ (lo ≤ j ∧ j < k + 1) := by omega
        rw [if_neg hjk, if_neg this]

/-- What `activateNetwork` leaves in the state: sizes, weights, expected values
and thresholds as before, the hidden and output activations recomputed, every
other activation as before. -/
theorem activate_spec (Pow : F → F → F) (E : F) (size a b c d : Nat) (n : Net F)
    (hn : n.Sized size) (hbc : b ≤ c) (hcd : c ≤ d) (hd : d ≤ size) :
    (activate a b c d Pow E n).Sized size ∧
    (activate a b c d Pow E n).weights = n.weights ∧
    (activate a b c d Pow E n).expectedValues = n.expectedValues ∧
    (activate a b c d Pow E n).thresholds = n.thresholds ∧
    ∀ j, (activate a b c d Pow E n).value j =
      if c ≤ j ∧ j < d then outputActivation a b c Pow E n j
      else if b ≤ j ∧ j < c then hiddenActivation a b Pow E n j
      else n.value j := by
  obtain ⟨hm, hw, he, ht, hv⟩ :=
    activateLayer Pow E size a b b c n hn (Nat.le_refl b) hbc (Nat.le_trans hcd hd)
  obtain ⟨hm', hw', he', ht', hv'⟩ :=
    activateLayer Pow E size b c c d _ hm (Nat.le_refl c) hcd hd
  refine ⟨hm', hw'.trans hw, he'.trans he, ht'.trans ht, ?_⟩
  intro j
  unfold activate
  rw [hv' j]
  by_cases hj : c ≤ j ∧ j < d
  · rw [if_pos hj, if_pos hj]
    unfold outputActivation
    congr 2
    · apply wsum_congr
      intro i hi1 hi2
      rw [hv i, if_pos ⟨hi1, hi2⟩]
      simp only [Net.weight, hw, hiddenActivation]
    · simp only [Net.threshold, ht]
  · rw [if_neg hj, if_neg hj, hv j]
    rfl

end Activate

end Layered

/-! ## The backward pass -/

namespace Layered

variable {F : Type}

section Update

/-- The innermost loop of `updateWeights`: column `hidden` of the rows `[a, b)`
receives `lr * values[input] * hg`; nothing else changes. -/
theorem inputLoop [Zero F] [Add F] [Mul F] (lr hg : F) (size a b hidden : Nat) (n : Net F) (hn : n.Sized size)
    (hab : a ≤ b) (hb : b ≤ size) (hh : hidden < size) :
    (forRange a b (inputStep lr hg hidden) n).Sized size ∧
    (forRange a b (inputStep lr hg hidden) n).values = n.values ∧
    (forRange a b (inputStep lr hg hidden) n).expectedValues = n.expectedValues ∧
    (forRange a b (inputStep lr hg hidden) n).thresholds = n.thresholds ∧
    ∀ x y, (forRange a b (inputStep lr hg hidden) n).weight x y =
      if (a ≤ x ∧ x < b) ∧ y = hidden then n.weight x y + lr * n.value x * hg
      else n.weight x y := by
  refine forRange_induction
    (fun k m => m.Sized size ∧ m.values = n.values ∧ m.expectedValues = n.expectedValues ∧
      m.thresholds = n.thresholds ∧ ∀ x y, m.weight x y =
        if (a ≤ x ∧ x < k) ∧ y = hidden then n.weight x y + lr * n.value x * hg
        else n.weight x y) a b hab _ n ?_ ?_
  · refine ⟨hn, rfl, rfl, rfl, ?_⟩
    intro x y
    have : ¬ ((a ≤ x ∧ x < a) ∧ y = hidden) := by omega
    rw [if_neg this]
  · rintro k m hk1 hk2 ⟨hm, hv, he, ht, hw⟩
    refine ⟨hm.setWeight _ _ _, hv, he, ht, ?_⟩
    intro x y
    unfold inputStep
    rw [Net.weight_setWeight m size k hidden x y _ hm (by omega) hh]
    by_cases hxy : x = k ∧ y = hidden
    · obtain ⟨rfl, rfl⟩ := hxy
      have h1 : (a ≤ x ∧ x < x + 1) ∧ y = y := ⟨by omega, rfl⟩
      have h2 : ¬ ((a ≤ x ∧ x < x) ∧ y = y) := by omega
      rw [if_pos ⟨rfl, rfl⟩, if_pos h1, hw x y, if_neg h2]
      simp only [Net.value, hv]
    · rw [if_neg hxy, hw x y]
      by_cases h3 : (a ≤ x ∧ x < k) ∧ y = hidden
      · have : (a ≤ x ∧ x < k + 1) ∧ y = hidden := ⟨by omega, h3.2⟩
        rw [if_pos h3, if_pos this]
      · have : ¬ ((a ≤ x ∧ x < k + 1) ∧ y = hidden) := by
          intro h4
          rcases Nat.lt_succ_iff_lt_or_eq.mp h4.1.2 with h5 | h5
          · exact h3 ⟨⟨h4.1.1, h5⟩, h4.2⟩
          · exact hxy ⟨h5, h4.2⟩
        rw [if_neg h3, if_neg this]

/-- The hidden error gradient as `updateWeights` computes it for hidden node `h`
from the gradient `og` of the current output node. -/
theorem hiddenStep_spec [Zero F] [One F] [Add F] [Sub F] [Mul F] [Neg F]
    (lr og : F) (size a b output h : Nat) (n : Net F) (hn : n.Sized size)
    (hab : a ≤ b) (hb : b ≤ h) (hh : h < size) (ho : output < size) :
    (hiddenStep a b lr og output h n).Sized size ∧
    (hiddenStep a b lr og output h n).values = n.values ∧
    (hiddenStep a b lr og output h n).expectedValues = n.expectedValues ∧
    (∀ j, (hiddenStep a b lr og output h n).threshold j =
      if j = h then
        n.threshold j + lr * -1 * stepGradient lr og n h output
      else n.threshold j) ∧
    ∀ x y, (hiddenStep a b lr og output h n).weight x y =
      if (a ≤ x ∧ x < b) ∧ y = h then
        n.weight x y + lr * n.value x * stepGradient lr og n h output
      else if x = h ∧ y = output then n.weight x y + lr * n.value x * og
      else n.weight x y := by
  unfold stepGradient
  have hn1 : (n.setWeight h output (n.weight h output + lr * n.value h * og)).Sized size :=
    hn.setWeight _ _ _
  have hw1 : ∀ x y, (n.setWeight h output (n.weight h output + lr * n.value h * og)).weight x y =
      if x = h ∧ y = output then n.weight h output + lr * n.value h * og else n.weight x y :=
    fun x y => Net.weight_setWeight n size h output x y _ hn hh ho
  obtain ⟨hm, hv, he, ht, hw⟩ := inputLoop lr
    ((n.setWeight h output (n.weight h output + lr * n.value h * og)).value h *
      (1 - (n.setWeight h output (n.weight h output + lr * n.value h * og)).value h) * og *
      (n.setWeight h output (n.weight h output + lr * n.value h * og)).weight h output)
    size a b h _ hn1 hab (by omega) hh
  have hself : (n.setWeight h output (n.weight h output + lr * n.value h * og)).weight h output =
      n.weight h output + lr * n.value h * og := by
    rw [hw1, if_pos ⟨rfl, rfl⟩]
  rw [hself] at hm hv he ht hw
  simp only [Net.value_setWeight] at hm hv he ht hw
  unfold hiddenStep
  simp only [Net.value_setWeight, hself]
  refine ⟨hm.setThreshold _ _, hv, he, ?_, ?_⟩
  · intro j
    rw [Net.threshold_setThreshold _ size h j _ hm hh]
    by_cases hj : j = h
    · subst hj
      rw [if_pos rfl, if_pos rfl]
      simp only [Net.threshold, ht, Net.thresholds_setWeight]
    · rw [if_neg hj, if_neg hj]
      simp only [Net.threshold, ht, Net.thresholds_setWeight]
  · intro x y
    rw [Net.weight_setThreshold, hw x y, hw1 x y]
    by_cases h1 : (a ≤ x ∧ x < b) ∧ y = h
    · have h2 : ¬ (x = h ∧ y = output) := by omega
      rw [if_pos h1, if_pos h1, if_neg h2]
    · rw [if_neg h1, if_neg h1]
      by_cases h2 : x = h ∧ y = output
      · rw [if_pos h2, if_pos h2]
        obtain ⟨rfl, rfl⟩ := h2
        rfl
      · rw [if_neg h2, if_neg h2]

/-- The middle loop of `updateWeights` for one output node. -/
theorem hiddenLoop [Zero F] [One F] [Add F] [Sub F] [Mul F] [Neg F]
    (lr og : F) (size a b c output : Nat) (n : Net F) (hn : n.Sized size)
    (hab : a ≤ b) (hbc : b ≤ c) (hc : c ≤ size) (ho : output < size) :
    (forRange b c (hiddenStep a b lr og output) n).Sized size ∧
    (forRange b c (hiddenStep a b lr og output) n).values = n.values ∧
    (forRange b c (hiddenStep a b lr og output) n).expectedValues = n.expectedValues ∧
    (∀ j, (forRange b c (hiddenStep a b lr og output) n).threshold j =
      if b ≤ j ∧ j < c then n.threshold j + lr * -1 * stepGradient lr og n j output
      else n.threshold j) ∧
    ∀ x y, (forRange b c (hiddenStep a b lr og output) n).weight x y =
      if (a ≤ x ∧ x < b) ∧ (b ≤ y ∧ y < c) then
        n.weight x y + lr * n.value x * stepGradient lr og n y output
      else if (b ≤ x ∧ x < c) ∧ y = output then n.weight x y + lr * n.value x * og
      else n.weight x y := by
  refine forRange_induction
    (fun k m => m.Sized size ∧ m.values = n.values ∧ m.expectedValues = n.expectedValues ∧
      (∀ j, m.threshold j =
        if b ≤ j ∧ j < k then n.threshold j + lr * -1 * stepGradient lr og n j output
        else n.threshold j) ∧
      ∀ x y, m.weight x y =
        if (a ≤ x ∧ x < b) ∧ (b ≤ y ∧ y < k) then
          n.weight x y + lr * n.value x * stepGradient lr og n y output
        else if (b ≤ x ∧ x < k) ∧ y = output then n.weight x y + lr * n.value x * og
        else n.weight x y) b c hbc _ n ?_ ?_
  · refine ⟨hn, rfl, rfl, ?_, ?_⟩
    · intro j
      have : ¬ (b ≤ j ∧ j < b) := by omega
      rw [if_neg this]
    · intro x y
      have h1 : ¬ ((a ≤ x ∧ x < b) ∧ (b ≤ y ∧ y < b)) := by omega
      have h2 : ¬ ((b ≤ x ∧ x < b) ∧ y = output) := by omega
      rw [if_neg h1, if_neg h2]
  · rintro k m hk1 hk2 ⟨hm, hv, he, ht, hw⟩
    obtain ⟨hm', hv', he', ht', hw'⟩ :=
      hiddenStep_spec lr og size a b output k m hm hab hk1 (by omega) ho
    have hval : ∀ i, m.value i = n.value i := fun i => by simp only [Net.value, hv]
    have hko : m.weight k output = n.weight k output := by
      have h1 : ¬ ((a ≤ k ∧ k < b) ∧ (b ≤ output ∧ output < k)) := by omega
      have h2 : ¬ ((b ≤ k ∧ k < k) ∧ output = output) := by omega
      rw [hw k output, if_neg h1, if_neg h2]
    have hsg : stepGradient lr og m k output = stepGradient lr og n k output := by
      simp only [stepGradient, hval, hko]
    refine ⟨hm', hv'.trans hv, he'.trans he, ?_, ?_⟩
    · intro j
      rw [ht' j, ht j, hsg]
      by_cases hj : j = k
      · subst hj
        have h1 : ¬ (b ≤ j ∧ j < j) := by omega
        have h2 : b ≤ j ∧ j < j + 1 := by omega
        rw [if_pos rfl, if_neg h1, if_pos h2]
      · rw [if_neg hj]
        by_cases h1 : b ≤ j ∧ j < k
        · have h2 : b ≤ j ∧ j < k + 1 := by omega
          rw [if_pos h1, if_pos h2]
        · have h2 : ¬ (b ≤ j ∧ j < k + 1) := by omega
          rw [if_neg h1, if_neg h2]
    · intro x y
      rw [hw' x y, hw x y, hsg, hval x]
      by_cases h1 : (a ≤ x ∧ x < b) ∧ y = k
      · have h2 : ¬ ((a ≤ x ∧ x < b) ∧ (b ≤ y ∧ y < k)) := by omega
        have h3 : ¬ ((b ≤ x ∧ x < k) ∧ y = output) := by omega
        have h4 : (a ≤ x ∧ x < b) ∧ (b ≤ y ∧ y < k + 1) := by omega
        rw [if_pos h1, if_neg h2, if_neg h3, if_pos h4, h1.2]
      · rw [if_neg h1]
        by_cases h2 : x = k ∧ y = output
        · have h3 : ¬ ((a ≤ x ∧ x < b) ∧ (b ≤ y ∧ y < k)) := by omega
          have h4 : ¬ ((b ≤ x ∧ x < k) ∧ y = output) := by omega
          have h5 : ¬ ((a ≤ x ∧ x < b) ∧ (b ≤ y ∧ y < k + 1)) := by omega
          have h6 : (b ≤ x ∧ x < k + 1) ∧ y = output := by omega
          rw [if_pos h2, if_neg h3, if_neg h4, if_neg h5, if_pos h6]
        · rw [if_neg h2]
          by_cases h3 : (a ≤ x ∧ x < b) ∧ (b ≤ y ∧ y < k)
          · have h4 : (a ≤ x ∧ x < b) ∧ (b ≤ y ∧ y < k + 1) := by omega
            rw [if_pos h3, if_pos h4]
          · have h4 : ¬ ((a ≤ x ∧ x < b) ∧ (b ≤ y ∧ y < k + 1)) := by omega
            rw [if_neg h3, if_neg h4]
            by_cases h5 : (b ≤ x ∧ x < k) ∧ y = output
            · have h6 : (b ≤ x ∧ x < k + 1) ∧ y = output := by omega
              rw [if_pos h5, if_pos h6]
            · have h6 : ¬ ((b ≤ x ∧ x < k + 1) ∧ y = output) := by omega
              rw [if_neg h5, if_neg h6]

/-- What `updateWeights` returns and leaves in the state. -/
theorem update_spec [Zero F] [One F] [Add F] [Sub F] [Mul F] [Neg F] [OfNat F 2]
    (lr : F) (Pow : F → F → F) (size a b c d : Nat) (n : Net F) (hn : n.Sized size)
    (hab : a ≤ b) (hbc : b ≤ c) (hcd : c ≤ d) (hd : d ≤ size) :
    (update a b c d lr Pow n).1 =
      forRange c d (fun o acc => acc + Pow (n.expected o - n.value o) 2) 0 ∧
    (update a b c d lr Pow n).2.Sized size ∧
    (update a b c d lr Pow n).2.values = n.values ∧
    (update a b c d lr Pow n).2.expectedValues = n.expectedValues ∧
    (∀ j, (update a b c d lr Pow n).2.threshold j =
      if b ≤ j ∧ j < c then
        forRange c d (fun o acc => acc + lr * -1 * hiddenGradient lr n j o) (n.threshold j)
      else if c ≤ j ∧ j < d then n.threshold j + lr * -1 * outputGradient n j
      else n.threshold j) ∧
    ∀ x y, (update a b c d lr Pow n).2.weight x y =
      if (a ≤ x ∧ x < b) ∧ (b ≤ y ∧ y < c) then
        forRange c d (fun o acc => acc + lr * n.value x * hiddenGradient lr n y o) (n.weight x y)
      else if (b ≤ x ∧ x < c) ∧ (c ≤ y ∧ y < d) then updatedWeight lr n x y
      else n.weight x y := by
  refine forRange_induction
    (fun k s =>
      s.1 = forRange c k (fun o acc => acc + Pow (n.expected o - n.value o) 2) 0 ∧
      s.2.Sized size ∧ s.2.values = n.values ∧ s.2.expectedValues = n.expectedValues ∧
      (∀ j, s.2.threshold j =
        if b ≤ j ∧ j < c then
          forRange c k (fun o acc => acc + lr * -1 * hiddenGradient lr n j o) (n.threshold j)
        else if c ≤ j ∧ j < k then n.threshold j + lr * -1 * outputGradient n j
        else n.threshold j) ∧
      ∀ x y, s.2.weight x y =
        if (a ≤ x ∧ x < b) ∧ (b ≤ y ∧ y < c) then
          forRange c k (fun o acc => acc + lr * n.value x * hiddenGradient lr n y o)
            (n.weight x y)
        else if (b ≤ x ∧ x < c) ∧ (c ≤ y ∧ y < k) then updatedWeight lr n x y
        else n.weight x y) c d hcd _ (0, n) ?_ ?_
  · refine ⟨?_, hn, rfl, rfl, ?_, ?_⟩
    · show (0 : F) = _
      rw [forRange_of_le _ _ (Nat.le_refl _)]
    · intro j
      show n.threshold j = _
      have h2 : ¬ (c ≤ j ∧ j < c) := by omega
      rw [forRange_of_le _ _ (Nat.le_refl _), if_neg h2, ite_self]
    · intro x y
      show n.weight x y = _
      have h2 : ¬ ((b ≤ x ∧ x < c) ∧ (c ≤ y ∧ y < c)) := by omega
      rw [forRange_of_le _ _ (Nat.le_refl _), if_neg h2, ite_self]
  · rintro k ⟨sse, m⟩ hk1 hk2 ⟨hs, hm, hv, he, ht, hw⟩
    simp only at hs hm hv he ht hw
    have hval : ∀ i, m.value i = n.value i := fun i => by simp only [Net.value, hv]
    have hexp : ∀ i, m.expected i = n.expected i := fun i => by simp only [Net.expected, he]
    have hog : m.value k * (1 - m.value k) * (m.expected k - m.value k) = outputGradient n k := by
      simp only [outputGradient, hval, hexp]
    obtain ⟨hm', hv', he', ht', hw'⟩ := hiddenLoop lr (outputGradient n k) size a b c k m hm
      hab hbc (by omega) (by omega)
    have hsg : ∀ y, b ≤ y → y < c →
        stepGradient lr (outputGradient n k) m y k = hiddenGradient lr n y k := by
      intro y hy1 hy2
      have h1 : ¬ ((a ≤ y ∧ y < b) ∧ (b ≤ k ∧ k < c)) := by omega
      have h2 : ¬ ((b ≤ y ∧ y < c) ∧ (c ≤ k ∧ k < k)) := by omega
      have : m.weight y k = n.weight y k := by rw [hw y k, if_neg h1, if_neg h2]
      simp only [stepGradient, hiddenGradient, updatedWeight, hval, this]
    unfold outputStep
    simp only [hog]
    refine ⟨?_, hm'.setThreshold _ _, hv'.trans hv, he'.trans he, ?_, ?_⟩
    · rw [forRange_succ _ _ hk1, ← hs, hexp, hval]
    · intro j
      rw [Net.threshold_setThreshold _ size k j _ hm' (by omega), ht' k, ht' j, ht k, ht j]
      have hk3 : ¬ (b ≤ k ∧ k < c) := by omega
      have hk4 : ¬ (c ≤ k ∧ k < k) := by omega
      rw [if_neg hk3, if_neg hk3, if_neg hk4]
      by_cases hj : j = k
      · subst hj
        have h1 : c ≤ j ∧ j < j + 1 := by omega
        rw [if_pos rfl, if_neg hk3, if_pos h1]
      · rw [if_neg hj]
        by_cases h1 : b ≤ j ∧ j < c
        · rw [if_pos h1, if_pos h1, if_pos h1, forRange_succ _ _ hk1, hsg j h1.1 h1.2]
        · rw [if_neg h1, if_neg h1, if_neg h1]
          by_cases h2 : c ≤ j ∧ j < k
          · have h3 : c ≤ j ∧ j < k + 1 := by omega
            rw [if_pos h2, if_pos h3]
          · have h3 : ¬ (c ≤ j ∧ j < k + 1) := by omega
            rw [if_neg h2, if_neg h3]
    · intro x y
      rw [Net.weight_setThreshold, hw' x y, hw x y, hval x]
      by_cases h1 : (a ≤ x ∧ x < b) ∧ (b ≤ y ∧ y < c)
      · rw [if_pos h1, if_pos h1, if_pos h1, forRange_succ _ _ hk1, hsg y h1.2.1 h1.2.2]
      · rw [if_neg h1, if_neg h1, if_neg h1]
        by_cases h2 : (b ≤ x ∧ x < c) ∧ y = k
        · have h3 : ¬ ((b ≤ x ∧ x < c) ∧ (c ≤ y ∧ y < k)) := by omega
          have h4 : (b ≤ x ∧ x < c) ∧ (c ≤ y ∧ y < k + 1) := by omega
          rw [if_pos h2, if_neg h3, if_pos h4, h2.2]
          rfl
        · rw [if_neg h2]
          by_cases h3 : (b ≤ x ∧ x < c) ∧ (c ≤ y ∧ y < k)
          · have h4 : (b ≤ x ∧ x < c) ∧ (c ≤ y ∧ y < k + 1) := by omega
            rw [if_pos h3, if_pos h4]
          · have h4 : ¬ ((b ≤ x ∧ x < c) ∧ (c ≤ y ∧ y < k + 1)) := by omega
            rw [if_neg h3, if_neg h4]

end Update

end Layered

/-! ## Initialisation and wiring -/

namespace Layered

variable {F : Type}

theorem set_getD_self {α : Type} (l : List α) (i : Nat) (d : α) : l.set i (l.getD i d) = l := by
  apply List.ext_getElem (by simp)
  intro j h1 h2
  rw [List.getElem_set]
  split_ifs with h
  · subst h
    exact List.getD_eq_getElem _ _ h2
  · rfl

theorem replicate_set_self {α : Type} (k i : Nat) (v : α) :
    (List.replicate k v).set i v = List.replicate k v := by
  apply List.ext_getElem (by simp)
  intro j h1 h2
  rw [List.getElem_set]
  split_ifs <;> simp

/-- Writing `0.0` into a row that is already zero changes nothing: the inner loop
of `initialize` leaves the state as the row assignment made it. -/
theorem init_inner [Zero F] (size x : Nat) (n : Net F)
    (hrow : n.weights.getD x [] = List.replicate size 0) (k : Nat) :
    forRange 0 k (fun y n => n.setWeight x y 0) n = n := by
  refine forRange_induction (fun _ m => m = n) 0 k (Nat.zero_le k) _ n rfl ?_
  rintro y m - - rfl
  show m.setWeight x y 0 = m
  unfold Net.setWeight
  rw [hrow, replicate_set_self, ← hrow, set_getD_self]

/-- What `initialize` leaves: slices of the right sizes holding only zeros. -/
theorem init_spec [Zero F] (size : Nat) (n : Net F) (hw : n.weights.length = size)
    (hv : n.values.length = size) (he : n.expectedValues.length = size)
    (ht : n.thresholds.length = size) :
    (init size n).Sized size ∧ (∀ x y, (init size n).weight x y = 0) ∧
    (∀ i, (init size n).value i = 0) ∧ (∀ i, (init size n).expected i = 0) ∧
    ∀ i, (init size n).threshold i = 0 := by
  have key := forRange_induction
      (fun k (m : Net F) => m.weights.length = size ∧ m.values.length = size ∧
        m.expectedValues.length = size ∧ m.thresholds.length = size ∧
        (∀ x, x < k → m.weights.getD x [] = List.replicate size 0) ∧
        (∀ i, i < k → m.values.getD i 0 = 0) ∧ (∀ i, i < k → m.expectedValues.getD i 0 = 0) ∧
        ∀ i, i < k → m.thresholds.getD i 0 = 0) 0 size (Nat.zero_le size)
      (fun x n =>
        forRange 0 size (fun y n => n.setWeight x y 0)
          ((((n.setValue x 0).setExpected x 0).setThreshold x 0).setRow x
            (List.replicate size 0))) n
      ⟨hw, hv, he, ht, fun x hx => absurd hx (Nat.not_lt_zero x),
        fun x hx => absurd hx (Nat.not_lt_zero x), fun x hx => absurd hx (Nat.not_lt_zero x),
        fun x hx => absurd hx (Nat.not_lt_zero x)⟩
      (by
        rintro x m - hx ⟨h1, h2, h3, h4, h5, h6, h7, h8⟩
        have hrow : ((((m.setValue x 0).setExpected x 0).setThreshold x 0).setRow x
            (List.replicate size 0)).weights.getD x [] = List.replicate size 0 := by
          simp only [Net.setRow, Net.setThreshold, Net.setExpected, Net.setValue, getD_set_eq, h1,
            hx, and_self, if_true]
        beta_reduce
        rw [init_inner size x _ hrow size]
        simp only [Net.setRow, Net.setThreshold, Net.setExpected, Net.setValue, List.length_set,
          getD_set_eq, h1, h2, h3, h4]
        refine ⟨trivial, trivial, trivial, trivial, ?_, ?_, ?_, ?_⟩
        · intro x' hx'
          split_ifs with h
          · rfl
          · exact h5 x' (by omega)
        · intro i hi
          split_ifs with h
          · rfl
          · exact h6 i (by omega)
        · intro i hi
          split_ifs with h
          · rfl
          · exact h7 i (by omega)
        · intro i hi
          split_ifs with h
          · rfl
          · exact h8 i (by omega))
  obtain ⟨h1, h2, h3, h4, h5, h6, h7, h8⟩ := key
  change (init size n).weights.length = size at h1
  change (init size n).values.length = size at h2
  change (init size n).expectedValues.length = size at h3
  change (init size n).thresholds.length = size at h4
  change ∀ x, x < size → (init size n).weights.getD x [] = List.replicate size 0 at h5
  change ∀ i, i < size → (init size n).values.getD i 0 = 0 at h6
  change ∀ i, i < size → (init size n).expectedValues.getD i 0 = 0 at h7
  change ∀ i, i < size → (init size n).thresholds.getD i 0 = 0 at h8
  have hz : ∀ (l : List F) (i : Nat), l.length = size → (∀ j, j < size → l.getD j 0 = 0) →
      l.getD i 0 = 0 := by
    intro l i hl h
    by_cases hi : i < size
    · exact h i hi
    · exact List.getD_eq_default _ _ (by omega)
  refine ⟨⟨h1, ?_, h2, h3, h4⟩, ?_, fun i => hz _ i h2 h6, fun i => hz _ i h3 h7,
    fun i => hz _ i h4 h8⟩
  · intro x hx
    rw [h5 x hx, List.length_replicate]
  · intro x y
    unfold Net.weight
    by_cases hx : x < size
    · rw [h5 x hx, getD_replicate_eq, ite_self]
    · have hnil : (init size n).weights.getD x [] = [] :=
        List.getD_eq_default _ _ (by omega)
      rw [hnil]
      rfl

/-- The threshold loop of `connectNodes`: node `j` of `[lo, hi)` receives draw
number `j - lo` of the source; nothing else changes. -/
theorem connectThresholds_spec [Zero F] (size lo hi : Nat) (r : Rand F) (n : Net F)
    (hn : n.Sized size) (hlo : lo ≤ hi) (hhi : hi ≤ size) :
    (connectThresholds lo hi (r, n)).1.draws = r.draws ∧
    (connectThresholds lo hi (r, n)).1.pos = r.pos + (hi - lo) ∧
    (connectThresholds lo hi (r, n)).2.Sized size ∧
    (connectThresholds lo hi (r, n)).2.weights = n.weights ∧
    (connectThresholds lo hi (r, n)).2.values = n.values ∧
    (connectThresholds lo hi (r, n)).2.expectedValues = n.expectedValues ∧
    ∀ j, (connectThresholds lo hi (r, n)).2.threshold j =
      if lo ≤ j ∧ j < hi then r.draws (r.pos + (j - lo)) else n.threshold j := by
  refine forRange_induction
    (fun k (s : Rand F × Net F) => s.1.draws = r.draws ∧ s.1.pos = r.pos + (k - lo) ∧
      s.2.Sized size ∧ s.2.weights = n.weights ∧ s.2.values = n.values ∧
      s.2.expectedValues = n.expectedValues ∧
      ∀ j, s.2.threshold j =
        if lo ≤ j ∧ j < k then r.draws (r.pos + (j - lo)) else n.threshold j)
    lo hi hlo _ (r, n) ?_ ?_
  · refine ⟨rfl, by simp, hn, rfl, rfl, rfl, ?_⟩
    intro j
    have : ¬ (lo ≤ j ∧ j < lo) := by omega
    rw [if_neg this]
  · rintro k ⟨q, m⟩ hk1 hk2 ⟨h1, h2, h3, h4, h5, h6, h7⟩
    simp only at h1 h2 h3 h4 h5 h6 h7
    refine ⟨h1, ?_, h3.setThreshold _ _, h4, h5, h6, ?_⟩
    · show q.pos + 1 = _
      omega
    · intro j
      show (m.setThreshold k (q.draws q.pos)).threshold j = _
      rw [Net.threshold_setThreshold m size k j _ h3 (by omega), h7 j, h1, h2]
      by_cases hj : j = k
      · subst hj
        have : lo ≤ j ∧ j < j + 1 := by omega
        rw [if_pos rfl, if_pos this]
      · rw [if_neg hj]
        by_cases h8 : lo ≤ j ∧ j < k
        · have : lo ≤ j ∧ j < k + 1 := by omega
          rw [if_pos h8, if_pos this]
        · have : ¬ (lo ≤ j ∧ j < k + 1) := by omega
          rw [if_neg h8, if_neg this]

/-- One row of the weight loops of `connectNodes`. -/
theorem connectRow [Zero F] (size x y0 y1 : Nat) (g : F → F) (r : Rand F) (n : Net F)
    (hn : n.Sized size) (hx : x < size) (hy : y0 ≤ y1) (hy1 : y1 ≤ size) :
    (forRange y0 y1 (fun y (s : Rand F × Net F) =>
      ((s.1.Float64).2, s.2.setWeight x y (g (s.1.Float64).1))) (r, n)).1.draws = r.draws ∧
    (forRange y0 y1 (fun y (s : Rand F × Net F) =>
      ((s.1.Float64).2, s.2.setWeight x y (g (s.1.Float64).1))) (r, n)).1.pos =
        r.pos + (y1 - y0) ∧
    (forRange y0 y1 (fun y (s : Rand F × Net F) =>
      ((s.1.Float64).2, s.2.setWeight x y (g (s.1.Float64).1))) (r, n)).2.Sized size ∧
    (forRange y0 y1 (fun y (s : Rand F × Net F) =>
      ((s.1.Float64).2, s.2.setWeight x y (g (s.1.Float64).1))) (r, n)).2.values = n.values ∧
    (forRange y0 y1 (fun y (s : Rand F × Net F) =>
      ((s.1.Float64).2, s.2.setWeight x y (g (s.1.Float64).1))) (r, n)).2.expectedValues =
        n.expectedValues ∧
    (forRange y0 y1 (fun y (s : Rand F × Net F) =>
      ((s.1.Float64).2, s.2.setWeight x y (g (s.1.Float64).1))) (r, n)).2.thresholds =
        n.thresholds ∧
    ∀ x' y, (forRange y0 y1 (fun y (s : Rand F × Net F) =>
      ((s.1.Float64).2, s.2.setWeight x y (g (s.1.Float64).1))) (r, n)).2.weight x' y =
      if x' = x ∧ (y0 ≤ y ∧ y < y1) then g (r.draws (r.pos + (y - y0))) else n.weight x' y := by
  refine forRange_induction
    (fun k (s : Rand F × Net F) => s.1.draws = r.draws ∧ s.1.pos = r.pos + (k - y0) ∧
      s.2.Sized size ∧ s.2.values = n.values ∧ s.2.expectedValues = n.expectedValues ∧
      s.2.thresholds = n.thresholds ∧
      ∀ x' y, s.2.weight x' y =
        if x' = x ∧ (y0 ≤ y ∧ y < k) then g (r.draws (r.pos + (y - y0))) else n.weight x' y)
    y0 y1 hy _ (r, n) ?_ ?_
  · refine ⟨rfl, by simp, hn, rfl, rfl, rfl, ?_⟩
    intro x' y
    have : ¬ (x' = x ∧ (y0 ≤ y ∧ y < y0)) := by omega
    rw [if_neg this]
  · rintro k ⟨q, m⟩ hk1 hk2 ⟨h1, h2, h3, h4, h5, h6, h7⟩
    simp only at h1 h2 h3 h4 h5 h6 h7
    refine ⟨h1, ?_, h3.setWeight _ _ _, h4, h5, h6, ?_⟩
    · show q.pos + 1 = _
      omega
    · intro x' y
      show (m.setWeight x k (g (q.draws q.pos))).weight x' y = _
      rw [Net.weight_setWeight m size x k x' y _ h3 hx (by omega), h7 x' y, h1, h2]
      by_cases hj : x' = x ∧ y = k
      · have h8 : x' = x ∧ (y0 ≤ y ∧ y < k + 1) := by omega
        rw [if_pos hj, if_pos h8, hj.2]
      · rw [if_neg hj]
        by_cases h8 : x' = x ∧ (y0 ≤ y ∧ y < k)
        · have : x' = x ∧ (y0 ≤ y ∧ y < k + 1) := by omega
          rw [if_pos h8, if_pos this]
        · have : ¬ (x' = x ∧ (y0 ≤ y ∧ y < k + 1)) := by omega
          rw [if_neg h8, if_neg this]

/-- The weight loops of `connectNodes`: entry `(x, y)` of the block
`[x0, x1) × [y0, y1)` receives `g` of the draw numbered row by row; nothing
else changes. -/
theorem connectWeights_spec [Zero F] (size x0 x1 y0 y1 : Nat) (g : F → F) (r : Rand F)
    (n : Net F) (hn : n.Sized size) (hx : x0 ≤ x1) (hx1 : x1 ≤ size) (hy : y0 ≤ y1)
    (hy1 : y1 ≤ size) :
    (connectWeights x0 x1 y0 y1 g (r, n)).1.draws = r.draws ∧
    (connectWeights x0 x1 y0 y1 g (r, n)).1.pos = r.pos + (x1 - x0) * (y1 - y0) ∧
    (connectWeights x0 x1 y0 y1 g (r, n)).2.Sized size ∧
    (connectWeights x0 x1 y0 y1 g (r, n)).2.values = n.values ∧
    (connectWeights x0 x1 y0 y1 g (r, n)).2.expectedValues = n.expectedValues ∧
    (connectWeights x0 x1 y0 y1 g (r, n)).2.thresholds = n.thresholds ∧
    ∀ x y, (connectWeights x0 x1 y0 y1 g (r, n)).2.weight x y =
      if (x0 ≤ x ∧ x < x1) ∧ (y0 ≤ y ∧ y < y1) then
        g (r.draws (r.pos + (x - x0) * (y1 - y0) + (y - y0)))
      else n.weight x y := by
  refine forRange_induction
    (fun k (s : Rand F × Net F) => s.1.draws = r.draws ∧
      s.1.pos = r.pos + (k - x0) * (y1 - y0) ∧
      s.2.Sized size ∧ s.2.values = n.values ∧ s.2.expectedValues = n.expectedValues ∧
      s.2.thresholds = n.thresholds ∧
      ∀ x y, s.2.weight x y =
        if (x0 ≤ x ∧ x < k) ∧ (y0 ≤ y ∧ y < y1) then
          g (r.draws (r.pos + (x - x0) * (y1 - y0) + (y - y0)))
        else n.weight x y)
    x0 x1 hx _ (r, n) ?_ ?_
  · refine ⟨rfl, by simp, hn, rfl, rfl, rfl, ?_⟩
    intro x y
    have : ¬ ((x0 ≤ x ∧ x < x0) ∧ (y0 ≤ y ∧ y < y1)) := by omega
    rw [if_neg this]
  · rintro k ⟨q, m⟩ hk1 hk2 ⟨h1, h2, h3, h4, h5, h6, h7⟩
    simp only at h1 h2 h3 h4 h5 h6 h7
    obtain ⟨g1, g2, g3, g4, g5, g6, g7⟩ :=
      connectRow size k y0 y1 g q m h3 (by omega) hy hy1
    have hmul : (k + 1 - x0) * (y1 - y0) = (k - x0) * (y1 - y0) + (y1 - y0) := by
      have : k + 1 - x0 = (k - x0) + 1 := by omega
      rw [this, Nat.add_mul, Nat.one_mul]
    refine ⟨g1.trans h1, ?_, g3, g4.trans h4, g5.trans h5, g6.trans h6, ?_⟩
    · rw [g2, h2, hmul, Nat.add_assoc]
    · intro x y
      rw [g7 x y, h7 x y, h1, h2]
      by_cases hj : x = k ∧ (y0 ≤ y ∧ y < y1)
      · have h8 : (x0 ≤ x ∧ x < k + 1) ∧ (y0 ≤ y ∧ y < y1) := by omega
        rw [if_pos hj, if_pos h8, hj.1]
      · rw [if_neg hj]
        by_cases h8 : (x0 ≤ x ∧ x < k) ∧ (y0 ≤ y ∧ y < y1)
        · have : (x0 ≤ x ∧ x < k + 1) ∧ (y0 ≤ y ∧ y < y1) := by omega
          rw [if_pos h8, if_pos this]
        · have : ¬ ((x0 ≤ x ∧ x < k + 1) ∧ (y0 ≤ y ∧ y < y1)) := by omega
          rw [if_neg h8, if_neg this]

end Layered

variable {F : Type}

/-! ## The two programs as instances of the shared engine -/

theorem Net.const_sized (size : Nat) (w v e t : F) : (Net.const size w v e t).Sized size := by
  refine ⟨by simp [Net.const], ?_, by simp [Net.const], by simp [Net.const],
    by simp [Net.const]⟩
  intro x hx
  simp only [Net.const, getD_replicate_eq, if_pos hx, List.length_replicate]

theorem Drawnn.drawnn_activateNetwork_eq [Zero F] [One F] [Add F] [Sub F] [Mul F] [Div F] [Neg F]
    (Pow : F → F → F) (E : F) (n : Net F) :
    Drawnn.activateNetwork Pow E n = Layered.activate 0 100 120 220 Pow E n := rfl

theorem Shaffer.shaffer_activateNetwork_eq [Zero F] [One F] [Add F] [Sub F] [Mul F] [Div F] [Neg F]
    (Pow : F → F → F) (E : F) (n : Net F) :
    Shaffer.activateNetwork Pow E n = Layered.activate 1 3 5 6 Pow E n := rfl

theorem Drawnn.drawnn_updateWeights_eq [Zero F] [One F] [Add F] [Sub F] [Mul F] [Neg F]
    [OfScientific F] [OfNat F 2] (Pow : F → F → F) (n : Net F) :
    Drawnn.updateWeights Pow n = Layered.update 0 100 120 220 Drawnn.LEARNINGRATE Pow n := rfl

theorem Shaffer.shaffer_updateWeights_eq [Zero F] [One F] [Add F] [Sub F] [Mul F] [Neg F]
    [OfScientific F] [OfNat F 2] (Pow : F → F → F) (n : Net F) :
    Shaffer.updateWeights Pow n = Layered.update 1 3 5 6 Shaffer.LEARNINGRATE Pow n := rfl

theorem Drawnn.drawnn_initializeNet_eq [Zero F] (n : Net F) :
    Drawnn.initializeNet n = Layered.init 220 n := rfl

theorem Shaffer.shaffer_initializeNet_eq [Zero F] (n : Net F) :
    Shaffer.initializeNet n = Layered.init 6 n := rfl

theorem Drawnn.drawnn_connectNodes_eq (r : Rand F) (n : Net F) :
    Drawnn.connectNodes r n =
      Layered.connectThresholds 100 220 (Layered.connectWeights 0 120 100 220 id (r, n)) := rfl

theorem Shaffer.shaffer_connectNodes_eq [Mul F] [OfNat F 2] (r : Rand F) (n : Net F) :
    Shaffer.connectNodes r n =
      Layered.connectThresholds 3 6
        (Layered.connectWeights 1 6 1 6 (fun d => d * 2) (r, n)) := rfl

theorem Drawnn.drawnn_mem_inputNodes (i : Nat) : i ∈ Drawnn.inputNodes ↔ i < 100 := by
  simp [Drawnn.inputNodes, Drawnn.NUMINPUTNODES, Drawnn.SQUAREROOTOFNODES]

theorem Drawnn.drawnn_mem_hiddenNodes (i : Nat) : i ∈ Drawnn.hiddenNodes ↔ 100 ≤ i ∧ i < 120 := by
  simp [Drawnn.hiddenNodes, Drawnn.NUMINPUTNODES, Drawnn.SQUAREROOTOFNODES,
    Drawnn.NUMHIDDENNODES]

theorem Drawnn.drawnn_mem_outputNodes (i : Nat) : i ∈ Drawnn.outputNodes ↔ 120 ≤ i ∧ i < 220 := by
  simp [Drawnn.outputNodes, Drawnn.NUMINPUTNODES, Drawnn.SQUAREROOTOFNODES,
    Drawnn.NUMHIDDENNODES, Drawnn.NUMNODES, Drawnn.NUMOUTPUTNODES]

theorem Shaffer.shaffer_mem_inputNodes (i : Nat) : i ∈ Shaffer.inputNodes ↔ 1 ≤ i ∧ i < 3 := by
  simp [Shaffer.inputNodes, Shaffer.NUMINPUTNODES]

theorem Shaffer.shaffer_mem_hiddenNodes (i : Nat) : i ∈ Shaffer.hiddenNodes ↔ 3 ≤ i ∧ i < 5 := by
  simp [Shaffer.hiddenNodes, Shaffer.NUMINPUTNODES, Shaffer.NUMHIDDENNODES]

theorem Shaffer.shaffer_mem_outputNodes (i : Nat) : i ∈ Shaffer.outputNodes ↔ i = 5 := by
  simp only [Shaffer.outputNodes, Shaffer.NUMINPUTNODES, Shaffer.NUMHIDDENNODES,
    Shaffer.NUMNODES, Shaffer.NUMOUTPUTNODES, Finset.mem_Ico]
  omega

/-- In exact arithmetic the accumulation loop is the sum over the layer. -/
theorem Layered.wsum_eq_sum [AddCommMonoid F] (lo hi : Nat) (f : Nat → F) :
    Layered.wsum lo hi f = ∑ i ∈ Finset.Ico lo hi, f i := by
  by_cases h : lo ≤ hi
  · unfold Layered.wsum
    refine forRange_induction (fun k acc => acc = ∑ i ∈ Finset.Ico lo k, f i) lo hi h _ _ ?_ ?_
    · simp
    · intro i t h1 _ ht
      show t + f i = _
      rw [Finset.sum_Ico_succ_top h1, ht]
  · unfold Layered.wsum
    rw [forRange_of_le _ _ (by omega), Finset.Ico_eq_empty (by omega), Finset.sum_empty]

theorem Net.alloc_allocated [Zero F] (size : Nat) : (Net.alloc size : Net F).Allocated size := by
  simp [Net.alloc, Net.Allocated]

/-- The threshold loop of `connectNodes`, started from the pair the weight loops
leave. -/
theorem Layered.connectThresholds_pair [Zero F] (size lo hi : Nat) (s : Rand F × Net F)
    (hn : s.2.Sized size) (hlo : lo ≤ hi) (hhi : hi ≤ size) :
    (Layered.connectThresholds lo hi s).1.draws = s.1.draws ∧
    (Layered.connectThresholds lo hi s).1.pos = s.1.pos + (hi - lo) ∧
    (Layered.connectThresholds lo hi s).2.Sized size ∧
    (Layered.connectThresholds lo hi s).2.weights = s.2.weights ∧
    (Layered.connectThresholds lo hi s).2.values = s.2.values ∧
    (Layered.connectThresholds lo hi s).2.expectedValues = s.2.expectedValues ∧
    ∀ j, (Layered.connectThresholds lo hi s).2.threshold j =
      if lo ≤ j ∧ j < hi then s.1.draws (s.1.pos + (j - lo)) else s.2.threshold j := by
  obtain ⟨r, n⟩ := s
  exact Layered.connectThresholds_spec size lo hi r n hn hlo hhi

/-- The state `main` of `drawnn.go` trains: `initialize` followed by
`connectNodes`. The weights of the block rows `[0, 120)` × columns `[100, 220)`
hold the draws in row order, the thresholds of the nodes `[100, 220)` the draws
that follow; everything else is zero. -/
theorem Drawnn.drawnn_wired [Zero F] (r : Rand F) (n : Net F) (hw : n.weights.length = 220)
    (hv : n.values.length = 220) (he : n.expectedValues.length = 220)
    (ht : n.thresholds.length = 220) :
    (Drawnn.connectNodes r (Drawnn.initializeNet n)).2.Sized 220 ∧
    (Drawnn.connectNodes r (Drawnn.initializeNet n)).1.draws = r.draws ∧
    (Drawnn.connectNodes r (Drawnn.initializeNet n)).1.pos = r.pos + 14520 ∧
    (∀ x y, (Drawnn.connectNodes r (Drawnn.initializeNet n)).2.weight x y =
      if (0 ≤ x ∧ x < 120) ∧ (100 ≤ y ∧ y < 220) then
        r.draws (r.pos + (x - 0) * (220 - 100) + (y - 100))
      else 0) ∧
    (∀ j, (Drawnn.connectNodes r (Drawnn.initializeNet n)).2.threshold j =
      if 100 ≤ j ∧ j < 220 then r.draws (r.pos + 14400 + (j - 100)) else 0) ∧
    (∀ j, (Drawnn.connectNodes r (Drawnn.initializeNet n)).2.value j = 0) ∧
    ∀ j, (Drawnn.connectNodes r (Drawnn.initializeNet n)).2.expected j = 0 := by
  obtain ⟨i1, i2, i3, i4, i5⟩ := Layered.init_spec 220 n hw hv he ht
  obtain ⟨w1, w2, w3, w4, w5, w6, w7⟩ := Layered.connectWeights_spec 220 0 120 100 220 id r
    (Layered.init 220 n) i1 (by decide) (by decide) (by decide) (by decide)
  obtain ⟨t1, t2, t3, t4, t5, t6, t7⟩ := Layered.connectThresholds_pair 220 100 220
    (Layered.connectWeights 0 120 100 220 id (r, Layered.init 220 n)) w3
    (by decide) (by decide)
  rw [Drawnn.drawnn_connectNodes_eq, Drawnn.drawnn_initializeNet_eq]
  refine ⟨t3, t1.trans w1, ?_, ?_, ?_, ?_, ?_⟩
  · rewrite [t2, w2]
    omega
  · intro x y
    have : (Layered.connectThresholds 100 220
        (Layered.connectWeights 0 120 100 220 id (r, Layered.init 220 n))).2.weight x y =
        (Layered.connectWeights 0 120 100 220 id (r, Layered.init 220 n)).2.weight x y := by
      simp only [Net.weight, t4]
    rw [this, w7 x y, i2 x y]
    rfl
  · intro j
    rw [t7 j, w1, w2]
    have : (Layered.connectWeights 0 120 100 220 id (r, Layered.init 220 n)).2.threshold j =
        0 := by
      simp only [Net.threshold, w6]
      exact i5 j
    rw [this]
  · intro j
    have : (Layered.connectThresholds 100 220
        (Layered.connectWeights 0 120 100 220 id (r, Layered.init 220 n))).2.value j =
        (Layered.init 220 n).value j := by
      simp only [Net.value, t5, w4]
    rw [this, i3 j]
  · intro j
    have : (Layered.connectThresholds 100 220
        (Layered.connectWeights 0 120 100 220 id (r, Layered.init 220 n))).2.expected j =
        (Layered.init 220 n).expected j := by
      simp only [Net.expected, t6, w5]
    rw [this, i4 j]

/-- The state `main` of `shaffer.go` trains: `initialize` followed by
`connectNodes`. Every weight between the nodes 1 to 5 holds twice a draw, in row
order, the thresholds of the nodes 3, 4 and 5 the three draws that follow;
everything else is zero. -/
theorem Shaffer.shaffer_wired [Zero F] [Mul F] [OfNat F 2] (r : Rand F) (n : Net F)
    (hw : n.weights.length = 6) (hv : n.values.length = 6)
    (he : n.expectedValues.length = 6) (ht : n.thresholds.length = 6) :
    (Shaffer.connectNodes r (Shaffer.initializeNet n)).2.Sized 6 ∧
    (Shaffer.connectNodes r (Shaffer.initializeNet n)).1.draws = r.draws ∧
    (Shaffer.connectNodes r (Shaffer.initializeNet n)).1.pos = r.pos + 28 ∧
    (∀ x y, (Shaffer.connectNodes r (Shaffer.initializeNet n)).2.weight x y =
      if (1 ≤ x ∧ x < 6) ∧ (1 ≤ y ∧ y < 6) then
        r.draws (r.pos + (x - 1) * (6 - 1) + (y - 1)) * 2
      else 0) ∧
    (∀ j, (Shaffer.connectNodes r (Shaffer.initializeNet n)).2.threshold j =
      if 3 ≤ j ∧ j < 6 then r.draws (r.pos + 25 + (j - 3)) else 0) ∧
    (∀ j, (Shaffer.connectNodes r (Shaffer.initializeNet n)).2.value j = 0) ∧
    ∀ j, (Shaffer.connectNodes r (Shaffer.initializeNet n)).2.expected j = 0 := by
  obtain ⟨i1, i2, i3, i4, i5⟩ := Layered.init_spec 6 n hw hv he ht
  obtain ⟨w1, w2, w3, w4, w5, w6, w7⟩ := Layered.connectWeights_spec 6 1 6 1 6
    (fun d : F => d * 2) r (Layered.init 6 n) i1 (by decide) (by decide) (by decide)
    (by decide)
  obtain ⟨t1, t2, t3, t4, t5, t6, t7⟩ := Layered.connectThresholds_pair 6 3 6
    (Layered.connectWeights 1 6 1 6 (fun d : F => d * 2) (r, Layered.init 6 n)) w3
    (by decide) (by decide)
  rw [Shaffer.shaffer_connectNodes_eq, Shaffer.shaffer_initializeNet_eq]
  refine ⟨t3, t1.trans w1, ?_, ?_, ?_, ?_, ?_⟩
  · rewrite [t2, w2]
    omega
  · intro x y
    have : (Layered.connectThresholds 3 6
        (Layered.connectWeights 1 6 1 6 (fun d : F => d * 2) (r, Layered.init 6 n))).2.weight
          x y =
        (Layered.connectWeights 1 6 1 6 (fun d : F => d * 2) (r, Layered.init 6 n)).2.weight
          x y := by
      simp only [Net.weight, t4]
    rw [this, w7 x y, i2 x y]
  · intro j
    rw [t7 j, w1, w2]
    have : (Layered.connectWeights 1 6 1 6 (fun d : F => d * 2)
        (r, Layered.init 6 n)).2.threshold j = 0 := by
      simp only [Net.threshold, w6]
      exact i5 j
    rw [this]
  · intro j
    have : (Layered.connectThresholds 3 6
        (Layered.connectWeights 1 6 1 6 (fun d : F => d * 2) (r, Layered.init 6 n))).2.value j =
        (Layered.init 6 n).value j := by
      simp only [Net.value, t5, w4]
    rw [this, i3 j]
  · intro j
    have : (Layered.connectThresholds 3 6
        (Layered.connectWeights 1 6 1 6 (fun d : F => d * 2)
          (r, Layered.init 6 n))).2.expected j =
        (Layered.init 6 n).expected j := by
      simp only [Net.expected, t6, w5]
    rw [this, i4 j]

/-! ## The forward pass in exact arithmetic -/

/-- The forward pass over arbitrary layer boundaries agrees with the reference
forward pass, in exact arithmetic. -/
theorem Layered.activate_reference [Field F] (Pow : F → F → F) (E : F) (size a b c d : Nat)
    (n : Net F) (hn : n.Sized size) (hbc : b ≤ c) (hcd : c ≤ d) (hd : d ≤ size) :
    (∀ h, b ≤ h → h < c → (Layered.activate a b c d Pow E n).value h =
      Reference.hidden (Finset.Ico a b) Pow E n h) ∧
    (∀ o, c ≤ o → o < d → (Layered.activate a b c d Pow E n).value o =
      Reference.output (Finset.Ico a b) (Finset.Ico b c) Pow E n o) ∧
    ∀ o, c ≤ o → o < d → (Layered.activate a b c d Pow E n).value o =
      Reference.sigmoid Pow E
        (∑ h ∈ Finset.Ico b c, n.weight h o * (Layered.activate a b c d Pow E n).value h -
          n.threshold o) := by
  obtain ⟨-, -, -, -, hv⟩ := Layered.activate_spec Pow E size a b c d n hn hbc hcd hd
  have hhid : ∀ h, b ≤ h → h < c → (Layered.activate a b c d Pow E n).value h =
      Reference.hidden (Finset.Ico a b) Pow E n h := by
    intro h h1 h2
    have h3 : ¬ (c ≤ h ∧ h < d) := by omega
    rw [hv h, if_neg h3, if_pos ⟨h1, h2⟩]
    simp only [Layered.hiddenActivation, Layered.sigmoid, Layered.wsum_eq_sum, Reference.hidden,
      Reference.sigmoid]
  have hout : ∀ o, c ≤ o → o < d → (Layered.activate a b c d Pow E n).value o =
      Reference.output (Finset.Ico a b) (Finset.Ico b c) Pow E n o := by
    intro o h1 h2
    rw [hv o, if_pos ⟨h1, h2⟩]
    simp only [Layered.outputActivation, Layered.hiddenActivation, Layered.sigmoid,
      Layered.wsum_eq_sum, Reference.output, Reference.hidden, Reference.sigmoid]
  refine ⟨hhid, hout, ?_⟩
  intro o h1 h2
  rw [hout o h1 h2]
  unfold Reference.output
  congr 2
  apply Finset.sum_congr rfl
  intro h hh
  rw [Finset.mem_Ico] at hh
  rw [hhid h hh.1 hh.2]

/-- In exact arithmetic the sigmoid of the code lies strictly between 0 and 1 as
soon as the power it divides by is positive. -/
theorem Layered.sigmoid_mem_Ioo [LinearOrderedField F] (Pow : F → F → F) (E : F)
    (hPow : ∀ x : F, 0 < Pow E x) (z : F) :
    0 < Layered.sigmoid Pow E z ∧ Layered.sigmoid Pow E z < 1 := by
  unfold Layered.sigmoid
  have hp := hPow (-z)
  have h1 : (0 : F) < 1 + Pow E (-z) := by linarith
  constructor
  · exact div_pos one_pos h1
  · rw [div_lt_one h1]
    linarith

/-- Over arbitrary layers, in exact arithmetic: every hidden and output
activation `activateNetwork` stores lies strictly between 0 and 1. -/
theorem Layered.activate_mem_Ioo [LinearOrderedField F] (Pow : F → F → F) (E : F)
    (hPow : ∀ x : F, 0 < Pow E x) (size a b c d : Nat) (n : Net F) (hn : n.Sized size)
    (hbc : b ≤ c) (hcd : c ≤ d) (hd : d ≤ size) (j : Nat) (hj1 : b ≤ j) (hj2 : j < d) :
    0 < (Layered.activate a b c d Pow E n).value j ∧
      (Layered.activate a b c d Pow E n).value j < 1 := by
  obtain ⟨-, -, -, -, hv⟩ := Layered.activate_spec Pow E size a b c d n hn hbc hcd hd
  rw [hv j]
  by_cases h1 : c ≤ j ∧ j < d
  · rw [if_pos h1]
    exact Layered.sigmoid_mem_Ioo Pow E hPow _
  · have h2 : b ≤ j ∧ j < c := by omega
    rw [if_neg h1, if_pos h2]
    exact Layered.sigmoid_mem_Ioo Pow E hPow _

theorem Net.eq_of_fields (m n : Net F) (h1 : m.weights = n.weights) (h2 : m.values = n.values)
    (h3 : m.expectedValues = n.expectedValues) (h4 : m.thresholds = n.thresholds) : m = n := by
  cases m
  cases n
  simp only [Net.mk.injEq]
  exact ⟨h1, h2, h3, h4⟩

/-- A second forward pass over the same weights, thresholds and inputs stores the
activations the first one stored. -/
theorem Layered.activate_idempotent [Zero F] [One F] [Add F] [Sub F] [Mul F] [Div F] [Neg F]
    (Pow : F → F → F) (E : F) (size a b c d : Nat) (n : Net F) (hn : n.Sized size)
    (hbc : b ≤ c) (hcd : c ≤ d) (hd : d ≤ size) :
    Layered.activate a b c d Pow E (Layered.activate a b c d Pow E n) =
      Layered.activate a b c d Pow E n := by
  obtain ⟨hm, hw, he, ht, hv⟩ := Layered.activate_spec Pow E size a b c d n hn hbc hcd hd
  obtain ⟨hm', hw', he', ht', hv'⟩ := Layered.activate_spec Pow E size a b c d _ hm hbc hcd hd
  have hhid : ∀ h, Layered.hiddenActivation a b Pow E (Layered.activate a b c d Pow E n) h =
      Layered.hiddenActivation a b Pow E n h := by
    intro h
    unfold Layered.hiddenActivation
    congr 2
    · apply Layered.wsum_congr
      intro i _ hi2
      have h1 : ¬ (c ≤ i ∧ i < d) := by omega
      have h2 : ¬ (b ≤ i ∧ i < c) := by omega
      rw [hv i, if_neg h1, if_neg h2]
      simp only [Net.weight, hw]
    · simp only [Net.threshold, ht]
  have hout : ∀ o, Layered.outputActivation a b c Pow E (Layered.activate a b c d Pow E n) o =
      Layered.outputActivation a b c Pow E n o := by
    intro o
    unfold Layered.outputActivation
    congr 2
    · apply Layered.wsum_congr
      intro h _ _
      rw [hhid h]
      simp only [Net.weight, hw]
    · simp only [Net.threshold, ht]
  apply Net.eq_of_fields _ _ hw' _ he' ht'
  apply list_eq_of_getD
  · rw [hm'.2.2.1, hm.2.2.1]
  · intro j _
    have := hv' j
    rw [hout, hhid] at this
    show (Layered.activate a b c d Pow E (Layered.activate a b c d Pow E n)).value j =
      (Layered.activate a b c d Pow E n).value j
    rw [this, hv j]
    split_ifs <;> rfl

/-! ## The sum of squared errors -/

/-- The sum of squared errors `updateWeights` returns, over arbitrary layers. -/
theorem Layered.update_sse [LinearOrderedField F] (lr : F) (Pow : F → F → F)
    (hPow : ∀ x : F, Pow x 2 = x ^ 2) (size a b c d : Nat) (n : Net F) (hn : n.Sized size)
    (hab : a ≤ b) (hbc : b ≤ c) (hcd : c ≤ d) (hd : d ≤ size) :
    (Layered.update a b c d lr Pow n).1 = ∑ o ∈ Finset.Ico c d, (n.expected o - n.value o) ^ 2 ∧
    0 ≤ (Layered.update a b c d lr Pow n).1 ∧
    (Layered.update a b c d lr Pow n).2.values = n.values := by
  obtain ⟨h1, -, h2, -, -, -⟩ := Layered.update_spec lr Pow size a b c d n hn hab hbc hcd hd
  have h3 : (Layered.update a b c d lr Pow n).1 =
      ∑ o ∈ Finset.Ico c d, (n.expected o - n.value o) ^ 2 := by
    rw [h1]
    have := Layered.wsum_eq_sum c d (fun o => Pow (n.expected o - n.value o) 2)
    unfold Layered.wsum at this
    rw [this]
    exact Finset.sum_congr rfl (fun o _ => hPow _)
  refine ⟨h3, ?_, h2⟩
  rw [h3]
  exact Finset.sum_nonneg (fun o _ => sq_nonneg _)

/-! ## The example generators -/

/-- The four rows of `trainingExample` in `shaffer.go`, by the remainder of a
non-negative iteration count. -/
theorem Shaffer.trainingExample_cases [Zero F] [One F] (iter : Int) (h0 : 0 ≤ iter)
    (n : Net F) :
    (iter % 4 = 0 ∧
      Shaffer.trainingExample iter n = ((n.setValue 1 1).setValue 2 1).setExpected 5 0) ∨
    (iter % 4 = 1 ∧
      Shaffer.trainingExample iter n = ((n.setValue 1 0).setValue 2 1).setExpected 5 1) ∨
    (iter % 4 = 2 ∧
      Shaffer.trainingExample iter n = ((n.setValue 1 1).setValue 2 0).setExpected 5 1) ∨
    (iter % 4 = 3 ∧
      Shaffer.trainingExample iter n = ((n.setValue 1 0).setValue 2 0).setExpected 5 0) := by
  have ht : Int.tmod iter 4 = iter % 4 := Int.tmod_eq_emod h0 (by decide)
  have hr : iter % 4 = 0 ∨ iter % 4 = 1 ∨ iter % 4 = 2 ∨ iter % 4 = 3 := by omega
  unfold Shaffer.trainingExample
  rw [ht]
  rcases hr with h | h | h | h
  · exact Or.inl ⟨h, by rw [h]; rfl⟩
  · exact Or.inr (Or.inl ⟨h, by rw [h]; rfl⟩)
  · exact Or.inr (Or.inr (Or.inl ⟨h, by rw [h]; rfl⟩))
  · exact Or.inr (Or.inr (Or.inr ⟨h, by rw [h]; rfl⟩))

/-- Reading back the three cells `trainingExample` writes in `shaffer.go`. -/
theorem Shaffer.read_example [Zero F] (n : Net F) (hn : n.Sized Shaffer.ARRAYSIZE)
    (u v e : F) :
    (((n.setValue 1 u).setValue 2 v).setExpected 5 e).value 1 = u ∧
    (((n.setValue 1 u).setValue 2 v).setExpected 5 e).value 2 = v ∧
    (((n.setValue 1 u).setValue 2 v).setExpected 5 e).expected 5 = e := by
  have h1 : (n.setValue 1 u).Sized 6 := hn.setValue _ _
  have h2 : ((n.setValue 1 u).setValue 2 v).Sized 6 := h1.setValue _ _
  refine ⟨?_, ?_, ?_⟩
  · rw [Net.value_setExpected, Net.value_setValue _ 6 2 1 v h1 (by decide),
      Net.value_setValue _ 6 1 1 u hn (by decide)]
    simp
  · rw [Net.value_setExpected, Net.value_setValue _ 6 2 2 v h1 (by decide)]
    simp
  · rw [Net.expected_setExpected _ 6 5 5 e h2 (by decide)]
    simp

theorem Drawnn.trainingExample_eq [Zero F] [One F] [OfScientific F] [LE F]
    [DecidableRel (α := F) (· ≤ ·)] (r : Rand F) (n : Net F) :
    Drawnn.trainingExample r n = forRange 0 100 (Layered.exampleStep 120) (r, n) := rfl

theorem Layered.exampleStep_eq [Zero F] [One F] [OfScientific F] [LE F]
    [DecidableRel (α := F) (· ≤ ·)] (offset i : Nat) (q : Rand F) (m : Net F) :
    Layered.exampleStep offset i (q, m) =
      (⟨q.draws, q.pos + 1⟩,
        (m.setValue i (if q.draws q.pos ≤ 0.5 then 0 else 1)).setExpected (i + offset)
          (if q.draws q.pos ≤ 0.5 then 0 else 1)) := by
  unfold Layered.exampleStep
  by_cases hc : q.draws q.pos ≤ 0.5
  · simp only [Rand.Float64, if_pos hc]
  · simp only [Rand.Float64, if_neg hc]

/-- What the loop of `trainingExample` leaves: input `j` of `[0, k)` holds the bit
of draw number `j`, the node `offset` places further expects that bit, and `k`
draws are consumed. -/
theorem Layered.exampleLoop [Zero F] [One F] [OfScientific F] [LE F]
    [DecidableRel (α := F) (· ≤ ·)] (size offset k : Nat) (r : Rand F) (n : Net F)
    (hn : n.Sized size) (hk : k + offset ≤ size) :
    (forRange 0 k (Layered.exampleStep offset) (r, n)).1.draws = r.draws ∧
    (forRange 0 k (Layered.exampleStep offset) (r, n)).1.pos = r.pos + k ∧
    (forRange 0 k (Layered.exampleStep offset) (r, n)).2.Sized size ∧
    (forRange 0 k (Layered.exampleStep offset) (r, n)).2.weights = n.weights ∧
    (forRange 0 k (Layered.exampleStep offset) (r, n)).2.thresholds = n.thresholds ∧
    (∀ j, (forRange 0 k (Layered.exampleStep offset) (r, n)).2.value j =
      if j < k then (if r.draws (r.pos + j) ≤ 0.5 then 0 else 1) else n.value j) ∧
    ∀ j, (forRange 0 k (Layered.exampleStep offset) (r, n)).2.expected j =
      if offset ≤ j ∧ j < offset + k then
        (if r.draws (r.pos + (j - offset)) ≤ 0.5 then 0 else 1)
      else n.expected j := by
  refine forRange_induction
    (fun k (s : Rand F × Net F) => s.1.draws = r.draws ∧ s.1.pos = r.pos + k ∧
      s.2.Sized size ∧ s.2.weights = n.weights ∧ s.2.thresholds = n.thresholds ∧
      (∀ j, s.2.value j =
        if j < k then (if r.draws (r.pos + j) ≤ 0.5 then 0 else 1) else n.value j) ∧
      ∀ j, s.2.expected j =
        if offset ≤ j ∧ j < offset + k then
          (if r.draws (r.pos + (j - offset)) ≤ 0.5 then 0 else 1)
        else n.expected j) 0 k (Nat.zero_le k) _ (r, n) ?_ ?_
  · refine ⟨rfl, rfl, hn, rfl, rfl, ?_, ?_⟩
    · intro j
      rw [if_neg (Nat.not_lt_zero j)]
    · intro j
      have : ¬ (offset ≤ j ∧ j < offset + 0) := by omega
      rw [if_neg this]
  · rintro i ⟨q, m⟩ - hi ⟨h1, h2, h3, h4, h5, h6, h7⟩
    simp only at h1 h2 h3 h4 h5 h6 h7
    rw [Layered.exampleStep_eq]
    have hd : q.draws q.pos = r.draws (r.pos + i) := by rw [h1, h2]
    rw [hd]
    refine ⟨h1, by show q.pos + 1 = _; omega, (h3.setValue _ _).setExpected _ _, h4, h5, ?_, ?_⟩
    · intro j
      show ((m.setValue i _).setExpected (i + offset) _).value j = _
      rw [Net.value_setExpected, Net.value_setValue m size i j _ h3 (by omega), h6 j]
      by_cases hj : j = i
      · subst hj
        rw [if_pos rfl, if_pos (Nat.lt_succ_self j)]
      · rw [if_neg hj]
        by_cases hj2 : j < i
        · rw [if_pos hj2, if_pos (Nat.lt_succ_of_lt hj2)]
        · have : ¬ j < i + 1 := by omega
          rw [if_neg hj2, if_neg this]
    · intro j
      show ((m.setValue i _).setExpected (i + offset) _).expected j = _
      rw [Net.expected_setExpected _ size (i + offset) j _ (h3.setValue _ _) (by omega),
        Net.expected_setValue, h7 j]
      by_cases hj : j = i + offset
      · subst hj
        have h8 : offset ≤ i + offset ∧ i + offset < offset + (i + 1) := by omega
        have h9 : i + offset - offset = i := by omega
        rw [if_pos rfl, if_pos h8, h9]
      · rw [if_neg hj]
        by_cases hj2 : offset ≤ j ∧ j < offset + i
        · have : offset ≤ j ∧ j < offset + (i + 1) := by omega
          rw [if_pos hj2, if_pos this]
        · have : ¬ (offset ≤ j ∧ j < offset + (i + 1)) := by omega
          rw [if_neg hj2, if_neg this]

/-! ## float64 rounding: the saturating sigmoid -/

theorem log2_eq (q : ℚ) (k : ℤ) (h1 : (2 : ℚ) ^ k ≤ |q|) (h2 : |q| < (2 : ℚ) ^ (k + 1)) :
    Int.log 2 |q| = k := by
  have hpos : 0 < |q| := lt_of_lt_of_le (zpow_pos (by norm_num) k) h1
  have ha : k ≤ Int.log 2 |q| := by
    have := (Int.zpow_le_iff_le_log (b := 2) (by norm_num) hpos (x := k)).mp
    exact this (by exact_mod_cast h1)
  have hb : Int.log 2 |q| < k + 1 := by
    have := (Int.lt_zpow_iff_log_lt (b := 2) (by norm_num) hpos (x := k + 1)).mp
    exact this (by exact_mod_cast h2)
  omega

theorem roundHalfEven_intCast (z : ℤ) : roundHalfEven (z : ℚ) = z := by
  unfold roundHalfEven
  rw [Int.floor_intCast, sub_self, if_pos (by norm_num)]

theorem roundToFloat64_zero : roundToFloat64 0 = 0 := by
  unfold roundToFloat64
  rw [if_pos rfl]

theorem roundToFloat64_one : roundToFloat64 1 = 1 := by
  have hl : Int.log 2 |(1 : ℚ)| = 0 := log2_eq 1 0 (by norm_num) (by norm_num)
  unfold roundToFloat64
  rw [if_neg one_ne_zero, hl]
  have : (1 : ℚ) / 2 ^ ((0 : ℤ) - 52) = ((4503599627370496 : ℤ) : ℚ) := by norm_num
  rw [this, roundHalfEven_intCast]
  norm_num

theorem roundToFloat64_forty : roundToFloat64 40 = 40 := by
  have hl : Int.log 2 |(40 : ℚ)| = 5 := log2_eq 40 5 (by norm_num) (by norm_num)
  unfold roundToFloat64
  rw [if_neg (by norm_num), hl]
  have : (40 : ℚ) / 2 ^ ((5 : ℤ) - 52) = ((5629499534213120 : ℤ) : ℚ) := by norm_num
  rw [this, roundHalfEven_intCast]
  norm_num

/-- Absorption: a non-negative addend of at most `2^(-54)` is lost when it is added
to 1 in float64. -/
theorem roundToFloat64_one_add (p : ℚ) (h0 : 0 ≤ p) (h1 : p ≤ 1 / 2 ^ 54) :
    roundToFloat64 (1 + p) = 1 := by
  have hp : (0 : ℚ) < 1 + p := by linarith
  have h2 : p < 1 := lt_of_le_of_lt h1 (by norm_num)
  have hl : Int.log 2 |1 + p| = 0 := by
    apply log2_eq
    · rw [abs_of_pos hp]
      norm_num
      exact h0
    · rw [abs_of_pos hp]
      norm_num
      linarith
  unfold roundToFloat64
  rw [if_neg (ne_of_gt hp), hl]
  have hm : (1 + p) / 2 ^ ((0 : ℤ) - 52) = 4503599627370496 + p * 4503599627370496 := by
    norm_num
    ring
  have hq : p * 4503599627370496 ≤ 1 / 4 := by
    have : p * 4503599627370496 ≤ 1 / 2 ^ 54 * 4503599627370496 :=
      mul_le_mul_of_nonneg_right h1 (by norm_num)
    refine le_trans this ?_
    norm_num
  have hq0 : 0 ≤ p * 4503599627370496 := mul_nonneg h0 (by norm_num)
  have hf : ⌊(4503599627370496 + p * 4503599627370496 : ℚ)⌋ = 4503599627370496 := by
    rw [Int.floor_eq_iff]
    constructor
    · push_cast
      linarith
    · push_cast
      linarith
  rw [hm]
  unfold roundHalfEven
  rw [hf, if_pos (by push_cast; linarith)]
  norm_num

theorem Float64.saturating_sized : Float64.saturating.Sized 6 :=
  ((Net.const_sized 6 (0 : Float64) 0 0 0).setWeight 1 3 ⟨40⟩).setValue 1 1

theorem Float64.add_val (x y : Float64) : x + y = ⟨roundToFloat64 (x.val + y.val)⟩ := rfl

theorem Float64.sub_val (x y : Float64) : x - y = ⟨roundToFloat64 (x.val - y.val)⟩ := rfl

theorem Float64.mul_val (x y : Float64) : x * y = ⟨roundToFloat64 (x.val * y.val)⟩ := rfl

theorem Float64.div_val (x y : Float64) : x / y = ⟨roundToFloat64 (x.val / y.val)⟩ := rfl

theorem Float64.neg_val (x : Float64) : -x = ⟨-x.val⟩ := rfl

theorem Float64.zero_val : (0 : Float64) = ⟨0⟩ := rfl

theorem Float64.one_val : (1 : Float64) = ⟨1⟩ := rfl

/-- The weighted input of hidden node 3 in the saturating state is exactly 40. -/
theorem Float64.saturating_input :
    Layered.wsum 1 3 (fun i => Float64.saturating.weight i 3 * Float64.saturating.value i) -
      Float64.saturating.threshold 3 = ⟨40⟩ := by
  have hc : (Net.const 6 (0 : Float64) 0 0 0).Sized 6 := Net.const_sized 6 0 0 0 0
  have hcw : ∀ x y, (Net.const 6 (0 : Float64) 0 0 0).weight x y = 0 := by
    intro x y
    simp only [Net.weight, Net.const]
    rw [getD_replicate_eq]
    split_ifs
    · rw [getD_replicate_eq, ite_self]
    · rfl
  have hcv : ∀ i, (Net.const 6 (0 : Float64) 0 0 0).value i = 0 := by
    intro i
    simp only [Net.value, Net.const, getD_replicate_eq, ite_self]
  have hw : ∀ x y, Float64.saturating.weight x y = if x = 1 ∧ y = 3 then ⟨40⟩ else 0 := by
    intro x y
    unfold Float64.saturating
    rw [Net.weight_setValue, Net.weight_setWeight _ 6 1 3 x y _ hc (by decide) (by decide), hcw]
  have hv : ∀ i, Float64.saturating.value i = if i = 1 then 1 else 0 := by
    intro i
    unfold Float64.saturating
    rw [Net.value_setValue _ 6 1 i _ (hc.setWeight _ _ _) (by decide), Net.value_setWeight, hcv]
  have ht : Float64.saturating.threshold 3 = 0 := by
    unfold Float64.saturating
    rw [Net.threshold_setValue, Net.threshold_setWeight]
    simp only [Net.threshold, Net.const, getD_replicate_eq, ite_self]
  unfold Layered.wsum
  rw [forRange_succ 1 2 (by decide), forRange_succ 1 1 (by decide),
    forRange_of_le 1 1 (Nat.le_refl 1)]
  beta_reduce
  rw [hw 1 3, hw 2 3, hv 1, hv 2, ht,
    if_pos ⟨rfl, rfl⟩, if_pos rfl, if_neg (by decide), if_neg (by decide)]
  simp only [Float64.add_val, Float64.sub_val, Float64.mul_val, Float64.zero_val,
    Float64.one_val, mul_one, mul_zero, zero_add, add_zero, sub_zero, roundToFloat64_zero,
    roundToFloat64_forty]

/-- Whatever `math.Pow` returns at `(math.E, -40)`, as long as it lies between 0
and `2^(-54)` (the exact `e^(-40)` does), `activateNetwork` stores exactly `1.0` in
hidden node 3 of the saturating state. -/
theorem Float64.saturates (Pow : Float64 → Float64 → Float64) (E : Float64)
    (h0 : 0 ≤ (Pow E ⟨-40⟩).val) (h1 : (Pow E ⟨-40⟩).val ≤ 1 / 2 ^ 54) :
    (Shaffer.activateNetwork Pow E Float64.saturating).value 3 = 1 := by
  obtain ⟨-, -, -, -, hv⟩ := Layered.activate_spec Pow E 6 1 3 5 6
    Float64.saturating Float64.saturating_sized (by decide) (by decide) (by decide)
  rw [Shaffer.shaffer_activateNetwork_eq, hv 3, if_neg (by decide), if_pos (by decide)]
  unfold Layered.hiddenActivation Layered.sigmoid
  rw [Float64.saturating_input, Float64.neg_val, Float64.one_val, Float64.add_val,
    roundToFloat64_one_add _ h0 h1, Float64.div_val]
  simp only [div_one, roundToFloat64_one]

/-- The exact `e^(-40)` lies between `2^(-58)` and `2^(-57)`: it is far below
`2^(-53)`, half the spacing of the float64 numbers above 1. -/
theorem exp_neg_forty_bounds :
    (1 : ℝ) / 2 ^ 58 < Real.exp (-40) ∧ Real.exp (-40) < 1 / 2 ^ 57 := by
  have h40 : Real.exp 40 = Real.exp 1 ^ 40 := by
    rw [← Real.exp_nat_mul]
    norm_num
  have hlo : (2 : ℝ) ^ 57 < Real.exp 40 := by
    rw [h40]
    calc (2 : ℝ) ^ 57 < (2.7182818283 : ℝ) ^ 40 := by norm_num
      _ < Real.exp 1 ^ 40 := pow_lt_pow_left₀ Real.exp_one_gt_d9 (by norm_num) (by norm_num)
  have hhi : Real.exp 40 < (2 : ℝ) ^ 58 := by
    rw [h40]
    calc Real.exp 1 ^ 40 < (2.7182818286 : ℝ) ^ 40 :=
          pow_lt_pow_left₀ Real.exp_one_lt_d9 (Real.exp_pos 1).le (by norm_num)
      _ < (2 : ℝ) ^ 58 := by norm_num
  have hpos : (0 : ℝ) < Real.exp 40 := Real.exp_pos 40
  rw [Real.exp_neg, one_div, one_div]
  constructor
  · exact inv_strictAnti₀ hpos hhi
  · exact inv_strictAnti₀ (by positivity) hlo

/-! ## Entries of a slice and reads by index -/

theorem exists_getD_of_mem {α : Type} (l : List α) (d v : α) (h : v ∈ l) :
    ∃ i, i < l.length ∧ l.getD i d = v := by
  obtain ⟨i, hi, e⟩ := List.getElem_of_mem h
  exact ⟨i, hi, by rw [List.getD_eq_getElem _ _ hi]; exact e⟩

theorem getD_mem_of_lt {α : Type} (l : List α) (d : α) (i : Nat) (h : i < l.length) :
    l.getD i d ∈ l := by
  rw [List.getD_eq_getElem _ _ h]
  exact List.getElem_mem h

/-- The invariant by index: every read `values[i]` lies in `[0, 1]`. -/
theorem Net.unitActivations_of_reads [Zero F] [One F] [LE F] (n : Net F)
    (h : ∀ i, i < n.values.length → 0 ≤ n.value i ∧ n.value i ≤ 1) : n.UnitActivations := by
  intro v hv
  obtain ⟨i, hi, e⟩ := exists_getD_of_mem n.values 0 v hv
  rw [← e]
  exact h i hi

theorem Net.UnitActivations.read [LinearOrderedField F] {n : Net F} (h : n.UnitActivations)
    (i : Nat) : 0 ≤ n.value i ∧ n.value i ≤ 1 := by
  by_cases hi : i < n.values.length
  · exact h _ (getD_mem_of_lt n.values 0 i hi)
  · have : n.value i = 0 := by
      unfold Net.value
      rw [List.getD_eq_default _ _ (by omega)]
    rw [this]
    exact ⟨le_refl 0, zero_le_one⟩

/-- After `initialize` every row of the weight matrix has `size` entries, all
zero. -/
theorem Layered.init_rows [Zero F] (size : Nat) (n : Net F) (hw : n.weights.length = size)
    (hv : n.values.length = size) (he : n.expectedValues.length = size)
    (ht : n.thresholds.length = size) :
    ∀ row ∈ (Layered.init size n).weights, row.length = size ∧ ∀ w ∈ row, w = 0 := by
  obtain ⟨hs, hz, -, -, -⟩ := Layered.init_spec size n hw hv he ht
  intro row hrow
  obtain ⟨x, hx, ex⟩ := exists_getD_of_mem _ [] row hrow
  rw [hs.1] at hx
  have hlen : row.length = size := by
    rw [← ex]
    exact hs.2.1 x hx
  refine ⟨hlen, ?_⟩
  intro w hw'
  obtain ⟨y, hy, ey⟩ := exists_getD_of_mem row 0 w hw'
  have := hz x y
  unfold Net.weight at this
  rw [ex, ey] at this
  exact this

/-! ## The example generators: what they leave alone -/

/-- One row of the XOR table written into a state: the weights and thresholds
are untouched and only the activations 1 and 2 change. -/
theorem Shaffer.example_row [Zero F] (n : Net F) (hn : n.Sized 6) (u v e : F) :
    (((n.setValue 1 u).setValue 2 v).setExpected 5 e).Sized 6 ∧
    (((n.setValue 1 u).setValue 2 v).setExpected 5 e).weights = n.weights ∧
    (((n.setValue 1 u).setValue 2 v).setExpected 5 e).thresholds = n.thresholds ∧
    ∀ j, (((n.setValue 1 u).setValue 2 v).setExpected 5 e).value j =
      if j = 2 then v else if j = 1 then u else n.value j := by
  have h1 : (n.setValue 1 u).Sized 6 := hn.setValue _ _
  have h2 : ((n.setValue 1 u).setValue 2 v).Sized 6 := h1.setValue _ _
  refine ⟨h2.setExpected _ _, rfl, rfl, ?_⟩
  intro j
  rw [Net.value_setExpected, Net.value_setValue _ 6 2 j v h1 (by decide),
    Net.value_setValue _ 6 1 j u hn (by decide)]

/-- The function `trainingExample` of `shaffer.go`, for every iteration count:
the weights and thresholds are untouched, and every activation is either what it
was or one of `0.0` and `1.0`. -/
theorem Shaffer.shaffer_trainingExample_frame [Zero F] [One F] (iter : Int) (n : Net F)
    (hn : n.Sized 6) :
    (Shaffer.trainingExample iter n).Sized 6 ∧
    (Shaffer.trainingExample iter n).weights = n.weights ∧
    (Shaffer.trainingExample iter n).thresholds = n.thresholds ∧
    ∀ j, (Shaffer.trainingExample iter n).value j = n.value j ∨
      (Shaffer.trainingExample iter n).value j = 0 ∨
      (Shaffer.trainingExample iter n).value j = 1 := by
  have key : ∀ u v e : F, (u = 0 ∨ u = 1) → (v = 0 ∨ v = 1) →
      (((n.setValue 1 u).setValue 2 v).setExpected 5 e).Sized 6 ∧
      (((n.setValue 1 u).setValue 2 v).setExpected 5 e).weights = n.weights ∧
      (((n.setValue 1 u).setValue 2 v).setExpected 5 e).thresholds = n.thresholds ∧
      ∀ j, (((n.setValue 1 u).setValue 2 v).setExpected 5 e).value j = n.value j ∨
        (((n.setValue 1 u).setValue 2 v).setExpected 5 e).value j = 0 ∨
        (((n.setValue 1 u).setValue 2 v).setExpected 5 e).value j = 1 := by
    intro u v e hu hv
    obtain ⟨r1, r2, r3, r4⟩ := Shaffer.example_row n hn u v e
    refine ⟨r1, r2, r3, ?_⟩
    intro j
    rw [r4 j]
    by_cases j2 : j = 2
    · rw [if_pos j2]
      exact Or.inr hv
    · rw [if_neg j2]
      by_cases j1 : j = 1
      · rw [if_pos j1]
        exact Or.inr hu
      · rw [if_neg j1]
        exact Or.inl rfl
  unfold Shaffer.trainingExample
  split
  · exact key 1 1 0 (Or.inr rfl) (Or.inr rfl)
  · exact key 0 1 1 (Or.inl rfl) (Or.inr rfl)
  · exact key 1 0 1 (Or.inr rfl) (Or.inl rfl)
  · exact key 0 0 0 (Or.inl rfl) (Or.inl rfl)
  · exact ⟨hn, rfl, rfl, fun j => Or.inl rfl⟩

/-! ## Wiring from an arbitrary state -/

/-- The function `connectNodes` of `drawnn.go` on any state of the right sizes:
the block rows `[0, 120)` × columns `[100, 220)` and the thresholds of the nodes
`[100, 220)` are overwritten with draws, everything else is kept. -/
theorem Drawnn.drawnn_connected [Zero F] (r : Rand F) (n : Net F) (hn : n.Sized 220) :
    (Drawnn.connectNodes r n).2.Sized 220 ∧
    (Drawnn.connectNodes r n).2.values = n.values ∧
    (Drawnn.connectNodes r n).2.expectedValues = n.expectedValues ∧
    (∀ x y, (Drawnn.connectNodes r n).2.weight x y =
      if (0 ≤ x ∧ x < 120) ∧ (100 ≤ y ∧ y < 220) then
        r.draws (r.pos + (x - 0) * (220 - 100) + (y - 100))
      else n.weight x y) ∧
    ∀ j, (Drawnn.connectNodes r n).2.threshold j =
      if 100 ≤ j ∧ j < 220 then r.draws (r.pos + 14400 + (j - 100)) else n.threshold j := by
  obtain ⟨w1, w2, w3, w4, w5, w6, w7⟩ := Layered.connectWeights_spec 220 0 120 100 220 id r
    n hn (by decide) (by decide) (by decide) (by decide)
  obtain ⟨t1, t2, t3, t4, t5, t6, t7⟩ := Layered.connectThresholds_pair 220 100 220
    (Layered.connectWeights 0 120 100 220 id (r, n)) w3 (by decide) (by decide)
  rw [Drawnn.drawnn_connectNodes_eq]
  refine ⟨t3, t5.trans w4, t6.trans w5, ?_, ?_⟩
  · intro x y
    have : (Layered.connectThresholds 100 220
        (Layered.connectWeights 0 120 100 220 id (r, n))).2.weight x y =
        (Layered.connectWeights 0 120 100 220 id (r, n)).2.weight x y := by
      simp only [Net.weight, t4]
    rw [this, w7 x y]
    rfl
  · intro j
    rw [t7 j, w1, w2]
    have : (Layered.connectWeights 0 120 100 220 id (r, n)).2.threshold j =
        n.threshold j := by
      simp only [Net.threshold, w6]
    rw [this]

/-- The function `connectNodes` of `shaffer.go` on any state of the right sizes:
every weight between the nodes 1 to 5 is overwritten with twice a draw, the
thresholds of the nodes 3, 4 and 5 with draws, everything else is kept. -/
theorem Shaffer.shaffer_connected [Zero F] [Mul F] [OfNat F 2] (r : Rand F) (n : Net F)
    (hn : n.Sized 6) :
    (Shaffer.connectNodes r n).2.Sized 6 ∧
    (Shaffer.connectNodes r n).2.values = n.values ∧
    (Shaffer.connectNodes r n).2.expectedValues = n.expectedValues ∧
    (∀ x y, (Shaffer.connectNodes r n).2.weight x y =
      if (1 ≤ x ∧ x < 6) ∧ (1 ≤ y ∧ y < 6) then
        r.draws (r.pos + (x - 1) * (6 - 1) + (y - 1)) * 2
      else n.weight x y) ∧
    ∀ j, (Shaffer.connectNodes r n).2.threshold j =
      if 3 ≤ j ∧ j < 6 then r.draws (r.pos + 25 + (j - 3)) else n.threshold j := by
  obtain ⟨w1, w2, w3, w4, w5, w6, w7⟩ := Layered.connectWeights_spec 6 1 6 1 6
    (fun d : F => d * 2) r n hn (by decide) (by decide) (by decide) (by decide)
  obtain ⟨t1, t2, t3, t4, t5, t6, t7⟩ := Layered.connectThresholds_pair 6 3 6
    (Layered.connectWeights 1 6 1 6 (fun d : F => d * 2) (r, n)) w3 (by decide) (by decide)
  rw [Shaffer.shaffer_connectNodes_eq]
  refine ⟨t3, t5.trans w4, t6.trans w5, ?_, ?_⟩
  · intro x y
    have : (Layered.connectThresholds 3 6
        (Layered.connectWeights 1 6 1 6 (fun d : F => d * 2) (r, n))).2.weight x y =
        (Layered.connectWeights 1 6 1 6 (fun d : F => d * 2) (r, n)).2.weight x y := by
      simp only [Net.weight, t4]
    rw [this, w7 x y]
  · intro j
    rw [t7 j, w1, w2]
    have : (Layered.connectWeights 1 6 1 6 (fun d : F => d * 2) (r, n)).2.threshold j =
        n.threshold j := by
      simp only [Net.threshold, w6]
    rw [this]


/-! ## Activations stay in the unit interval (exact arithmetic) -/

/-- The sigmoid lies in `[0, 1]` as soon as the power `Pow E x` is never
negative. -/
theorem Layered.sigmoid_mem_Icc [LinearOrderedField F] (Pow : F → F → F) (E : F)
    (hPow : ∀ x : F, 0 ≤ Pow E x) (z : F) :
    0 ≤ Layered.sigmoid Pow E z ∧ Layered.sigmoid Pow E z ≤ 1 := by
  unfold Layered.sigmoid
  have hp := hPow (-z)
  have h1 : (0 : F) < 1 + Pow E (-z) := by linarith
  constructor
  · exact div_nonneg zero_le_one (le_of_lt h1)
  · rw [div_le_one h1]
    linarith

/-- The forward pass over arbitrary layers keeps every activation in `[0, 1]`. -/
theorem Layered.activate_unit [LinearOrderedField F] (Pow : F → F → F) (E : F)
    (hPow : ∀ x : F, 0 ≤ Pow E x) (size a b c d : Nat) (n : Net F) (hn : n.Sized size)
    (hbc : b ≤ c) (hcd : c ≤ d) (hd : d ≤ size) (hu : n.UnitActivations) :
    (Layered.activate a b c d Pow E n).UnitActivations := by
  obtain ⟨-, -, -, -, hv⟩ := Layered.activate_spec Pow E size a b c d n hn hbc hcd hd
  refine Net.unitActivations_of_reads _ ?_
  intro j _
  rw [hv j]
  by_cases h1 : c ≤ j ∧ j < d
  · rw [if_pos h1]
    exact Layered.sigmoid_mem_Icc Pow E hPow _
  · rw [if_neg h1]
    by_cases h2 : b ≤ j ∧ j < c
    · rw [if_pos h2]
      exact Layered.sigmoid_mem_Icc Pow E hPow _
    · rw [if_neg h2]
      exact hu.read j

/-- The state `initialize` leaves has every activation in `[0, 1]`. -/
theorem Layered.init_unit [LinearOrderedField F] (size : Nat) (n : Net F)
    (hn : n.Allocated size) : (Layered.init size n).UnitActivations := by
  obtain ⟨-, -, hv, -, -⟩ := Layered.init_spec size n hn.1 hn.2.1 hn.2.2.1 hn.2.2.2
  refine Net.unitActivations_of_reads _ ?_
  intro j _
  rw [hv j]
  exact ⟨le_refl 0, zero_le_one⟩

/-- The random pattern of `drawnn.go` keeps every activation in `[0, 1]`. -/
theorem Layered.exampleLoop_unit [LinearOrderedField F] (size offset k : Nat) (r : Rand F)
    (n : Net F) (hn : n.Sized size) (hk : k + offset ≤ size) (hu : n.UnitActivations) :
    (forRange 0 k (Layered.exampleStep offset) (r, n)).2.UnitActivations := by
  obtain ⟨-, -, -, -, -, hv, -⟩ := Layered.exampleLoop size offset k r n hn hk
  refine Net.unitActivations_of_reads _ ?_
  intro j _
  rw [hv j]
  by_cases h1 : j < k
  · rw [if_pos h1]
    by_cases h2 : r.draws (r.pos + j) ≤ 0.5
    · rw [if_pos h2]
      exact ⟨le_refl 0, zero_le_one⟩
    · rw [if_neg h2]
      exact ⟨zero_le_one, le_refl 1⟩
  · rw [if_neg h1]
    exact hu.read j

/-- The XOR table keeps every activation in `[0, 1]`, for every iteration count. -/
theorem Shaffer.shaffer_trainingExample_unit [LinearOrderedField F] (iter : Int) (n : Net F)
    (hn : n.Sized 6) (hu : n.UnitActivations) :
    (Shaffer.trainingExample iter n).UnitActivations := by
  obtain ⟨-, -, -, hv⟩ := Shaffer.shaffer_trainingExample_frame iter n hn
  refine Net.unitActivations_of_reads _ ?_
  intro j _
  rcases hv j with h | h | h
  · rw [h]
    exact hu.read j
  · rw [h]
    exact ⟨le_refl 0, zero_le_one⟩
  · rw [h]
    exact ⟨zero_le_one, le_refl 1⟩


/-! ## The passes read only the connected blocks -/

theorem forRange_congr {σ : Type} (lo hi : Nat) (f g : Nat → σ → σ) (s : σ)
    (h : ∀ i t, lo ≤ i → i < hi → f i t = g i t) : forRange lo hi f s = forRange lo hi g s := by
  by_cases hle : lo ≤ hi
  · refine forRange_induction (fun k acc => acc = forRange lo k g s) lo hi hle f s ?_ ?_
    · show s = _
      rw [forRange_of_le _ _ (Nat.le_refl _)]
    · intro i t h1 h2 ht
      show f i t = _
      rw [forRange_succ _ _ h1, ← ht, h i t h1 h2]
  · rw [forRange_of_le _ _ (by omega), forRange_of_le _ _ (by omega)]

/-- Two states with the same vectors read the same activations, expected values
and thresholds. -/
theorem Net.reads_congr [Zero F] (n m : Net F) (hv : n.values = m.values)
    (he : n.expectedValues = m.expectedValues) (ht : n.thresholds = m.thresholds) :
    (∀ i, n.value i = m.value i) ∧ (∀ i, n.expected i = m.expected i) ∧
      ∀ i, n.threshold i = m.threshold i := by
  refine ⟨?_, ?_, ?_⟩
  · intro i
    simp only [Net.value, hv]
  · intro i
    simp only [Net.expected, he]
  · intro i
    simp only [Net.threshold, ht]

/-- The forward pass over arbitrary layers reads the weights of the blocks
`[a, b) × [b, c)` and `[b, c) × [c, d)` only: two states that agree there, and on
the three vectors, get the same activation vector. -/
theorem Layered.activate_congr [Zero F] [One F] [Add F] [Sub F] [Mul F] [Div F] [Neg F]
    (Pow : F → F → F) (E : F) (size a b c d : Nat) (n m : Net F) (hn : n.Sized size)
    (hm : m.Sized size) (hbc : b ≤ c) (hcd : c ≤ d) (hd : d ≤ size)
    (hv : n.values = m.values) (he : n.expectedValues = m.expectedValues)
    (ht : n.thresholds = m.thresholds)
    (hih : ∀ x y, a ≤ x → x < b → b ≤ y → y < c → n.weight x y = m.weight x y)
    (hho : ∀ x y, b ≤ x → x < c → c ≤ y → y < d → n.weight x y = m.weight x y) :
    (Layered.activate a b c d Pow E n).values = (Layered.activate a b c d Pow E m).values := by
  obtain ⟨n1, -, -, -, n5⟩ := Layered.activate_spec Pow E size a b c d n hn hbc hcd hd
  obtain ⟨m1, -, -, -, m5⟩ := Layered.activate_spec Pow E size a b c d m hm hbc hcd hd
  obtain ⟨rv, -, rt⟩ := Net.reads_congr n m hv he ht
  have hid : ∀ h, b ≤ h → h < c →
      Layered.hiddenActivation a b Pow E n h = Layered.hiddenActivation a b Pow E m h := by
    intro h h1 h2
    unfold Layered.hiddenActivation
    rw [Layered.wsum_congr a b (fun i => n.weight i h * n.value i)
      (fun i => m.weight i h * m.value i) (fun i i1 i2 => by
        show n.weight i h * n.value i = m.weight i h * m.value i
        rw [hih i h i1 i2 h1 h2, rv i]), rt h]
  have out : ∀ o, c ≤ o → o < d →
      Layered.outputActivation a b c Pow E n o = Layered.outputActivation a b c Pow E m o := by
    intro o o1 o2
    unfold Layered.outputActivation
    rw [Layered.wsum_congr b c (fun h => n.weight h o * Layered.hiddenActivation a b Pow E n h)
      (fun h => m.weight h o * Layered.hiddenActivation a b Pow E m h) (fun h h1 h2 => by
        show n.weight h o * Layered.hiddenActivation a b Pow E n h =
          m.weight h o * Layered.hiddenActivation a b Pow E m h
        rw [hho h o h1 h2 o1 o2, hid h h1 h2]), rt o]
  refine list_eq_of_getD _ _ (n1.2.2.1.trans m1.2.2.1.symm) ?_
  intro j _
  show (Layered.activate a b c d Pow E n).value j = (Layered.activate a b c d Pow E m).value j
  rw [n5 j, m5 j]
  by_cases h1 : c ≤ j ∧ j < d
  · rw [if_pos h1, if_pos h1]
    exact out j h1.1 h1.2
  · rw [if_neg h1, if_neg h1]
    by_cases h2 : b ≤ j ∧ j < c
    · rw [if_pos h2, if_pos h2]
      exact hid j h2.1 h2.2
    · rw [if_neg h2, if_neg h2]
      exact rv j

/-- The backward pass over arbitrary layers reads the weights of the blocks
`[a, b) × [b, c)` and `[b, c) × [c, d)` only: two states that agree there, and on
the three vectors, get the same sum of squared errors, the same thresholds and
the same weights in the two blocks. -/
theorem Layered.update_congr [Zero F] [One F] [Add F] [Sub F] [Mul F] [Neg F] [OfNat F 2]
    (lr : F) (Pow : F → F → F) (size a b c d : Nat) (n m : Net F) (hn : n.Sized size)
    (hm : m.Sized size) (hab : a ≤ b) (hbc : b ≤ c) (hcd : c ≤ d) (hd : d ≤ size)
    (hv : n.values = m.values) (he : n.expectedValues = m.expectedValues)
    (ht : n.thresholds = m.thresholds)
    (hih : ∀ x y, a ≤ x → x < b → b ≤ y → y < c → n.weight x y = m.weight x y)
    (hho : ∀ x y, b ≤ x → x < c → c ≤ y → y < d → n.weight x y = m.weight x y) :
    (Layered.update a b c d lr Pow n).1 = (Layered.update a b c d lr Pow m).1 ∧
    (Layered.update a b c d lr Pow n).2.thresholds =
      (Layered.update a b c d lr Pow m).2.thresholds ∧
    (∀ x y, a ≤ x → x < b → b ≤ y → y < c →
      (Layered.update a b c d lr Pow n).2.weight x y =
        (Layered.update a b c d lr Pow m).2.weight x y) ∧
    ∀ x y, b ≤ x → x < c → c ≤ y → y < d →
      (Layered.update a b c d lr Pow n).2.weight x y =
        (Layered.update a b c d lr Pow m).2.weight x y := by
  obtain ⟨n1, n2, -, -, n5, n6⟩ := Layered.update_spec lr Pow size a b c d n hn hab hbc hcd hd
  obtain ⟨m1, m2, -, -, m5, m6⟩ := Layered.update_spec lr Pow size a b c d m hm hab hbc hcd hd
  obtain ⟨rv, re, rt⟩ := Net.reads_congr n m hv he ht
  have og : ∀ o, Layered.outputGradient n o = Layered.outputGradient m o := by
    intro o
    unfold Layered.outputGradient
    rw [rv o, re o]
  have uw : ∀ h o, b ≤ h → h < c → c ≤ o → o < d →
      Layered.updatedWeight lr n h o = Layered.updatedWeight lr m h o := by
    intro h o h1 h2 o1 o2
    unfold Layered.updatedWeight
    rw [hho h o h1 h2 o1 o2, rv h, og o]
  have hg : ∀ h o, b ≤ h → h < c → c ≤ o → o < d →
      Layered.hiddenGradient lr n h o = Layered.hiddenGradient lr m h o := by
    intro h o h1 h2 o1 o2
    unfold Layered.hiddenGradient
    rw [rv h, og o, uw h o h1 h2 o1 o2]
  refine ⟨?_, ?_, ?_, ?_⟩
  · rw [n1, m1]
    refine forRange_congr c d _ _ 0 ?_
    intro o acc _ _
    show acc + Pow (n.expected o - n.value o) 2 = acc + Pow (m.expected o - m.value o) 2
    rw [re o, rv o]
  · refine list_eq_of_getD _ _ (n2.2.2.2.2.trans m2.2.2.2.2.symm) ?_
    intro j _
    show (Layered.update a b c d lr Pow n).2.threshold j =
      (Layered.update a b c d lr Pow m).2.threshold j
    rw [n5 j, m5 j]
    by_cases h1 : b ≤ j ∧ j < c
    · rw [if_pos h1, if_pos h1, rt j]
      refine forRange_congr c d _ _ _ ?_
      intro o acc o1 o2
      show acc + lr * -1 * Layered.hiddenGradient lr n j o =
        acc + lr * -1 * Layered.hiddenGradient lr m j o
      rw [hg j o h1.1 h1.2 o1 o2]
    · rw [if_neg h1, if_neg h1]
      by_cases h2 : c ≤ j ∧ j < d
      · rw [if_pos h2, if_pos h2, rt j, og j]
      · rw [if_neg h2, if_neg h2, rt j]
  · intro x y x1 x2 y1 y2
    have e : (a ≤ x ∧ x < b) ∧ (b ≤ y ∧ y < c) := ⟨⟨x1, x2⟩, y1, y2⟩
    rw [n6 x y, m6 x y, if_pos e, if_pos e, hih x y x1 x2 y1 y2]
    refine forRange_congr c d _ _ _ ?_
    intro o acc o1 o2
    show acc + lr * n.value x * Layered.hiddenGradient lr n y o =
      acc + lr * m.value x * Layered.hiddenGradient lr m y o
    rw [rv x, hg y o y1 y2 o1 o2]
  · intro x y x1 x2 y1 y2
    have e1 : ¬ ((a ≤ x ∧ x < b) ∧ (b ≤ y ∧ y < c)) := by omega
    have e2 : (b ≤ x ∧ x < c) ∧ (c ≤ y ∧ y < d) := ⟨⟨x1, x2⟩, y1, y2⟩
    rw [n6 x y, m6 x y, if_neg e1, if_neg e1, if_pos e2, if_pos e2]
    exact uw x y x1 x2 y1 y2

/-! ## Grey levels -/

theorem truncate_of_nonneg [LinearOrderedField F] [FloorRing F] (x : F) (h : 0 ≤ x) :
    truncate x = ⌊x⌋ := if_pos h

theorem uint8_of_range (k : Int) (h0 : 0 ≤ k) (h1 : k ≤ 255) : uint8 k = k :=
  Int.emod_eq_of_lt h0 (by omega)

/-- The grey level of a value, with the arguments `displayNetwork` passes: the
integer part of `value * 255`. -/
theorem Drawnn.drawnn_mapFloatToInt_grey [LinearOrderedField F] [FloorRing F] (v : F) :
    Drawnn.mapFloatToInt v 0 1 0 255 = truncate (v * 255) := by
  unfold Drawnn.mapFloatToInt
  simp only [sub_zero, div_one, add_zero]

theorem Shaffer.shaffer_mapFloatToInt_grey [LinearOrderedField F] [FloorRing F] (v : F) :
    Shaffer.mapFloatToInt v 0 1 0 255 = truncate (v * 255) := by
  unfold Shaffer.mapFloatToInt
  simp only [sub_zero, div_one, add_zero]

/-- The integer part of `v * 255` for `v` in `[0, 1]`: between 0 and 255, and
monotone. -/
theorem truncate_grey [LinearOrderedField F] [FloorRing F] (v w : F) (hv0 : 0 ≤ v)
    (hvw : v ≤ w) (hw1 : w ≤ 1) :
    0 ≤ truncate (v * 255) ∧ truncate (v * 255) ≤ 255 ∧
      truncate (v * 255) ≤ truncate (w * 255) := by
  have h255 : (0 : F) ≤ 255 := by norm_num
  have hv : 0 ≤ v * 255 := mul_nonneg hv0 h255
  have hw : 0 ≤ w * 255 := mul_nonneg (le_trans hv0 hvw) h255
  have hvw' : v * 255 ≤ w * 255 := mul_le_mul_of_nonneg_right hvw h255
  have hw' : w * 255 ≤ ((255 : Int) : F) := by
    have : w * 255 ≤ 1 * 255 := mul_le_mul_of_nonneg_right hw1 h255
    rw [one_mul] at this
    exact_mod_cast this
  rw [truncate_of_nonneg _ hv, truncate_of_nonneg _ hw]
  refine ⟨Int.floor_nonneg.mpr hv, ?_, Int.floor_le_floor hvw'⟩
  have h1 : ⌊v * 255⌋ ≤ ⌊w * 255⌋ := Int.floor_le_floor hvw'
  have h2 : ⌊w * 255⌋ ≤ ⌊((255 : Int) : F)⌋ := Int.floor_le_floor hw'
  rw [Int.floor_intCast] at h2
  exact le_trans h1 h2

theorem truncate_grey_zero [LinearOrderedField F] [FloorRing F] :
    truncate ((0 : F) * 255) = 0 := by
  rw [zero_mul, truncate_of_nonneg _ (le_refl 0), Int.floor_zero]

theorem truncate_grey_one [LinearOrderedField F] [FloorRing F] :
    truncate ((1 : F) * 255) = 255 := by
  have h : (1 : F) * 255 = ((255 : Int) : F) := by
    rw [one_mul]
    norm_cast
  rw [h, truncate_of_nonneg _ (by exact_mod_cast (by decide : (0 : Int) ≤ 255)),
    Int.floor_intCast]

/-! ## float64 rounding: sums regrouped -/

namespace Float64

end Float64

/-! ## Twin hidden nodes in the XOR program -/

theorem Sample.drawnn_sized : Sample.drawnn.Sized Drawnn.ARRAYSIZE := Net.const_sized 220 _ _ _ _

theorem Sample.shaffer_sized : Sample.shaffer.Sized Shaffer.ARRAYSIZE := Net.const_sized 6 _ _ _ _

theorem Sample.drawnn_unit : Sample.drawnn.UnitActivations := by
  intro v hv
  rw [List.eq_of_mem_replicate hv]
  norm_num

theorem Sample.shaffer_unit : Sample.shaffer.UnitActivations := by
  intro v hv
  rw [List.eq_of_mem_replicate hv]
  norm_num

/-! ## Test data with weights changed outside the connected blocks -/

theorem Sample.drawnnOutside_sized : Sample.drawnnOutside.Sized Drawnn.ARRAYSIZE :=
  (Sample.drawnn_sized.setWeight 150 3 7).setWeight 0 150 9

theorem Sample.shafferOutside_sized : Sample.shafferOutside.Sized Shaffer.ARRAYSIZE :=
  (Sample.shaffer_sized.setWeight 5 1 7).setWeight 0 0 9

theorem Sample.drawnnOutside_weight (x y : Nat) :
    Sample.drawnnOutside.weight x y =
      if x = 0 ∧ y = 150 then 9 else if x = 150 ∧ y = 3 then 7 else Sample.drawnn.weight x y := by
  unfold Sample.drawnnOutside
  rw [Net.weight_setWeight _ 220 0 150 x y 9 (Sample.drawnn_sized.setWeight 150 3 7)
    (by decide) (by decide),
    Net.weight_setWeight _ 220 150 3 x y 7 Sample.drawnn_sized (by decide) (by decide)]

theorem Sample.shafferOutside_weight (x y : Nat) :
    Sample.shafferOutside.weight x y =
      if x = 0 ∧ y = 0 then 9 else if x = 5 ∧ y = 1 then 7 else Sample.shaffer.weight x y := by
  unfold Sample.shafferOutside
  rw [Net.weight_setWeight _ 6 0 0 x y 9 (Sample.shaffer_sized.setWeight 5 1 7)
    (by decide) (by decide),
    Net.weight_setWeight _ 6 5 1 x y 7 Sample.shaffer_sized (by decide) (by decide)]

theorem Sample.drawnnOutside_agrees :
    (∀ x ∈ Drawnn.inputNodes, ∀ y ∈ Drawnn.hiddenNodes,
      Sample.drawnn.weight x y = Sample.drawnnOutside.weight x y) ∧
    ∀ x ∈ Drawnn.hiddenNodes, ∀ y ∈ Drawnn.outputNodes,
      Sample.drawnn.weight x y = Sample.drawnnOutside.weight x y := by
  constructor
  · intro x hx y hy
    rw [Drawnn.drawnn_mem_inputNodes] at hx
    rw [Drawnn.drawnn_mem_hiddenNodes] at hy
    rw [Sample.drawnnOutside_weight, if_neg (by omega), if_neg (by omega)]
  · intro x hx y hy
    rw [Drawnn.drawnn_mem_hiddenNodes] at hx
    rw [Drawnn.drawnn_mem_outputNodes] at hy
    rw [Sample.drawnnOutside_weight, if_neg (by omega), if_neg (by omega)]

theorem Sample.shafferOutside_agrees :
    (∀ x ∈ Shaffer.inputNodes, ∀ y ∈ Shaffer.hiddenNodes,
      Sample.shaffer.weight x y = Sample.shafferOutside.weight x y) ∧
    ∀ x ∈ Shaffer.hiddenNodes, ∀ y ∈ Shaffer.outputNodes,
      Sample.shaffer.weight x y = Sample.shafferOutside.weight x y := by
  constructor
  · intro x hx y hy
    rw [Shaffer.shaffer_mem_inputNodes] at hx
    rw [Shaffer.shaffer_mem_hiddenNodes] at hy
    rw [Sample.shafferOutside_weight, if_neg (by omega), if_neg (by omega)]
  · intro x hx y hy
    rw [Shaffer.shaffer_mem_hiddenNodes] at hx
    rw [Shaffer.shaffer_mem_outputNodes] at hy
    rw [Sample.shafferOutside_weight, if_neg (by omega), if_neg (by omega)]

/-- The changed XOR test state really differs from the original outside the
blocks: the sentinel weight is 9 in one and 1/2 in the other. -/
theorem Sample.shafferOutside_differs :
    Sample.shafferOutside.weight 0 0 = 9 ∧ Sample.shaffer.weight 0 0 = 1 / 2 := by
  constructor
  · rw [Sample.shafferOutside_weight, if_pos ⟨rfl, rfl⟩]
  · simp only [Net.weight, Sample.shaffer, Net.const, getD_replicate_eq]
    simp

/-! ## The claims -/

/-- C1, as amended: from the all-zero state `initialize` produces, after
`connectNodes` with any random source, in `drawnn.go` every weight into an input
node and every weight out of an output node is exactly `0.0`, while every weight
from an input or hidden node to a hidden or output node (input→output and
hidden→hidden included) holds a draw; in `shaffer.go` every weight in row 0 or
column 0 is exactly `0.0`, while every weight between the nodes 1 to 5 (all layer
pairs included) holds twice a draw. -/
theorem connectNodes_zero_weights [Zero F] [Mul F] [OfNat F 2] (r : Rand F) (nd ns : Net F)
    (hd : nd.Allocated Drawnn.ARRAYSIZE) (hs : ns.Allocated Shaffer.ARRAYSIZE) :
    ((∀ x y, y ∈ Drawnn.inputNodes ∨ x ∈ Drawnn.outputNodes →
        (Drawnn.connectNodes r (Drawnn.initializeNet nd)).2.weight x y = 0) ∧
      ∀ x y, x ∈ Drawnn.inputNodes ∪ Drawnn.hiddenNodes →
        y ∈ Drawnn.hiddenNodes ∪ Drawnn.outputNodes →
        (Drawnn.connectNodes r (Drawnn.initializeNet nd)).2.weight x y =
          r.draws (r.pos + x * 120 + (y - 100))) ∧
    ((∀ x y, x = 0 ∨ y = 0 →
        (Shaffer.connectNodes r (Shaffer.initializeNet ns)).2.weight x y = 0) ∧
      ∀ x y, 1 ≤ x → x ≤ Shaffer.NUMNODES → 1 ≤ y → y ≤ Shaffer.NUMNODES →
        (Shaffer.connectNodes r (Shaffer.initializeNet ns)).2.weight x y =
          r.draws (r.pos + (x - 1) * 5 + (y - 1)) * 2) := by
  obtain ⟨-, -, -, dw, -, -, -⟩ := Drawnn.drawnn_wired r nd hd.1 hd.2.1 hd.2.2.1 hd.2.2.2
  obtain ⟨-, -, -, sw, -, -, -⟩ := Shaffer.shaffer_wired r ns hs.1 hs.2.1 hs.2.2.1 hs.2.2.2
  refine ⟨⟨?_, ?_⟩, ?_, ?_⟩
  · intro x y hxy
    rw [Drawnn.drawnn_mem_inputNodes, Drawnn.drawnn_mem_outputNodes] at hxy
    have : ¬ ((0 ≤ x ∧ x < 120) ∧ (100 ≤ y ∧ y < 220)) := by omega
    rw [dw x y, if_neg this]
  · intro x y hx hy
    rw [Finset.mem_union, Drawnn.drawnn_mem_inputNodes, Drawnn.drawnn_mem_hiddenNodes] at hx
    rw [Finset.mem_union, Drawnn.drawnn_mem_hiddenNodes, Drawnn.drawnn_mem_outputNodes] at hy
    have : (0 ≤ x ∧ x < 120) ∧ (100 ≤ y ∧ y < 220) := by omega
    rw [dw x y, if_pos this]
    rfl
  · intro x y hxy
    have : ¬ ((1 ≤ x ∧ x < 6) ∧ (1 ≤ y ∧ y < 6)) := by omega
    rw [sw x y, if_neg this]
  · intro x y hx1 hx2 hy1 hy2
    have h5 : Shaffer.NUMNODES = 5 := rfl
    rw [h5] at hx2 hy2
    have : (1 ≤ x ∧ x < 6) ∧ (1 ≤ y ∧ y < 6) := by omega
    rw [sw x y, if_pos this]

/-- C1 witness: the states `main` allocates, with the source that draws 1/2 for
ever. -/
theorem connectNodes_zero_weights_witness :
    (Net.alloc 220 : Net ℚ).Allocated Drawnn.ARRAYSIZE ∧
    (Net.alloc 6 : Net ℚ).Allocated Shaffer.ARRAYSIZE ∧
    (Drawnn.connectNodes (⟨fun _ => (1 / 2 : ℚ), 0⟩ : Rand ℚ)
      (Drawnn.initializeNet (Net.alloc 220))).2.weight 120 0 = 0 ∧
    (Shaffer.connectNodes (⟨fun _ => (1 / 2 : ℚ), 0⟩ : Rand ℚ)
      (Shaffer.initializeNet (Net.alloc 6))).2.weight 0 3 = 0 :=
  ⟨Net.alloc_allocated 220, Net.alloc_allocated 6,
    (connectNodes_zero_weights (⟨fun _ => (1 / 2 : ℚ), 0⟩ : Rand ℚ) (Net.alloc 220) (Net.alloc 6)
      (Net.alloc_allocated 220) (Net.alloc_allocated 6)).1.1 120 0
      (Or.inl ((Drawnn.drawnn_mem_inputNodes 0).mpr (by decide))),
    (connectNodes_zero_weights (⟨fun _ => (1 / 2 : ℚ), 0⟩ : Rand ℚ) (Net.alloc 220) (Net.alloc 6)
      (Net.alloc_allocated 220) (Net.alloc_allocated 6)).2.1 0 3 (Or.inl rfl)⟩

/-- C1 fails as stated: with the states `main` allocates and the source that
draws 1/2 for ever, `connectNodes` of `drawnn.go` leaves the input→output weight
`(0, 120)` and the hidden→hidden weight `(100, 101)` at 1/2, and `connectNodes` of
`shaffer.go` leaves the input→output weight `(1, 5)`, the output→input weight
`(5, 1)`, the hidden→hidden weight `(3, 4)` and the hidden→input weight `(3, 1)`
at 1: none of them is `0.0`. -/
theorem connectNodes_wires_unconnected_layers :
    (Drawnn.connectNodes (⟨fun _ => (1 / 2 : ℚ), 0⟩ : Rand ℚ)
      (Drawnn.initializeNet (Net.alloc 220))).2.weight 0 120 ≠ 0 ∧
    (Drawnn.connectNodes (⟨fun _ => (1 / 2 : ℚ), 0⟩ : Rand ℚ)
      (Drawnn.initializeNet (Net.alloc 220))).2.weight 100 101 ≠ 0 ∧
    (Shaffer.connectNodes (⟨fun _ => (1 / 2 : ℚ), 0⟩ : Rand ℚ)
      (Shaffer.initializeNet (Net.alloc 6))).2.weight 1 5 ≠ 0 ∧
    (Shaffer.connectNodes (⟨fun _ => (1 / 2 : ℚ), 0⟩ : Rand ℚ)
      (Shaffer.initializeNet (Net.alloc 6))).2.weight 5 1 ≠ 0 ∧
    (Shaffer.connectNodes (⟨fun _ => (1 / 2 : ℚ), 0⟩ : Rand ℚ)
      (Shaffer.initializeNet (Net.alloc 6))).2.weight 3 4 ≠ 0 ∧
    (Shaffer.connectNodes (⟨fun _ => (1 / 2 : ℚ), 0⟩ : Rand ℚ)
      (Shaffer.initializeNet (Net.alloc 6))).2.weight 3 1 ≠ 0 := by
  obtain ⟨-, -, -, dw, -, -, -⟩ := Drawnn.drawnn_wired (⟨fun _ => (1 / 2 : ℚ), 0⟩ : Rand ℚ)
    (Net.alloc 220) (Net.alloc_allocated 220).1 (Net.alloc_allocated 220).2.1
    (Net.alloc_allocated 220).2.2.1 (Net.alloc_allocated 220).2.2.2
  obtain ⟨-, -, -, sw, -, -, -⟩ := Shaffer.shaffer_wired (⟨fun _ => (1 / 2 : ℚ), 0⟩ : Rand ℚ)
    (Net.alloc 6) (Net.alloc_allocated 6).1 (Net.alloc_allocated 6).2.1
    (Net.alloc_allocated 6).2.2.1 (Net.alloc_allocated 6).2.2.2
  refine ⟨?_, ?_, ?_, ?_, ?_, ?_⟩
  · rw [dw 0 120, if_pos (by decide)]
    norm_num
  · rw [dw 100 101, if_pos (by decide)]
    norm_num
  · rw [sw 1 5, if_pos (by decide)]
    norm_num
  · rw [sw 5 1, if_pos (by decide)]
    norm_num
  · rw [sw 3 4, if_pos (by decide)]
    norm_num
  · rw [sw 3 1, if_pos (by decide)]
    norm_num

/-- C2: `activateNetwork` is the reference forward pass, in both programs. For
every hidden node `h` the new activation is the sigmoid of the sum over all input
nodes of `weight(i,h) * activation(i)`, less `threshold(h)`; for every output node
`o` it is the sigmoid of the sum over all hidden nodes of
`weight(h,o) * newActivation(h)`, less `threshold(o)`, where `newActivation(h)` is
the hidden activation the same call has just stored. The sigmoid is
`1 / (1 + Pow E (-z))`; arithmetic is exact (any field). -/
theorem activateNetwork_eq_reference [Field F] (Pow : F → F → F) (E : F) (nd ns : Net F)
    (hd : nd.Sized Drawnn.ARRAYSIZE) (hs : ns.Sized Shaffer.ARRAYSIZE) :
    ((∀ h ∈ Drawnn.hiddenNodes, (Drawnn.activateNetwork Pow E nd).value h =
        Reference.hidden Drawnn.inputNodes Pow E nd h) ∧
      (∀ o ∈ Drawnn.outputNodes, (Drawnn.activateNetwork Pow E nd).value o =
        Reference.output Drawnn.inputNodes Drawnn.hiddenNodes Pow E nd o) ∧
      ∀ o ∈ Drawnn.outputNodes, (Drawnn.activateNetwork Pow E nd).value o =
        Reference.sigmoid Pow E
          (∑ h ∈ Drawnn.hiddenNodes,
            nd.weight h o * (Drawnn.activateNetwork Pow E nd).value h - nd.threshold o)) ∧
    ((∀ h ∈ Shaffer.hiddenNodes, (Shaffer.activateNetwork Pow E ns).value h =
        Reference.hidden Shaffer.inputNodes Pow E ns h) ∧
      (∀ o ∈ Shaffer.outputNodes, (Shaffer.activateNetwork Pow E ns).value o =
        Reference.output Shaffer.inputNodes Shaffer.hiddenNodes Pow E ns o) ∧
      ∀ o ∈ Shaffer.outputNodes, (Shaffer.activateNetwork Pow E ns).value o =
        Reference.sigmoid Pow E
          (∑ h ∈ Shaffer.hiddenNodes,
            ns.weight h o * (Shaffer.activateNetwork Pow E ns).value h - ns.threshold o)) := by
  obtain ⟨d1, d2, d3⟩ := Layered.activate_reference Pow E 220 0 100 120 220 nd hd
    (by decide) (by decide) (by decide)
  obtain ⟨s1, s2, s3⟩ := Layered.activate_reference Pow E 6 1 3 5 6 ns hs
    (by decide) (by decide) (by decide)
  refine ⟨⟨?_, ?_, ?_⟩, ?_, ?_, ?_⟩
  · intro h hh
    rw [Drawnn.drawnn_mem_hiddenNodes] at hh
    exact d1 h hh.1 hh.2
  · intro o ho
    rw [Drawnn.drawnn_mem_outputNodes] at ho
    exact d2 o ho.1 ho.2
  · intro o ho
    rw [Drawnn.drawnn_mem_outputNodes] at ho
    exact d3 o ho.1 ho.2
  · intro h hh
    rw [Shaffer.shaffer_mem_hiddenNodes] at hh
    exact s1 h hh.1 hh.2
  · intro o ho
    rw [Shaffer.shaffer_mem_outputNodes] at ho
    exact s2 o (by omega) (by omega)
  · intro o ho
    rw [Shaffer.shaffer_mem_outputNodes] at ho
    exact s3 o (by omega) (by omega)

/-- C2 witness: the test states, hidden node 100 of the auto-associator and the
output node 5 of the XOR program. -/
theorem activateNetwork_eq_reference_witness :
    Sample.drawnn.Sized Drawnn.ARRAYSIZE ∧ Sample.shaffer.Sized Shaffer.ARRAYSIZE ∧
    (Drawnn.activateNetwork Sample.pow 2 Sample.drawnn).value 100 =
      Reference.hidden Drawnn.inputNodes Sample.pow 2 Sample.drawnn 100 ∧
    (Shaffer.activateNetwork Sample.pow 2 Sample.shaffer).value 5 =
      Reference.output Shaffer.inputNodes Shaffer.hiddenNodes Sample.pow 2 Sample.shaffer 5 :=
  ⟨Sample.drawnn_sized, Sample.shaffer_sized,
    (activateNetwork_eq_reference Sample.pow 2 Sample.drawnn Sample.shaffer Sample.drawnn_sized
      Sample.shaffer_sized).1.1 100 ((Drawnn.drawnn_mem_hiddenNodes 100).mpr (by decide)),
    (activateNetwork_eq_reference Sample.pow 2 Sample.drawnn Sample.shaffer Sample.drawnn_sized
      Sample.shaffer_sized).2.2.1 5 ((Shaffer.shaffer_mem_outputNodes 5).mpr rfl)⟩

/-- C3: after `updateWeights`, for every hidden node `h` and output node `o`,
`weight(h,o)` is its value before the call plus
`learningRate * activation(h) * outputGradient(o)`, with
`outputGradient(o) = activation(o) * (1 - activation(o)) * (expected(o) - activation(o))`.
The equation holds for any arithmetic (no law of `+` or `*` is used), so the new
weight is the old one with that single delta added once. -/
theorem updateWeights_hidden_output_weight [Zero F] [One F] [Add F] [Sub F] [Mul F] [Neg F]
    [OfScientific F] [OfNat F 2] (Pow : F → F → F) (nd ns : Net F)
    (hd : nd.Sized Drawnn.ARRAYSIZE) (hs : ns.Sized Shaffer.ARRAYSIZE) :
    (∀ h ∈ Drawnn.hiddenNodes, ∀ o ∈ Drawnn.outputNodes,
      (Drawnn.updateWeights Pow nd).2.weight h o =
        nd.weight h o + Drawnn.LEARNINGRATE * nd.value h *
          (nd.value o * (1 - nd.value o) * (nd.expected o - nd.value o))) ∧
    (∀ h ∈ Shaffer.hiddenNodes, ∀ o ∈ Shaffer.outputNodes,
      (Shaffer.updateWeights Pow ns).2.weight h o =
        ns.weight h o + Shaffer.LEARNINGRATE * ns.value h *
          (ns.value o * (1 - ns.value o) * (ns.expected o - ns.value o))) := by
  obtain ⟨-, -, -, -, -, d⟩ := Layered.update_spec Drawnn.LEARNINGRATE Pow 220 0 100 120 220 nd hd
    (by decide) (by decide) (by decide) (by decide)
  obtain ⟨-, -, -, -, -, s⟩ := Layered.update_spec Shaffer.LEARNINGRATE Pow 6 1 3 5 6 ns hs
    (by decide) (by decide) (by decide) (by decide)
  constructor
  · intro h hh o ho
    rw [Drawnn.drawnn_mem_hiddenNodes] at hh
    rw [Drawnn.drawnn_mem_outputNodes] at ho
    have h1 : ¬ ((0 ≤ h ∧ h < 100) ∧ (100 ≤ o ∧ o < 120)) := by omega
    have h2 : (100 ≤ h ∧ h < 120) ∧ (120 ≤ o ∧ o < 220) := ⟨hh, ho⟩
    rw [Drawnn.drawnn_updateWeights_eq, d h o, if_neg h1, if_pos h2]
    rfl
  · intro h hh o ho
    rw [Shaffer.shaffer_mem_hiddenNodes] at hh
    rw [Shaffer.shaffer_mem_outputNodes] at ho
    have h1 : ¬ ((1 ≤ h ∧ h < 3) ∧ (3 ≤ o ∧ o < 5)) := by omega
    have h2 : (3 ≤ h ∧ h < 5) ∧ (5 ≤ o ∧ o < 6) := by omega
    rw [Shaffer.shaffer_updateWeights_eq, s h o, if_neg h1, if_pos h2]
    rfl

/-- C3 witness: the test states, the weights `(100, 120)` and `(3, 5)`. -/
theorem updateWeights_hidden_output_weight_witness :
    Sample.drawnn.Sized Drawnn.ARRAYSIZE ∧ Sample.shaffer.Sized Shaffer.ARRAYSIZE ∧
    (Drawnn.updateWeights Sample.pow Sample.drawnn).2.weight 100 120 =
      Sample.drawnn.weight 100 120 + Drawnn.LEARNINGRATE * Sample.drawnn.value 100 *
        (Sample.drawnn.value 120 * (1 - Sample.drawnn.value 120) *
          (Sample.drawnn.expected 120 - Sample.drawnn.value 120)) ∧
    (Shaffer.updateWeights Sample.pow Sample.shaffer).2.weight 3 5 =
      Sample.shaffer.weight 3 5 + Shaffer.LEARNINGRATE * Sample.shaffer.value 3 *
        (Sample.shaffer.value 5 * (1 - Sample.shaffer.value 5) *
          (Sample.shaffer.expected 5 - Sample.shaffer.value 5)) :=
  ⟨Sample.drawnn_sized, Sample.shaffer_sized,
    (updateWeights_hidden_output_weight Sample.pow Sample.drawnn Sample.shaffer
      Sample.drawnn_sized Sample.shaffer_sized).1 100 ((Drawnn.drawnn_mem_hiddenNodes 100).mpr (by decide))
      120 ((Drawnn.drawnn_mem_outputNodes 120).mpr (by decide)),
    (updateWeights_hidden_output_weight Sample.pow Sample.drawnn Sample.shaffer
      Sample.drawnn_sized Sample.shaffer_sized).2 3 ((Shaffer.shaffer_mem_hiddenNodes 3).mpr (by decide))
      5 ((Shaffer.shaffer_mem_outputNodes 5).mpr rfl)⟩

/-- C6: the value `updateWeights` returns is the sum over all output nodes of
`(expected(o) - activation(o))^2`, it is `≥ 0`, and the activations are those on
entry: `updateWeights` leaves the activation vector as it was. Arithmetic is exact
(any ordered field) and `math.Pow(x, 2)` is taken to be the square `x^2`. -/
theorem updateWeights_sse [LinearOrderedField F] (Pow : F → F → F)
    (hPow : ∀ x : F, Pow x 2 = x ^ 2) (nd ns : Net F)
    (hd : nd.Sized Drawnn.ARRAYSIZE) (hs : ns.Sized Shaffer.ARRAYSIZE) :
    ((Drawnn.updateWeights Pow nd).1 =
        ∑ o ∈ Drawnn.outputNodes, (nd.expected o - nd.value o) ^ 2 ∧
      0 ≤ (Drawnn.updateWeights Pow nd).1 ∧
      (Drawnn.updateWeights Pow nd).2.values = nd.values) ∧
    ((Shaffer.updateWeights Pow ns).1 =
        ∑ o ∈ Shaffer.outputNodes, (ns.expected o - ns.value o) ^ 2 ∧
      0 ≤ (Shaffer.updateWeights Pow ns).1 ∧
      (Shaffer.updateWeights Pow ns).2.values = ns.values) := by
  have hdO : Drawnn.outputNodes = Finset.Ico 120 220 := rfl
  have hsO : Shaffer.outputNodes = Finset.Ico 5 6 := rfl
  constructor
  · rw [Drawnn.drawnn_updateWeights_eq, hdO]
    exact Layered.update_sse Drawnn.LEARNINGRATE Pow hPow 220 0 100 120 220 nd hd
      (by decide) (by decide) (by decide) (by decide)
  · rw [Shaffer.shaffer_updateWeights_eq, hsO]
    exact Layered.update_sse Shaffer.LEARNINGRATE Pow hPow 6 1 3 5 6 ns hs
      (by decide) (by decide) (by decide) (by decide)

/-- C6 witness: real numbers, `math.Pow` the real power, every activation 1 and
every expected value 0. -/
theorem updateWeights_sse_witness :
    (∀ x : ℝ, (fun a b : ℝ => a ^ b) x 2 = x ^ 2) ∧
    (Net.const 220 (1 : ℝ) 1 0 0).Sized Drawnn.ARRAYSIZE ∧
    (Net.const 6 (1 : ℝ) 1 0 0).Sized Shaffer.ARRAYSIZE ∧
    0 ≤ (Shaffer.updateWeights (fun a b : ℝ => a ^ b) (Net.const 6 (1 : ℝ) 1 0 0)).1 :=
  ⟨fun x => Real.rpow_two x, Net.const_sized 220 _ _ _ _, Net.const_sized 6 _ _ _ _,
    (updateWeights_sse (fun a b : ℝ => a ^ b) (fun x => Real.rpow_two x)
      (Net.const 220 (1 : ℝ) 1 0 0) (Net.const 6 (1 : ℝ) 1 0 0) (Net.const_sized 220 _ _ _ _)
      (Net.const_sized 6 _ _ _ _)).2.2.1⟩

/-- C7, as amended: in exact arithmetic (any ordered field, the power `Pow E x`
being positive as `e^x` is), for every weight matrix, threshold vector and input
activations, after `activateNetwork` every hidden-node and every output-node
activation lies strictly between 0 and 1. -/
theorem activateNetwork_open_interval [LinearOrderedField F] (Pow : F → F → F) (E : F)
    (hPow : ∀ x : F, 0 < Pow E x) (nd ns : Net F)
    (hd : nd.Sized Drawnn.ARRAYSIZE) (hs : ns.Sized Shaffer.ARRAYSIZE) :
    (∀ j ∈ Drawnn.hiddenNodes ∪ Drawnn.outputNodes,
      0 < (Drawnn.activateNetwork Pow E nd).value j ∧
        (Drawnn.activateNetwork Pow E nd).value j < 1) ∧
    ∀ j ∈ Shaffer.hiddenNodes ∪ Shaffer.outputNodes,
      0 < (Shaffer.activateNetwork Pow E ns).value j ∧
        (Shaffer.activateNetwork Pow E ns).value j < 1 := by
  constructor
  · intro j hj
    rw [Finset.mem_union, Drawnn.drawnn_mem_hiddenNodes, Drawnn.drawnn_mem_outputNodes] at hj
    rw [Drawnn.drawnn_activateNetwork_eq]
    exact Layered.activate_mem_Ioo Pow E hPow 220 0 100 120 220 nd hd (by decide) (by decide)
      (by decide) j (by omega) (by omega)
  · intro j hj
    rw [Finset.mem_union, Shaffer.shaffer_mem_hiddenNodes, Shaffer.shaffer_mem_outputNodes] at hj
    rw [Shaffer.shaffer_activateNetwork_eq]
    exact Layered.activate_mem_Ioo Pow E hPow 6 1 3 5 6 ns hs (by decide) (by decide)
      (by decide) j (by omega) (by omega)

/-- C7 witness: real numbers, `math.Pow` the real power and `math.E` the number
`e`; hidden node 3 of the XOR program. -/
theorem activateNetwork_open_interval_witness :
    (∀ x : ℝ, 0 < (fun a b : ℝ => a ^ b) (Real.exp 1) x) ∧
    (Net.const 220 (1 : ℝ) 1 0 0).Sized Drawnn.ARRAYSIZE ∧
    (Net.const 6 (1 : ℝ) 1 0 0).Sized Shaffer.ARRAYSIZE ∧
    (0 < (Shaffer.activateNetwork (fun a b : ℝ => a ^ b) (Real.exp 1)
        (Net.const 6 (1 : ℝ) 1 0 0)).value 3 ∧
      (Shaffer.activateNetwork (fun a b : ℝ => a ^ b) (Real.exp 1)
        (Net.const 6 (1 : ℝ) 1 0 0)).value 3 < 1) :=
  ⟨fun x => Real.rpow_pos_of_pos (Real.exp_pos 1) x, Net.const_sized 220 _ _ _ _,
    Net.const_sized 6 _ _ _ _,
    (activateNetwork_open_interval (fun a b : ℝ => a ^ b) (Real.exp 1)
      (fun x => Real.rpow_pos_of_pos (Real.exp_pos 1) x) (Net.const 220 (1 : ℝ) 1 0 0)
      (Net.const 6 (1 : ℝ) 1 0 0) (Net.const_sized 220 _ _ _ _)
      (Net.const_sized 6 _ _ _ _)).2 3
      (Finset.mem_union_left _ ((Shaffer.shaffer_mem_hiddenNodes 3).mpr (by decide)))⟩

/-- C7 fails as stated on float64: in the XOR program, with `weights[1][3] = 40`,
`values[1] = 1` and every other entry `0`, the weighted input of hidden node 3 is
40, `1 + Pow(E, -40)` rounds to 1, and `activateNetwork` stores exactly `1.0` in
`values[3]`. -/
theorem activateNetwork_saturates_float64 :
    Float64.saturating.Sized Shaffer.ARRAYSIZE ∧ 3 ∈ Shaffer.hiddenNodes ∧
    (∀ x : Float64, 0 < (Float64.tinyPow Float64.E x).val) ∧
    (Shaffer.activateNetwork Float64.tinyPow Float64.E Float64.saturating).value 3 = 1 := by
  refine ⟨Float64.saturating_sized, (Shaffer.shaffer_mem_hiddenNodes 3).mpr (by decide), ?_, ?_⟩
  · intro x
    show (0 : ℚ) < 1 / 2 ^ 58
    norm_num
  · refine Float64.saturates Float64.tinyPow Float64.E ?_ ?_
    · show (0 : ℚ) ≤ 1 / 2 ^ 58
      norm_num
    · show (1 : ℚ) / 2 ^ 58 ≤ 1 / 2 ^ 54
      norm_num

/-- C8: `activateNetwork` is idempotent. Applying it twice in a row, with the
same weights, thresholds and input activations, leaves exactly the activation
vector (indeed the whole state) that applying it once leaves. No law of arithmetic
is used: the statement holds for any carrier and any `Pow`. -/
theorem activateNetwork_idempotent [Zero F] [One F] [Add F] [Sub F] [Mul F] [Div F] [Neg F]
    (Pow : F → F → F) (E : F) (nd ns : Net F)
    (hd : nd.Sized Drawnn.ARRAYSIZE) (hs : ns.Sized Shaffer.ARRAYSIZE) :
    ((Drawnn.activateNetwork Pow E (Drawnn.activateNetwork Pow E nd)).values =
        (Drawnn.activateNetwork Pow E nd).values ∧
      Drawnn.activateNetwork Pow E (Drawnn.activateNetwork Pow E nd) =
        Drawnn.activateNetwork Pow E nd) ∧
    ((Shaffer.activateNetwork Pow E (Shaffer.activateNetwork Pow E ns)).values =
        (Shaffer.activateNetwork Pow E ns).values ∧
      Shaffer.activateNetwork Pow E (Shaffer.activateNetwork Pow E ns) =
        Shaffer.activateNetwork Pow E ns) := by
  have h1 := Layered.activate_idempotent Pow E 220 0 100 120 220 nd hd
    (by decide) (by decide) (by decide)
  have h2 := Layered.activate_idempotent Pow E 6 1 3 5 6 ns hs
    (by decide) (by decide) (by decide)
  simp only [Drawnn.drawnn_activateNetwork_eq, Shaffer.shaffer_activateNetwork_eq]
  exact ⟨⟨congrArg Net.values h1, h1⟩, congrArg Net.values h2, h2⟩

/-- C8 witness: the test states. -/
theorem activateNetwork_idempotent_witness :
    Sample.drawnn.Sized Drawnn.ARRAYSIZE ∧ Sample.shaffer.Sized Shaffer.ARRAYSIZE ∧
    (Drawnn.activateNetwork Sample.pow 2 (Drawnn.activateNetwork Sample.pow 2 Sample.drawnn)).values =
      (Drawnn.activateNetwork Sample.pow 2 Sample.drawnn).values ∧
    (Shaffer.activateNetwork Sample.pow 2
        (Shaffer.activateNetwork Sample.pow 2 Sample.shaffer)).values =
      (Shaffer.activateNetwork Sample.pow 2 Sample.shaffer).values :=
  ⟨Sample.drawnn_sized, Sample.shaffer_sized,
    (activateNetwork_idempotent Sample.pow 2 Sample.drawnn Sample.shaffer Sample.drawnn_sized
      Sample.shaffer_sized).1.1,
    (activateNetwork_idempotent Sample.pow 2 Sample.drawnn Sample.shaffer Sample.drawnn_sized
      Sample.shaffer_sized).2.1⟩

/-- C9: in the XOR program, for every iteration count `iter ≥ 0`,
`trainingExample` sets `(values[1], values[2], expectedValues[5])` to `(1,1,0)`
when `iter mod 4 = 0`, `(0,1,1)` when it is 1, `(1,0,1)` when it is 2 and `(0,0,0)`
when it is 3; the result has period 4 in `iter`; any four consecutive iterations
produce all four boolean input pairs; and the expected output is always the XOR
of the two inputs. -/
theorem trainingExample_xor_table [Zero F] [One F] (iter : Int) (h0 : 0 ≤ iter) (n : Net F)
    (hn : n.Sized Shaffer.ARRAYSIZE) :
    ((iter % 4 = 0 → (Shaffer.trainingExample iter n).value 1 = 1 ∧
        (Shaffer.trainingExample iter n).value 2 = 1 ∧
        (Shaffer.trainingExample iter n).expected 5 = 0) ∧
      (iter % 4 = 1 → (Shaffer.trainingExample iter n).value 1 = 0 ∧
        (Shaffer.trainingExample iter n).value 2 = 1 ∧
        (Shaffer.trainingExample iter n).expected 5 = 1) ∧
      (iter % 4 = 2 → (Shaffer.trainingExample iter n).value 1 = 1 ∧
        (Shaffer.trainingExample iter n).value 2 = 0 ∧
        (Shaffer.trainingExample iter n).expected 5 = 1) ∧
      (iter % 4 = 3 → (Shaffer.trainingExample iter n).value 1 = 0 ∧
        (Shaffer.trainingExample iter n).value 2 = 0 ∧
        (Shaffer.trainingExample iter n).expected 5 = 0)) ∧
    Shaffer.trainingExample (iter + 4) n = Shaffer.trainingExample iter n ∧
    (∀ p q : Bool, ∃ k : Int, iter ≤ k ∧ k < iter + 4 ∧
      (Shaffer.trainingExample k n).value 1 = boolValue p ∧
      (Shaffer.trainingExample k n).value 2 = boolValue q) ∧
    ∃ p q : Bool, (Shaffer.trainingExample iter n).value 1 = boolValue p ∧
      (Shaffer.trainingExample iter n).value 2 = boolValue q ∧
      (Shaffer.trainingExample iter n).expected 5 = boolValue (xor p q) := by
  have table : ∀ k : Int, 0 ≤ k →
      (k % 4 = 0 → (Shaffer.trainingExample k n).value 1 = 1 ∧
        (Shaffer.trainingExample k n).value 2 = 1 ∧
        (Shaffer.trainingExample k n).expected 5 = 0) ∧
      (k % 4 = 1 → (Shaffer.trainingExample k n).value 1 = 0 ∧
        (Shaffer.trainingExample k n).value 2 = 1 ∧
        (Shaffer.trainingExample k n).expected 5 = 1) ∧
      (k % 4 = 2 → (Shaffer.trainingExample k n).value 1 = 1 ∧
        (Shaffer.trainingExample k n).value 2 = 0 ∧
        (Shaffer.trainingExample k n).expected 5 = 1) ∧
      (k % 4 = 3 → (Shaffer.trainingExample k n).value 1 = 0 ∧
        (Shaffer.trainingExample k n).value 2 = 0 ∧
        (Shaffer.trainingExample k n).expected 5 = 0) := by
    intro k hk
    rcases Shaffer.trainingExample_cases k hk n with ⟨h, e⟩ | ⟨h, e⟩ | ⟨h, e⟩ | ⟨h, e⟩
    all_goals
      rw [e]
      refine ⟨fun h' => ?_, fun h' => ?_, fun h' => ?_, fun h' => ?_⟩
      all_goals first
        | exact Shaffer.read_example n hn _ _ _
        | omega
  refine ⟨table iter h0, ?_, ?_, ?_⟩
  · have hq : Int.tmod (iter + 4) 4 = Int.tmod iter 4 := by
      rw [Int.tmod_eq_emod (by omega) (by decide), Int.tmod_eq_emod h0 (by decide)]
      exact Int.add_emod_self
    unfold Shaffer.trainingExample
    rw [hq]
  · intro p q
    -- the row with inputs `(p, q)` has remainder `r`; `k` is the iteration of the
    -- window `[iter, iter + 4)` with that remainder
    have pick : ∀ r : Int, 0 ≤ r → r < 4 → ∃ k : Int, iter ≤ k ∧ k < iter + 4 ∧ k % 4 = r := by
      intro r hr0 hr4
      refine ⟨iter + (r - iter % 4) % 4, ?_, ?_, ?_⟩ <;> omega
    cases p <;> cases q
    · obtain ⟨k, hk1, hk2, hk3⟩ := pick 3 (by decide) (by decide)
      exact ⟨k, hk1, hk2, ((table k (by omega)).2.2.2 hk3).1, ((table k (by omega)).2.2.2 hk3).2.1⟩
    · obtain ⟨k, hk1, hk2, hk3⟩ := pick 1 (by decide) (by decide)
      exact ⟨k, hk1, hk2, ((table k (by omega)).2.1 hk3).1, ((table k (by omega)).2.1 hk3).2.1⟩
    · obtain ⟨k, hk1, hk2, hk3⟩ := pick 2 (by decide) (by decide)
      exact ⟨k, hk1, hk2, ((table k (by omega)).2.2.1 hk3).1,
        ((table k (by omega)).2.2.1 hk3).2.1⟩
    · obtain ⟨k, hk1, hk2, hk3⟩ := pick 0 (by decide) (by decide)
      exact ⟨k, hk1, hk2, ((table k (by omega)).1 hk3).1, ((table k (by omega)).1 hk3).2.1⟩
  · have hr : iter % 4 = 0 ∨ iter % 4 = 1 ∨ iter % 4 = 2 ∨ iter % 4 = 3 := by omega
    rcases hr with h | h | h | h
    · exact ⟨true, true, (table iter h0).1 h⟩
    · exact ⟨false, true, (table iter h0).2.1 h⟩
    · exact ⟨true, false, (table iter h0).2.2.1 h⟩
    · exact ⟨false, false, (table iter h0).2.2.2 h⟩

/-- C9 witness: iteration 5 on the test state; `5 mod 4 = 1`, the row `(0,1) → 1`. -/
theorem trainingExample_xor_table_witness :
    (0 : Int) ≤ 5 ∧ Sample.shaffer.Sized Shaffer.ARRAYSIZE ∧
    ((Shaffer.trainingExample 5 Sample.shaffer).value 1 = 0 ∧
      (Shaffer.trainingExample 5 Sample.shaffer).value 2 = 1 ∧
      (Shaffer.trainingExample 5 Sample.shaffer).expected 5 = 1) :=
  ⟨by decide, Sample.shaffer_sized,
    (trainingExample_xor_table 5 (by decide) Sample.shaffer Sample.shaffer_sized).1.2.1
      (by decide)⟩

/-- C10: in the auto-associator, for every sequence of random draws and every
input index `i < NUMINPUTNODES`, after `trainingExample` the input activation
`values[i]` is `0.0` if the `i`-th draw of the call is `≤ 0.5` and `1.0` otherwise,
and the expected value of the output node at the same offset,
`expectedValues[i + NUMINPUTNODES + NUMHIDDENNODES]`, equals `values[i]`; the call
consumes exactly one draw per input node, in index order (node `i` takes draw
number `i`, and the source has advanced by `NUMINPUTNODES` draws). -/
theorem trainingExample_random_pattern [Zero F] [One F] [OfScientific F] [LE F]
    [DecidableRel (α := F) (· ≤ ·)] (r : Rand F) (n : Net F) (hn : n.Sized Drawnn.ARRAYSIZE)
    (i : Nat) (hi : i < Drawnn.NUMINPUTNODES) :
    (Drawnn.trainingExample r n).2.value i =
      (if r.draws (r.pos + i) ≤ 0.5 then 0 else 1) ∧
    (Drawnn.trainingExample r n).2.expected (i + Drawnn.NUMINPUTNODES + Drawnn.NUMHIDDENNODES) =
      (Drawnn.trainingExample r n).2.value i ∧
    (Drawnn.trainingExample r n).1.pos = r.pos + Drawnn.NUMINPUTNODES ∧
    (Drawnn.trainingExample r n).1.draws = r.draws := by
  have hi' : i < 100 := hi
  obtain ⟨h1, h2, -, -, -, h6, h7⟩ := Layered.exampleLoop 220 120 100 r n hn (by decide)
  have e120 : i + Drawnn.NUMINPUTNODES + Drawnn.NUMHIDDENNODES = i + 120 := rfl
  have h8 : 120 ≤ i + 120 ∧ i + 120 < 120 + 100 := by omega
  have h9 : i + 120 - 120 = i := by omega
  rw [Drawnn.trainingExample_eq, e120, h6 i, h7 (i + 120), if_pos hi', if_pos h8, h9]
  exact ⟨rfl, rfl, h2, h1⟩

/-- C10 witness: the alternating source on the test state, input node 1; its
draw is 3/4, above 1/2. -/
theorem trainingExample_random_pattern_witness :
    Sample.drawnn.Sized Drawnn.ARRAYSIZE ∧ 1 < Drawnn.NUMINPUTNODES ∧
    ((Drawnn.trainingExample Sample.source Sample.drawnn).2.value 1 =
        (if Sample.source.draws (Sample.source.pos + 1) ≤ 0.5 then 0 else 1) ∧
      (Drawnn.trainingExample Sample.source Sample.drawnn).2.expected
          (1 + Drawnn.NUMINPUTNODES + Drawnn.NUMHIDDENNODES) =
        (Drawnn.trainingExample Sample.source Sample.drawnn).2.value 1 ∧
      (Drawnn.trainingExample Sample.source Sample.drawnn).1.pos =
        Sample.source.pos + Drawnn.NUMINPUTNODES ∧
      (Drawnn.trainingExample Sample.source Sample.drawnn).1.draws = Sample.source.draws) :=
  ⟨Sample.drawnn_sized, by decide,
    trainingExample_random_pattern Sample.source Sample.drawnn Sample.drawnn_sized 1
      (by decide)⟩

/-- C11: in exact arithmetic (any ordered field, the power `Pow E x` never
negative), "every entry of the activation vector lies in `[0, 1]`" is an
invariant of the training cycle in both programs: it holds after `initialize`
(slices of the lengths `main` allocates, any content), and from any state of the
right sizes in which it holds, it holds again after `trainingExample` (any random
source, any iteration count), after `activateNetwork` and after `updateWeights`.
The activation vector of `shaffer.go` has `ARRAYSIZE` entries, so the sentinel
index 0 is one of the entries the predicate speaks about. -/
theorem activations_unit_invariant [LinearOrderedField F] (Pow : F → F → F) (E : F)
    (hPow : ∀ x : F, 0 ≤ Pow E x) (q : Rand F) (iter : Int) (ad as nd ns : Net F)
    (had : ad.Allocated Drawnn.ARRAYSIZE) (has : as.Allocated Shaffer.ARRAYSIZE)
    (hd : nd.Sized Drawnn.ARRAYSIZE) (hs : ns.Sized Shaffer.ARRAYSIZE)
    (hud : nd.UnitActivations) (hus : ns.UnitActivations) :
    ((Drawnn.initializeNet ad).UnitActivations ∧
      (Drawnn.trainingExample q nd).2.UnitActivations ∧
      (Drawnn.activateNetwork Pow E nd).UnitActivations ∧
      (Drawnn.updateWeights Pow nd).2.UnitActivations) ∧
    ((Shaffer.initializeNet as).UnitActivations ∧
      (Shaffer.trainingExample iter ns).UnitActivations ∧
      (Shaffer.activateNetwork Pow E ns).UnitActivations ∧
      (Shaffer.updateWeights Pow ns).2.UnitActivations ∧
      (0 ≤ (Shaffer.initializeNet as).value 0 ∧ (Shaffer.initializeNet as).value 0 ≤ 1) ∧
      (0 ≤ (Shaffer.trainingExample iter ns).value 0 ∧
        (Shaffer.trainingExample iter ns).value 0 ≤ 1) ∧
      (0 ≤ (Shaffer.activateNetwork Pow E ns).value 0 ∧
        (Shaffer.activateNetwork Pow E ns).value 0 ≤ 1) ∧
      (0 ≤ (Shaffer.updateWeights Pow ns).2.value 0 ∧
        (Shaffer.updateWeights Pow ns).2.value 0 ≤ 1)) := by
  obtain ⟨-, -, du3, -⟩ := Layered.update_spec Drawnn.LEARNINGRATE Pow 220 0 100 120
    220 nd hd (by decide) (by decide) (by decide) (by decide)
  obtain ⟨-, -, su3, -⟩ := Layered.update_spec Shaffer.LEARNINGRATE Pow 6 1 3 5
    6 ns hs (by decide) (by decide) (by decide) (by decide)
  have d1 : (Drawnn.initializeNet ad).UnitActivations := by
    rw [Drawnn.drawnn_initializeNet_eq]
    exact Layered.init_unit 220 ad had
  have d2 : (Drawnn.trainingExample q nd).2.UnitActivations := by
    rw [Drawnn.trainingExample_eq]
    exact Layered.exampleLoop_unit 220 120 100 q nd hd (by decide) hud
  have d3 : (Drawnn.activateNetwork Pow E nd).UnitActivations := by
    rw [Drawnn.drawnn_activateNetwork_eq]
    exact Layered.activate_unit Pow E hPow 220 0 100 120 220 nd hd (by decide) (by decide)
      (by decide) hud
  have d4 : (Drawnn.updateWeights Pow nd).2.UnitActivations := by
    rw [Drawnn.drawnn_updateWeights_eq]
    unfold Net.UnitActivations
    rw [du3]
    exact hud
  have s1 : (Shaffer.initializeNet as).UnitActivations := by
    rw [Shaffer.shaffer_initializeNet_eq]
    exact Layered.init_unit 6 as has
  have s2 : (Shaffer.trainingExample iter ns).UnitActivations :=
    Shaffer.shaffer_trainingExample_unit iter ns hs hus
  have s3 : (Shaffer.activateNetwork Pow E ns).UnitActivations := by
    rw [Shaffer.shaffer_activateNetwork_eq]
    exact Layered.activate_unit Pow E hPow 6 1 3 5 6 ns hs (by decide) (by decide)
      (by decide) hus
  have s4 : (Shaffer.updateWeights Pow ns).2.UnitActivations := by
    rw [Shaffer.shaffer_updateWeights_eq]
    unfold Net.UnitActivations
    rw [su3]
    exact hus
  exact ⟨⟨d1, d2, d3, d4⟩, s1, s2, s3, s4, s1.read 0, s2.read 0, s3.read 0, s4.read 0⟩

/-- C11 witness: rational numbers, the test power (values 4 and 1/2), the
alternating source, iteration 1; before `initialize` and before each later call
the test states, whose activations are all 1. -/
theorem activations_unit_invariant_witness :
    (∀ x : ℚ, 0 ≤ Sample.pow 2 x) ∧
    Sample.drawnn.Allocated Drawnn.ARRAYSIZE ∧ Sample.shaffer.Allocated Shaffer.ARRAYSIZE ∧
    Sample.drawnn.Sized Drawnn.ARRAYSIZE ∧ Sample.shaffer.Sized Shaffer.ARRAYSIZE ∧
    Sample.drawnn.UnitActivations ∧ Sample.shaffer.UnitActivations ∧
    (Drawnn.activateNetwork Sample.pow 2 Sample.drawnn).UnitActivations ∧
    (Shaffer.trainingExample 1 Sample.shaffer).UnitActivations :=
  have hp : ∀ x : ℚ, 0 ≤ Sample.pow 2 x := by
    intro x
    unfold Sample.pow
    split_ifs <;> norm_num
  have had : Sample.drawnn.Allocated Drawnn.ARRAYSIZE :=
    ⟨Sample.drawnn_sized.1, Sample.drawnn_sized.2.2⟩
  have has : Sample.shaffer.Allocated Shaffer.ARRAYSIZE :=
    ⟨Sample.shaffer_sized.1, Sample.shaffer_sized.2.2⟩
  have h := activations_unit_invariant Sample.pow 2 hp Sample.source 1 Sample.drawnn
    Sample.shaffer Sample.drawnn Sample.shaffer had has Sample.drawnn_sized
    Sample.shaffer_sized Sample.drawnn_unit Sample.shaffer_unit
  ⟨hp, had, has, Sample.drawnn_sized, Sample.shaffer_sized, Sample.drawnn_unit,
    Sample.shaffer_unit, h.1.2.2.1, h.2.2.1⟩

/-- C12: frame of the two passes, in both programs and for every state of the
sizes `main` allocates. For every index pair `(x, y)` that is neither
(input, hidden) nor (hidden, output), `weights[x][y]` after `activateNetwork` and
after `updateWeights` equals `weights[x][y]` before. In addition
`activateNetwork` leaves the whole weight matrix, the thresholds, the expected
values and every input activation unchanged, and `updateWeights` leaves the
activation vector and the expected-value vector unchanged. No law of arithmetic
is used. -/
theorem passes_frame [Zero F] [One F] [Add F] [Sub F] [Mul F] [Div F] [Neg F]
    [OfScientific F] [OfNat F 2] (Pow : F → F → F) (E : F) (nd ns : Net F)
    (hd : nd.Sized Drawnn.ARRAYSIZE) (hs : ns.Sized Shaffer.ARRAYSIZE) :
    ((∀ x y, ¬ (x ∈ Drawnn.inputNodes ∧ y ∈ Drawnn.hiddenNodes) →
        ¬ (x ∈ Drawnn.hiddenNodes ∧ y ∈ Drawnn.outputNodes) →
        (Drawnn.activateNetwork Pow E nd).weight x y = nd.weight x y ∧
          (Drawnn.updateWeights Pow nd).2.weight x y = nd.weight x y) ∧
      ((Drawnn.activateNetwork Pow E nd).weights = nd.weights ∧
        (Drawnn.activateNetwork Pow E nd).thresholds = nd.thresholds ∧
        (Drawnn.activateNetwork Pow E nd).expectedValues = nd.expectedValues ∧
        ∀ i ∈ Drawnn.inputNodes, (Drawnn.activateNetwork Pow E nd).value i = nd.value i) ∧
      (Drawnn.updateWeights Pow nd).2.values = nd.values ∧
      (Drawnn.updateWeights Pow nd).2.expectedValues = nd.expectedValues) ∧
    ((∀ x y, ¬ (x ∈ Shaffer.inputNodes ∧ y ∈ Shaffer.hiddenNodes) →
        ¬ (x ∈ Shaffer.hiddenNodes ∧ y ∈ Shaffer.outputNodes) →
        (Shaffer.activateNetwork Pow E ns).weight x y = ns.weight x y ∧
          (Shaffer.updateWeights Pow ns).2.weight x y = ns.weight x y) ∧
      ((Shaffer.activateNetwork Pow E ns).weights = ns.weights ∧
        (Shaffer.activateNetwork Pow E ns).thresholds = ns.thresholds ∧
        (Shaffer.activateNetwork Pow E ns).expectedValues = ns.expectedValues ∧
        ∀ i ∈ Shaffer.inputNodes, (Shaffer.activateNetwork Pow E ns).value i = ns.value i) ∧
      (Shaffer.updateWeights Pow ns).2.values = ns.values ∧
      (Shaffer.updateWeights Pow ns).2.expectedValues = ns.expectedValues) := by
  obtain ⟨-, da2, da3, da4, da5⟩ := Layered.activate_spec Pow E 220 0 100 120 220 nd hd
    (by decide) (by decide) (by decide)
  obtain ⟨-, sa2, sa3, sa4, sa5⟩ := Layered.activate_spec Pow E 6 1 3 5 6 ns hs
    (by decide) (by decide) (by decide)
  obtain ⟨-, -, du3, du4, -, du6⟩ := Layered.update_spec Drawnn.LEARNINGRATE Pow 220 0 100 120
    220 nd hd (by decide) (by decide) (by decide) (by decide)
  obtain ⟨-, -, su3, su4, -, su6⟩ := Layered.update_spec Shaffer.LEARNINGRATE Pow 6 1 3 5
    6 ns hs (by decide) (by decide) (by decide) (by decide)
  rw [Drawnn.drawnn_activateNetwork_eq, Drawnn.drawnn_updateWeights_eq,
    Shaffer.shaffer_activateNetwork_eq, Shaffer.shaffer_updateWeights_eq]
  refine ⟨⟨?_, ⟨da2, da4, da3, ?_⟩, du3, du4⟩, ⟨?_, ⟨sa2, sa4, sa3, ?_⟩, su3, su4⟩⟩
  · intro x y h1 h2
    rw [Drawnn.drawnn_mem_inputNodes, Drawnn.drawnn_mem_hiddenNodes] at h1
    rw [Drawnn.drawnn_mem_hiddenNodes, Drawnn.drawnn_mem_outputNodes] at h2
    have e1 : ¬ ((0 ≤ x ∧ x < 100) ∧ (100 ≤ y ∧ y < 120)) := by omega
    have e2 : ¬ ((100 ≤ x ∧ x < 120) ∧ (120 ≤ y ∧ y < 220)) := by omega
    refine ⟨?_, ?_⟩
    · simp only [Net.weight, da2]
    · rw [du6 x y, if_neg e1, if_neg e2]
  · intro i hi
    rw [Drawnn.drawnn_mem_inputNodes] at hi
    have e1 : ¬ (120 ≤ i ∧ i < 220) := by omega
    have e2 : ¬ (100 ≤ i ∧ i < 120) := by omega
    rw [da5 i, if_neg e1, if_neg e2]
  · intro x y h1 h2
    rw [Shaffer.shaffer_mem_inputNodes, Shaffer.shaffer_mem_hiddenNodes] at h1
    rw [Shaffer.shaffer_mem_hiddenNodes, Shaffer.shaffer_mem_outputNodes] at h2
    have e1 : ¬ ((1 ≤ x ∧ x < 3) ∧ (3 ≤ y ∧ y < 5)) := by omega
    have e2 : ¬ ((3 ≤ x ∧ x < 5) ∧ (5 ≤ y ∧ y < 6)) := by omega
    refine ⟨?_, ?_⟩
    · simp only [Net.weight, sa2]
    · rw [su6 x y, if_neg e1, if_neg e2]
  · intro i hi
    rw [Shaffer.shaffer_mem_inputNodes] at hi
    have e1 : ¬ (5 ≤ i ∧ i < 6) := by omega
    have e2 : ¬ (3 ≤ i ∧ i < 5) := by omega
    rw [sa5 i, if_neg e1, if_neg e2]

/-- C12 witness: the test states; the input→output weight `weights[1][5]` of the
XOR program after `updateWeights`. -/
theorem passes_frame_witness :
    Sample.drawnn.Sized Drawnn.ARRAYSIZE ∧ Sample.shaffer.Sized Shaffer.ARRAYSIZE ∧
    (Shaffer.updateWeights Sample.pow Sample.shaffer).2.weight 1 5 =
      Sample.shaffer.weight 1 5 ∧
    (Drawnn.activateNetwork Sample.pow 2 Sample.drawnn).thresholds =
      Sample.drawnn.thresholds :=
  ⟨Sample.drawnn_sized, Sample.shaffer_sized,
    ((passes_frame Sample.pow 2 Sample.drawnn Sample.shaffer Sample.drawnn_sized
      Sample.shaffer_sized).2.1 1 5
        (fun h => absurd ((Shaffer.shaffer_mem_hiddenNodes 5).mp h.2) (by decide))
        (fun h => absurd ((Shaffer.shaffer_mem_hiddenNodes 1).mp h.1) (by decide))).2,
    (passes_frame Sample.pow 2 Sample.drawnn Sample.shaffer Sample.drawnn_sized
      Sample.shaffer_sized).1.2.1.2.1⟩

/-- C13: input-node thresholds are always zero, in both programs. After
`initialize` followed by `connectNodes` (any random source, slices of the lengths
`main` allocates) the threshold of every input node, and of the sentinel index 0
in `shaffer.go`, is exactly `0.0`; and from any state of the right sizes in
which these thresholds are `0.0`, they are `0.0` again after `trainingExample`,
after `activateNetwork` and after `updateWeights`, which also keep the sizes, so
the property holds after every later call. No law of arithmetic is used. -/
theorem input_thresholds_zero [Zero F] [One F] [Add F] [Sub F] [Mul F] [Div F] [Neg F]
    [OfScientific F] [OfNat F 2] [LE F] [DecidableRel (α := F) (· ≤ ·)]
    (Pow : F → F → F) (E : F) (r q : Rand F) (iter : Int) (ad as nd ns : Net F)
    (had : ad.Allocated Drawnn.ARRAYSIZE) (has : as.Allocated Shaffer.ARRAYSIZE)
    (hd : nd.Sized Drawnn.ARRAYSIZE) (hs : ns.Sized Shaffer.ARRAYSIZE)
    (hzd : ∀ i ∈ Drawnn.inputNodes, nd.threshold i = 0)
    (hzs : ∀ i, i = 0 ∨ i ∈ Shaffer.inputNodes → ns.threshold i = 0) :
    ((∀ i ∈ Drawnn.inputNodes,
        (Drawnn.connectNodes r (Drawnn.initializeNet ad)).2.threshold i = 0) ∧
      ((Drawnn.trainingExample q nd).2.Sized Drawnn.ARRAYSIZE ∧
        ∀ i ∈ Drawnn.inputNodes, (Drawnn.trainingExample q nd).2.threshold i = 0) ∧
      ((Drawnn.activateNetwork Pow E nd).Sized Drawnn.ARRAYSIZE ∧
        ∀ i ∈ Drawnn.inputNodes, (Drawnn.activateNetwork Pow E nd).threshold i = 0) ∧
      ((Drawnn.updateWeights Pow nd).2.Sized Drawnn.ARRAYSIZE ∧
        ∀ i ∈ Drawnn.inputNodes, (Drawnn.updateWeights Pow nd).2.threshold i = 0)) ∧
    ((∀ i, i = 0 ∨ i ∈ Shaffer.inputNodes →
        (Shaffer.connectNodes r (Shaffer.initializeNet as)).2.threshold i = 0) ∧
      ((Shaffer.trainingExample iter ns).Sized Shaffer.ARRAYSIZE ∧
        ∀ i, i = 0 ∨ i ∈ Shaffer.inputNodes →
          (Shaffer.trainingExample iter ns).threshold i = 0) ∧
      ((Shaffer.activateNetwork Pow E ns).Sized Shaffer.ARRAYSIZE ∧
        ∀ i, i = 0 ∨ i ∈ Shaffer.inputNodes →
          (Shaffer.activateNetwork Pow E ns).threshold i = 0) ∧
      ((Shaffer.updateWeights Pow ns).2.Sized Shaffer.ARRAYSIZE ∧
        ∀ i, i = 0 ∨ i ∈ Shaffer.inputNodes →
          (Shaffer.updateWeights Pow ns).2.threshold i = 0)) := by
  obtain ⟨-, -, -, -, dw, -, -⟩ := Drawnn.drawnn_wired r ad had.1 had.2.1 had.2.2.1 had.2.2.2
  obtain ⟨-, -, -, -, sw, -, -⟩ := Shaffer.shaffer_wired r as has.1 has.2.1 has.2.2.1 has.2.2.2
  obtain ⟨-, -, de3, -, de5, -, -⟩ := Layered.exampleLoop 220 120 100 q nd hd (by decide)
  obtain ⟨se1, -, se3, -⟩ := Shaffer.shaffer_trainingExample_frame iter ns hs
  obtain ⟨da1, -, -, da4, -⟩ := Layered.activate_spec Pow E 220 0 100 120 220 nd hd
    (by decide) (by decide) (by decide)
  obtain ⟨sa1, -, -, sa4, -⟩ := Layered.activate_spec Pow E 6 1 3 5 6 ns hs
    (by decide) (by decide) (by decide)
  obtain ⟨-, du2, -, -, du5, -⟩ := Layered.update_spec Drawnn.LEARNINGRATE Pow 220 0 100 120
    220 nd hd (by decide) (by decide) (by decide) (by decide)
  obtain ⟨-, su2, -, -, su5, -⟩ := Layered.update_spec Shaffer.LEARNINGRATE Pow 6 1 3 5
    6 ns hs (by decide) (by decide) (by decide) (by decide)
  have hin : ∀ i, i = 0 ∨ i ∈ Shaffer.inputNodes → i < 3 := by
    intro i hi
    rw [Shaffer.shaffer_mem_inputNodes] at hi
    omega
  rw [Drawnn.trainingExample_eq, Drawnn.drawnn_activateNetwork_eq,
    Drawnn.drawnn_updateWeights_eq, Shaffer.shaffer_activateNetwork_eq,
    Shaffer.shaffer_updateWeights_eq]
  refine ⟨⟨?_, ⟨de3, ?_⟩, ⟨da1, ?_⟩, ⟨du2, ?_⟩⟩, ⟨?_, ⟨se1, ?_⟩, ⟨sa1, ?_⟩, ⟨su2, ?_⟩⟩⟩
  · intro i hi
    rw [Drawnn.drawnn_mem_inputNodes] at hi
    have e : ¬ (100 ≤ i ∧ i < 220) := by omega
    rw [dw i, if_neg e]
  · intro i hi
    simp only [Net.threshold, de5]
    exact hzd i hi
  · intro i hi
    simp only [Net.threshold, da4]
    exact hzd i hi
  · intro i hi
    have hz := hzd i hi
    rw [Drawnn.drawnn_mem_inputNodes] at hi
    have e1 : ¬ (100 ≤ i ∧ i < 120) := by omega
    have e2 : ¬ (120 ≤ i ∧ i < 220) := by omega
    rw [du5 i, if_neg e1, if_neg e2]
    exact hz
  · intro i hi
    have h3 := hin i hi
    have e : ¬ (3 ≤ i ∧ i < 6) := by omega
    rw [sw i, if_neg e]
  · intro i hi
    simp only [Net.threshold, se3]
    exact hzs i hi
  · intro i hi
    simp only [Net.threshold, sa4]
    exact hzs i hi
  · intro i hi
    have h3 := hin i hi
    have e1 : ¬ (3 ≤ i ∧ i < 5) := by omega
    have e2 : ¬ (5 ≤ i ∧ i < 6) := by omega
    rw [su5 i, if_neg e1, if_neg e2]
    exact hzs i hi

/-- C13 witness: the states `main` allocates, wired with the alternating source,
and as the state before each later call the XOR state `initialize` leaves;
threshold of input node 1 after `updateWeights`, and of the sentinel after wiring. -/
theorem input_thresholds_zero_witness :
    (Net.alloc 220 : Net ℚ).Allocated Drawnn.ARRAYSIZE ∧
    (Net.alloc 6 : Net ℚ).Allocated Shaffer.ARRAYSIZE ∧
    (Net.const 220 (1 / 2 : ℚ) 1 0 0).Sized Drawnn.ARRAYSIZE ∧
    (Net.const 6 (1 / 2 : ℚ) 1 0 0).Sized Shaffer.ARRAYSIZE ∧
    (∀ i ∈ Drawnn.inputNodes, (Net.const 220 (1 / 2 : ℚ) 1 0 0).threshold i = 0) ∧
    (∀ i, i = 0 ∨ i ∈ Shaffer.inputNodes → (Net.const 6 (1 / 2 : ℚ) 1 0 0).threshold i = 0) ∧
    (Shaffer.updateWeights Sample.pow (Net.const 6 (1 / 2 : ℚ) 1 0 0)).2.threshold 1 = 0 ∧
    (Shaffer.connectNodes Sample.source (Shaffer.initializeNet (Net.alloc 6))).2.threshold 0
      = 0 :=
  have zd : ∀ i ∈ Drawnn.inputNodes, (Net.const 220 (1 / 2 : ℚ) 1 0 0).threshold i = 0 := by
    intro i _
    simp only [Net.threshold, Net.const, getD_replicate_eq, ite_self]
  have zs : ∀ i, i = 0 ∨ i ∈ Shaffer.inputNodes →
      (Net.const 6 (1 / 2 : ℚ) 1 0 0).threshold i = 0 := by
    intro i _
    simp only [Net.threshold, Net.const, getD_replicate_eq, ite_self]
  have h := input_thresholds_zero Sample.pow 2 Sample.source Sample.source 0 (Net.alloc 220)
    (Net.alloc 6) (Net.const 220 (1 / 2 : ℚ) 1 0 0) (Net.const 6 (1 / 2 : ℚ) 1 0 0)
    (Net.alloc_allocated 220) (Net.alloc_allocated 6) (Net.const_sized 220 _ _ _ _)
    (Net.const_sized 6 _ _ _ _) zd zs
  ⟨Net.alloc_allocated 220, Net.alloc_allocated 6, Net.const_sized 220 _ _ _ _,
    Net.const_sized 6 _ _ _ _, zd, zs,
    h.2.2.2.2.2 1 (Or.inr ((Shaffer.shaffer_mem_inputNodes 1).mpr (by decide))),
    h.2.1 0 (Or.inl rfl)⟩

/-- C14: for every random source whose draws lie in `[0, 1)` and every state of
the sizes `main` allocates, after `connectNodes` every input→hidden and
hidden→output weight lies in `[0, 1)` in `drawnn.go` and in `[0, 2)` in
`shaffer.go`, and every hidden-node and output-node threshold lies in `[0, 1)`
in both. (Ordered field: the bound on `draw * 2` needs the order laws.) -/
theorem connectNodes_ranges [LinearOrderedField F] (r : Rand F)
    (hr : ∀ k, 0 ≤ r.draws k ∧ r.draws k < 1) (nd ns : Net F)
    (hd : nd.Sized Drawnn.ARRAYSIZE) (hs : ns.Sized Shaffer.ARRAYSIZE) :
    ((∀ x y, (x ∈ Drawnn.inputNodes ∧ y ∈ Drawnn.hiddenNodes) ∨
          (x ∈ Drawnn.hiddenNodes ∧ y ∈ Drawnn.outputNodes) →
        0 ≤ (Drawnn.connectNodes r nd).2.weight x y ∧
          (Drawnn.connectNodes r nd).2.weight x y < 1) ∧
      ∀ j ∈ Drawnn.hiddenNodes ∪ Drawnn.outputNodes,
        0 ≤ (Drawnn.connectNodes r nd).2.threshold j ∧
          (Drawnn.connectNodes r nd).2.threshold j < 1) ∧
    ((∀ x y, (x ∈ Shaffer.inputNodes ∧ y ∈ Shaffer.hiddenNodes) ∨
          (x ∈ Shaffer.hiddenNodes ∧ y ∈ Shaffer.outputNodes) →
        0 ≤ (Shaffer.connectNodes r ns).2.weight x y ∧
          (Shaffer.connectNodes r ns).2.weight x y < 2) ∧
      ∀ j ∈ Shaffer.hiddenNodes ∪ Shaffer.outputNodes,
        0 ≤ (Shaffer.connectNodes r ns).2.threshold j ∧
          (Shaffer.connectNodes r ns).2.threshold j < 1) := by
  obtain ⟨-, -, -, dw, dt⟩ := Drawnn.drawnn_connected r nd hd
  obtain ⟨-, -, -, sw, st⟩ := Shaffer.shaffer_connected r ns hs
  refine ⟨⟨?_, ?_⟩, ?_, ?_⟩
  · intro x y hxy
    simp only [Drawnn.drawnn_mem_inputNodes, Drawnn.drawnn_mem_hiddenNodes,
      Drawnn.drawnn_mem_outputNodes] at hxy
    have e : (0 ≤ x ∧ x < 120) ∧ (100 ≤ y ∧ y < 220) := by omega
    rw [dw x y, if_pos e]
    exact hr _
  · intro j hj
    rw [Finset.mem_union, Drawnn.drawnn_mem_hiddenNodes, Drawnn.drawnn_mem_outputNodes] at hj
    have e : 100 ≤ j ∧ j < 220 := by omega
    rw [dt j, if_pos e]
    exact hr _
  · intro x y hxy
    simp only [Shaffer.shaffer_mem_inputNodes, Shaffer.shaffer_mem_hiddenNodes,
      Shaffer.shaffer_mem_outputNodes] at hxy
    have e : (1 ≤ x ∧ x < 6) ∧ (1 ≤ y ∧ y < 6) := by omega
    rw [sw x y, if_pos e]
    obtain ⟨h0, h1⟩ := hr (r.pos + (x - 1) * (6 - 1) + (y - 1))
    constructor
    · linarith
    · linarith
  · intro j hj
    rw [Finset.mem_union, Shaffer.shaffer_mem_hiddenNodes, Shaffer.shaffer_mem_outputNodes] at hj
    have e : 3 ≤ j ∧ j < 6 := by omega
    rw [st j, if_pos e]
    exact hr _

/-- C14 witness: the alternating source (draws 1/4 and 3/4) on the test states;
the input→hidden weight `weights[1][3]` of the XOR program and the threshold of
output node 219 of the auto-associator. -/
theorem connectNodes_ranges_witness :
    (∀ k, 0 ≤ Sample.source.draws k ∧ Sample.source.draws k < 1) ∧
    Sample.drawnn.Sized Drawnn.ARRAYSIZE ∧ Sample.shaffer.Sized Shaffer.ARRAYSIZE ∧
    (0 ≤ (Shaffer.connectNodes Sample.source Sample.shaffer).2.weight 1 3 ∧
      (Shaffer.connectNodes Sample.source Sample.shaffer).2.weight 1 3 < 2) ∧
    (0 ≤ (Drawnn.connectNodes Sample.source Sample.drawnn).2.threshold 219 ∧
      (Drawnn.connectNodes Sample.source Sample.drawnn).2.threshold 219 < 1) :=
  have hr : ∀ k, 0 ≤ Sample.source.draws k ∧ Sample.source.draws k < 1 := by
    intro k
    show (0 : ℚ) ≤ (if k % 2 = 0 then 1 / 4 else 3 / 4) ∧
      (if k % 2 = 0 then (1 / 4 : ℚ) else 3 / 4) < 1
    split_ifs <;> norm_num
  have h := connectNodes_ranges Sample.source hr Sample.drawnn Sample.shaffer
    Sample.drawnn_sized Sample.shaffer_sized
  ⟨hr, Sample.drawnn_sized, Sample.shaffer_sized,
    h.2.1 1 3 (Or.inl ⟨(Shaffer.shaffer_mem_inputNodes 1).mpr (by decide),
      (Shaffer.shaffer_mem_hiddenNodes 3).mpr (by decide)⟩),
    h.1.2 219 (Finset.mem_union_right _ ((Drawnn.drawnn_mem_outputNodes 219).mpr (by decide)))⟩

/-- C15: after `initialize`, whatever the four slices held before the call (they
only need the lengths `main` allocates), for every index of the allocated range
(`0..NUMNODES-1` in `drawnn.go`, `0..NUMNODES` with the sentinel in `shaffer.go`)
the activation, the expected value and the threshold are `0.0`; the weight matrix
has `ARRAYSIZE` rows, every row has length `ARRAYSIZE` and every weight entry is
`0.0`; the three vectors keep their length `ARRAYSIZE`. -/
theorem initialize_zeroes_everything [Zero F] (nd ns : Net F)
    (hd : nd.Allocated Drawnn.ARRAYSIZE) (hs : ns.Allocated Shaffer.ARRAYSIZE) :
    ((∀ i, i ≤ Drawnn.NUMNODES - 1 →
        (Drawnn.initializeNet nd).value i = 0 ∧ (Drawnn.initializeNet nd).expected i = 0 ∧
          (Drawnn.initializeNet nd).threshold i = 0) ∧
      (Drawnn.initializeNet nd).weights.length = Drawnn.ARRAYSIZE ∧
      (∀ row ∈ (Drawnn.initializeNet nd).weights,
        row.length = Drawnn.ARRAYSIZE ∧ ∀ w ∈ row, w = 0) ∧
      (∀ x y, (Drawnn.initializeNet nd).weight x y = 0) ∧
      (Drawnn.initializeNet nd).Sized Drawnn.ARRAYSIZE) ∧
    ((∀ i, i ≤ Shaffer.NUMNODES →
        (Shaffer.initializeNet ns).value i = 0 ∧ (Shaffer.initializeNet ns).expected i = 0 ∧
          (Shaffer.initializeNet ns).threshold i = 0) ∧
      (Shaffer.initializeNet ns).weights.length = Shaffer.ARRAYSIZE ∧
      (∀ row ∈ (Shaffer.initializeNet ns).weights,
        row.length = Shaffer.ARRAYSIZE ∧ ∀ w ∈ row, w = 0) ∧
      (∀ x y, (Shaffer.initializeNet ns).weight x y = 0) ∧
      (Shaffer.initializeNet ns).Sized Shaffer.ARRAYSIZE) := by
  obtain ⟨d1, d2, d3, d4, d5⟩ := Layered.init_spec 220 nd hd.1 hd.2.1 hd.2.2.1 hd.2.2.2
  obtain ⟨s1, s2, s3, s4, s5⟩ := Layered.init_spec 6 ns hs.1 hs.2.1 hs.2.2.1 hs.2.2.2
  have dr := Layered.init_rows 220 nd hd.1 hd.2.1 hd.2.2.1 hd.2.2.2
  have sr := Layered.init_rows 6 ns hs.1 hs.2.1 hs.2.2.1 hs.2.2.2
  rw [Drawnn.drawnn_initializeNet_eq, Shaffer.shaffer_initializeNet_eq]
  exact ⟨⟨fun i _ => ⟨d3 i, d4 i, d5 i⟩, d1.1, dr, d2, d1⟩,
    ⟨fun i _ => ⟨s3 i, s4 i, s5 i⟩, s1.1, sr, s2, s1⟩⟩

/-- C15 witness: slices of the right lengths holding 1/2, 1, 0 and 1/4 before the
call. -/
theorem initialize_zeroes_everything_witness :
    Sample.drawnn.Allocated Drawnn.ARRAYSIZE ∧ Sample.shaffer.Allocated Shaffer.ARRAYSIZE ∧
    (Shaffer.initializeNet Sample.shaffer).value 0 = 0 ∧
    (Shaffer.initializeNet Sample.shaffer).threshold 5 = 0 ∧
    (Drawnn.initializeNet Sample.drawnn).expected 219 = 0 ∧
    (Drawnn.initializeNet Sample.drawnn).weight 219 0 = 0 :=
  have hd : Sample.drawnn.Allocated Drawnn.ARRAYSIZE :=
    ⟨Sample.drawnn_sized.1, Sample.drawnn_sized.2.2⟩
  have hs : Sample.shaffer.Allocated Shaffer.ARRAYSIZE :=
    ⟨Sample.shaffer_sized.1, Sample.shaffer_sized.2.2⟩
  have h := initialize_zeroes_everything Sample.drawnn Sample.shaffer hd hs
  ⟨hd, hs, (h.2.1 0 (by decide)).1, (h.2.1 5 (by decide)).2.2, (h.1.1 219 (by decide)).2.1,
    h.1.2.2.2.1 219 0⟩

/-- C17: weight entries outside the input→hidden and hidden→output blocks are
never read, in both programs. For any two states of the sizes `main` allocates
whose weight matrices agree on every (input, hidden) and every (hidden, output)
entry (and differ arbitrarily elsewhere) and whose thresholds, activations and
expected values are the same, `activateNetwork` produces identical activation
vectors, and `updateWeights` returns the identical sum of squared errors and
produces identical threshold vectors and identical input→hidden and
hidden→output weights. No law of arithmetic is used. -/
theorem unconnected_weights_never_read [Zero F] [One F] [Add F] [Sub F] [Mul F] [Div F]
    [Neg F] [OfScientific F] [OfNat F 2] (Pow : F → F → F) (E : F) (nd md ns ms : Net F)
    (hnd : nd.Sized Drawnn.ARRAYSIZE) (hmd : md.Sized Drawnn.ARRAYSIZE)
    (hns : ns.Sized Shaffer.ARRAYSIZE) (hms : ms.Sized Shaffer.ARRAYSIZE)
    (dv : nd.values = md.values) (de : nd.expectedValues = md.expectedValues)
    (dt : nd.thresholds = md.thresholds)
    (dih : ∀ x ∈ Drawnn.inputNodes, ∀ y ∈ Drawnn.hiddenNodes, nd.weight x y = md.weight x y)
    (dho : ∀ x ∈ Drawnn.hiddenNodes, ∀ y ∈ Drawnn.outputNodes, nd.weight x y = md.weight x y)
    (sv : ns.values = ms.values) (se : ns.expectedValues = ms.expectedValues)
    (st : ns.thresholds = ms.thresholds)
    (sih : ∀ x ∈ Shaffer.inputNodes, ∀ y ∈ Shaffer.hiddenNodes, ns.weight x y = ms.weight x y)
    (sho : ∀ x ∈ Shaffer.hiddenNodes, ∀ y ∈ Shaffer.outputNodes,
      ns.weight x y = ms.weight x y) :
    ((Drawnn.activateNetwork Pow E nd).values = (Drawnn.activateNetwork Pow E md).values ∧
      (Drawnn.updateWeights Pow nd).1 = (Drawnn.updateWeights Pow md).1 ∧
      (Drawnn.updateWeights Pow nd).2.thresholds = (Drawnn.updateWeights Pow md).2.thresholds ∧
      (∀ x ∈ Drawnn.inputNodes, ∀ y ∈ Drawnn.hiddenNodes,
        (Drawnn.updateWeights Pow nd).2.weight x y =
          (Drawnn.updateWeights Pow md).2.weight x y) ∧
      ∀ x ∈ Drawnn.hiddenNodes, ∀ y ∈ Drawnn.outputNodes,
        (Drawnn.updateWeights Pow nd).2.weight x y =
          (Drawnn.updateWeights Pow md).2.weight x y) ∧
    ((Shaffer.activateNetwork Pow E ns).values = (Shaffer.activateNetwork Pow E ms).values ∧
      (Shaffer.updateWeights Pow ns).1 = (Shaffer.updateWeights Pow ms).1 ∧
      (Shaffer.updateWeights Pow ns).2.thresholds =
        (Shaffer.updateWeights Pow ms).2.thresholds ∧
      (∀ x ∈ Shaffer.inputNodes, ∀ y ∈ Shaffer.hiddenNodes,
        (Shaffer.updateWeights Pow ns).2.weight x y =
          (Shaffer.updateWeights Pow ms).2.weight x y) ∧
      ∀ x ∈ Shaffer.hiddenNodes, ∀ y ∈ Shaffer.outputNodes,
        (Shaffer.updateWeights Pow ns).2.weight x y =
          (Shaffer.updateWeights Pow ms).2.weight x y) := by
  have dih' : ∀ x y, 0 ≤ x → x < 100 → 100 ≤ y → y < 120 → nd.weight x y = md.weight x y :=
    fun x y _ x2 y1 y2 => dih x ((Drawnn.drawnn_mem_inputNodes x).mpr x2) y
      ((Drawnn.drawnn_mem_hiddenNodes y).mpr ⟨y1, y2⟩)
  have dho' : ∀ x y, 100 ≤ x → x < 120 → 120 ≤ y → y < 220 → nd.weight x y = md.weight x y :=
    fun x y x1 x2 y1 y2 => dho x ((Drawnn.drawnn_mem_hiddenNodes x).mpr ⟨x1, x2⟩) y
      ((Drawnn.drawnn_mem_outputNodes y).mpr ⟨y1, y2⟩)
  have sih' : ∀ x y, 1 ≤ x → x < 3 → 3 ≤ y → y < 5 → ns.weight x y = ms.weight x y :=
    fun x y x1 x2 y1 y2 => sih x ((Shaffer.shaffer_mem_inputNodes x).mpr ⟨x1, x2⟩) y
      ((Shaffer.shaffer_mem_hiddenNodes y).mpr ⟨y1, y2⟩)
  have sho' : ∀ x y, 3 ≤ x → x < 5 → 5 ≤ y → y < 6 → ns.weight x y = ms.weight x y :=
    fun x y x1 x2 y1 y2 => sho x ((Shaffer.shaffer_mem_hiddenNodes x).mpr ⟨x1, x2⟩) y
      ((Shaffer.shaffer_mem_outputNodes y).mpr (by omega))
  have da := Layered.activate_congr Pow E 220 0 100 120 220 nd md hnd hmd (by decide)
    (by decide) (by decide) dv de dt dih' dho'
  have sa := Layered.activate_congr Pow E 6 1 3 5 6 ns ms hns hms (by decide)
    (by decide) (by decide) sv se st sih' sho'
  obtain ⟨du1, du2, du3, du4⟩ := Layered.update_congr Drawnn.LEARNINGRATE Pow 220 0 100 120
    220 nd md hnd hmd (by decide) (by decide) (by decide) (by decide) dv de dt dih' dho'
  obtain ⟨su1, su2, su3, su4⟩ := Layered.update_congr Shaffer.LEARNINGRATE Pow 6 1 3 5
    6 ns ms hns hms (by decide) (by decide) (by decide) (by decide) sv se st sih' sho'
  rw [Drawnn.drawnn_activateNetwork_eq, Drawnn.drawnn_activateNetwork_eq,
    Drawnn.drawnn_updateWeights_eq, Drawnn.drawnn_updateWeights_eq,
    Shaffer.shaffer_activateNetwork_eq, Shaffer.shaffer_activateNetwork_eq,
    Shaffer.shaffer_updateWeights_eq, Shaffer.shaffer_updateWeights_eq]
  refine ⟨⟨da, du1, du2, ?_, ?_⟩, sa, su1, su2, ?_, ?_⟩
  · intro x hx y hy
    rw [Drawnn.drawnn_mem_inputNodes] at hx
    rw [Drawnn.drawnn_mem_hiddenNodes] at hy
    exact du3 x y (Nat.zero_le x) hx hy.1 hy.2
  · intro x hx y hy
    rw [Drawnn.drawnn_mem_hiddenNodes] at hx
    rw [Drawnn.drawnn_mem_outputNodes] at hy
    exact du4 x y hx.1 hx.2 hy.1 hy.2
  · intro x hx y hy
    rw [Shaffer.shaffer_mem_inputNodes] at hx
    rw [Shaffer.shaffer_mem_hiddenNodes] at hy
    exact su3 x y hx.1 hx.2 hy.1 hy.2
  · intro x hx y hy
    rw [Shaffer.shaffer_mem_hiddenNodes] at hx
    rw [Shaffer.shaffer_mem_outputNodes] at hy
    exact su4 x y hx.1 hx.2 (by omega) (by omega)

/-- C17 witness: the test states against their copies with two weights changed
outside the connected blocks (in the XOR program the sentinel weight is 9 instead
of 1/2): same activations after `activateNetwork`, same sum of squared errors. -/
theorem unconnected_weights_never_read_witness :
    Sample.drawnn.Sized Drawnn.ARRAYSIZE ∧ Sample.drawnnOutside.Sized Drawnn.ARRAYSIZE ∧
    Sample.shaffer.Sized Shaffer.ARRAYSIZE ∧ Sample.shafferOutside.Sized Shaffer.ARRAYSIZE ∧
    Sample.drawnn.values = Sample.drawnnOutside.values ∧
    Sample.drawnn.expectedValues = Sample.drawnnOutside.expectedValues ∧
    Sample.drawnn.thresholds = Sample.drawnnOutside.thresholds ∧
    (∀ x ∈ Drawnn.inputNodes, ∀ y ∈ Drawnn.hiddenNodes,
      Sample.drawnn.weight x y = Sample.drawnnOutside.weight x y) ∧
    (∀ x ∈ Drawnn.hiddenNodes, ∀ y ∈ Drawnn.outputNodes,
      Sample.drawnn.weight x y = Sample.drawnnOutside.weight x y) ∧
    Sample.shaffer.values = Sample.shafferOutside.values ∧
    Sample.shaffer.expectedValues = Sample.shafferOutside.expectedValues ∧
    Sample.shaffer.thresholds = Sample.shafferOutside.thresholds ∧
    (∀ x ∈ Shaffer.inputNodes, ∀ y ∈ Shaffer.hiddenNodes,
      Sample.shaffer.weight x y = Sample.shafferOutside.weight x y) ∧
    (∀ x ∈ Shaffer.hiddenNodes, ∀ y ∈ Shaffer.outputNodes,
      Sample.shaffer.weight x y = Sample.shafferOutside.weight x y) ∧
    (Sample.shafferOutside.weight 0 0 = 9 ∧ Sample.shaffer.weight 0 0 = 1 / 2) ∧
    (Shaffer.activateNetwork Sample.pow 2 Sample.shaffer).values =
      (Shaffer.activateNetwork Sample.pow 2 Sample.shafferOutside).values ∧
    (Shaffer.updateWeights Sample.pow Sample.shaffer).1 =
      (Shaffer.updateWeights Sample.pow Sample.shafferOutside).1 ∧
    (Drawnn.updateWeights Sample.pow Sample.drawnn).2.thresholds =
      (Drawnn.updateWeights Sample.pow Sample.drawnnOutside).2.thresholds :=
  have h := unconnected_weights_never_read Sample.pow 2 Sample.drawnn Sample.drawnnOutside
    Sample.shaffer Sample.shafferOutside Sample.drawnn_sized Sample.drawnnOutside_sized
    Sample.shaffer_sized Sample.shafferOutside_sized rfl rfl rfl Sample.drawnnOutside_agrees.1
    Sample.drawnnOutside_agrees.2 rfl rfl rfl Sample.shafferOutside_agrees.1
    Sample.shafferOutside_agrees.2
  ⟨Sample.drawnn_sized, Sample.drawnnOutside_sized, Sample.shaffer_sized,
    Sample.shafferOutside_sized, rfl, rfl, rfl, Sample.drawnnOutside_agrees.1,
    Sample.drawnnOutside_agrees.2, rfl, rfl, rfl, Sample.shafferOutside_agrees.1,
    Sample.shafferOutside_agrees.2, Sample.shafferOutside_differs, h.2.1, h.2.2.1, h.1.2.2.1⟩

/-- C18: in exact arithmetic (an ordered field with a floor, `int(x)` truncating
toward zero, `uint8(n)` keeping the low eight bits), for all `v ≤ w` in `[0, 1]`,
in both programs: `mapFloatToInt(v, 0, 1, 0, 255)` is an integer in `[0, 255]`,
it is 0 at `v = 0` and 255 at `v = 1`, it is monotonically non-decreasing
(`mapFloatToInt(v, …) ≤ mapFloatToInt(w, …)`), and `uint8` of it is the same
number (no wrap). In `shaffer.go`, `255 - mapFloatToInt(v, 0, 1, 0, 255)` is in
`[0, 255]` too and `uint8` does not change it either. Hence, for every state whose
activations all lie in `[0, 1]`, each grey level `displayNetwork` builds equals
the unconverted integer. -/
theorem mapFloatToInt_grey_levels [LinearOrderedField F] [FloorRing F] (v w : F)
    (hv0 : 0 ≤ v) (hvw : v ≤ w) (hw1 : w ≤ 1) (nd ns : Net F) (hud : nd.UnitActivations)
    (hus : ns.UnitActivations) :
    ((0 ≤ Drawnn.mapFloatToInt v 0 1 0 255 ∧ Drawnn.mapFloatToInt v 0 1 0 255 ≤ 255) ∧
      Drawnn.mapFloatToInt (0 : F) 0 1 0 255 = 0 ∧
      Drawnn.mapFloatToInt (1 : F) 0 1 0 255 = 255 ∧
      Drawnn.mapFloatToInt v 0 1 0 255 ≤ Drawnn.mapFloatToInt w 0 1 0 255 ∧
      uint8 (Drawnn.mapFloatToInt v 0 1 0 255) = Drawnn.mapFloatToInt v 0 1 0 255 ∧
      ∀ x y, Drawnn.displayGreys nd x y =
        (Drawnn.mapFloatToInt (nd.value (x * Drawnn.SQUAREROOTOFNODES + y)) 0 1 0 255,
          Drawnn.mapFloatToInt (nd.value (x * Drawnn.SQUAREROOTOFNODES + y +
            Drawnn.NUMINPUTNODES + Drawnn.NUMHIDDENNODES)) 0 1 0 255)) ∧
    ((0 ≤ Shaffer.mapFloatToInt v 0 1 0 255 ∧ Shaffer.mapFloatToInt v 0 1 0 255 ≤ 255) ∧
      Shaffer.mapFloatToInt (0 : F) 0 1 0 255 = 0 ∧
      Shaffer.mapFloatToInt (1 : F) 0 1 0 255 = 255 ∧
      Shaffer.mapFloatToInt v 0 1 0 255 ≤ Shaffer.mapFloatToInt w 0 1 0 255 ∧
      uint8 (Shaffer.mapFloatToInt v 0 1 0 255) = Shaffer.mapFloatToInt v 0 1 0 255 ∧
      (0 ≤ 255 - Shaffer.mapFloatToInt v 0 1 0 255 ∧
        255 - Shaffer.mapFloatToInt v 0 1 0 255 ≤ 255) ∧
      uint8 (255 - Shaffer.mapFloatToInt v 0 1 0 255) =
        255 - Shaffer.mapFloatToInt v 0 1 0 255 ∧
      Shaffer.displayGreys ns =
        [Shaffer.mapFloatToInt (ns.value 5) 0 1 0 255,
          Shaffer.mapFloatToInt (ns.value 1) 0 1 0 255,
          Shaffer.mapFloatToInt (ns.value 2) 0 1 0 255,
          255 - Shaffer.mapFloatToInt (ns.value 5) 0 1 0 255]) := by
  obtain ⟨t0, t1, t2⟩ := truncate_grey v w hv0 hvw hw1
  have grey : ∀ u : F, 0 ≤ u ∧ u ≤ 1 →
      uint8 (truncate (u * 255)) = truncate (u * 255) ∧
        uint8 (255 - truncate (u * 255)) = 255 - truncate (u * 255) := by
    intro u hu
    obtain ⟨u0, u1, -⟩ := truncate_grey u u hu.1 (le_refl u) hu.2
    exact ⟨uint8_of_range _ u0 u1, uint8_of_range _ (by omega) (by omega)⟩
  refine ⟨⟨?_, ?_, ?_, ?_, ?_, ?_⟩, ?_, ?_, ?_, ?_, ?_, ?_, ?_, ?_⟩
  · rw [Drawnn.drawnn_mapFloatToInt_grey]
    exact ⟨t0, t1⟩
  · rw [Drawnn.drawnn_mapFloatToInt_grey]
    exact truncate_grey_zero
  · rw [Drawnn.drawnn_mapFloatToInt_grey]
    exact truncate_grey_one
  · rw [Drawnn.drawnn_mapFloatToInt_grey, Drawnn.drawnn_mapFloatToInt_grey]
    exact t2
  · rw [Drawnn.drawnn_mapFloatToInt_grey]
    exact uint8_of_range _ t0 t1
  · intro x y
    unfold Drawnn.displayGreys
    simp only [Drawnn.drawnn_mapFloatToInt_grey]
    rw [(grey _ (hud.read _)).1, (grey _ (hud.read _)).1]
  · rw [Shaffer.shaffer_mapFloatToInt_grey]
    exact ⟨t0, t1⟩
  · rw [Shaffer.shaffer_mapFloatToInt_grey]
    exact truncate_grey_zero
  · rw [Shaffer.shaffer_mapFloatToInt_grey]
    exact truncate_grey_one
  · rw [Shaffer.shaffer_mapFloatToInt_grey, Shaffer.shaffer_mapFloatToInt_grey]
    exact t2
  · rw [Shaffer.shaffer_mapFloatToInt_grey]
    exact uint8_of_range _ t0 t1
  · rw [Shaffer.shaffer_mapFloatToInt_grey]
    constructor <;> omega
  · rw [Shaffer.shaffer_mapFloatToInt_grey]
    exact uint8_of_range _ (by omega) (by omega)
  · unfold Shaffer.displayGreys
    simp only [Shaffer.shaffer_mapFloatToInt_grey]
    rw [(grey _ (hus.read 5)).1, (grey _ (hus.read 1)).1, (grey _ (hus.read 2)).1,
      (grey _ (hus.read 5)).2]

/-- C18 witness: the rationals, `v = 1/2` and `w = 3/4`, and the test states,
whose activations are all 1. -/
theorem mapFloatToInt_grey_levels_witness :
    (0 : ℚ) ≤ 1 / 2 ∧ (1 / 2 : ℚ) ≤ 3 / 4 ∧ (3 / 4 : ℚ) ≤ 1 ∧
    Sample.drawnn.UnitActivations ∧ Sample.shaffer.UnitActivations ∧
    (0 ≤ Shaffer.mapFloatToInt (1 / 2 : ℚ) 0 1 0 255 ∧
      Shaffer.mapFloatToInt (1 / 2 : ℚ) 0 1 0 255 ≤ 255) ∧
    Drawnn.mapFloatToInt (1 / 2 : ℚ) 0 1 0 255 ≤ Drawnn.mapFloatToInt (3 / 4 : ℚ) 0 1 0 255 ∧
    uint8 (255 - Shaffer.mapFloatToInt (1 / 2 : ℚ) 0 1 0 255) =
      255 - Shaffer.mapFloatToInt (1 / 2 : ℚ) 0 1 0 255 :=
  have h := mapFloatToInt_grey_levels (1 / 2 : ℚ) (3 / 4) (by norm_num) (by norm_num)
    (by norm_num) Sample.drawnn Sample.shaffer Sample.drawnn_unit Sample.shaffer_unit
  ⟨by norm_num, by norm_num, by norm_num, Sample.drawnn_unit, Sample.shaffer_unit, h.2.1, h.1.2.2.2.1, h.2.2.2.2.2.2.2.1⟩

end NeuroGo
